import Mathlib

/-!
# LibraNet: a shallow embedding of `LibraNet.cpp`

The development follows the source file top to bottom: `Money`, the exception
classes, `BorrowDuration` (its three regular expressions, `std::stoi`, the date
conversion), the entities, the repositories and `LibraryService`.

Modelling conventions.

* A thrown C++ exception is a `Failure`: the class of the exception and its
  `what()` text.  A service operation returns the pair of its outcome and the
  state of the four repositories when it returns or throws.
* A `std::string` is the list of its characters.  The regular expressions only
  mention ASCII characters, so bytes and characters are interchangeable here.
* A `system_clock::time_point` is the integer count of clock ticks since the
  epoch, one tick being a nanosecond (`g++`, the compiler named in the source).
  The conversions to ticks in `from_time_t` and `computeDueAt` are 64-bit
  signed (wrap-around on overflow), and `int` arithmetic inside
  `BorrowDuration::parse` is 32-bit (`std::stoi` range check, wrap-around on
  multiplication).  The difference of two time points in `overdueDays` and the
  amounts of `Money` are not bounded.
* Every read of `system_clock::now()` inside one operation yields the same
  instant, passed to the operation as the argument `now`.
* An `unordered_map` is an association list without duplicate keys; its
  iteration order is the order of the list.  Each stored object is owned by
  exactly one key (no `shared_ptr` is stored under two keys).
* Console output is not modelled.
-/

namespace LibraNet

/-! ## Exceptions -/

/-- The exception classes of the program, and the two standard exceptions that
`std::stoi` throws. -/
inductive ExceptionType where
  | NotFoundException
  | InvalidInputException
  | BorrowException
  | ReturnException
  | ArchiveException
  | ItemNotAvailableException
  | std_invalid_argument
  | std_out_of_range
deriving DecidableEq, Repr

/-- A thrown exception: its class and its message. -/
structure Failure where
  type : ExceptionType
  what : String
deriving DecidableEq, Repr

deriving instance DecidableEq for Except

/-! ## Money -/

/-- Embedding of `class Money`: a count of paise. -/
structure Money where
  paise_ : Int := 0
deriving DecidableEq, Repr

namespace Money

/-- Embedding of `Money::operator+`. -/
def add (m o : Money) : Money := ⟨m.paise_ + o.paise_⟩

/-- Embedding of `Money::operator-`. -/
def sub (m o : Money) : Money := ⟨m.paise_ - o.paise_⟩

/-- Embedding of `Money::operator*`. -/
def mul (m : Money) (n : Int) : Money := ⟨m.paise_ * n⟩

end Money

/-! ## Enumerations -/

/-- Embedding of `enum class AvailabilityStatus`. -/
inductive AvailabilityStatus where
  | AVAILABLE | BORROWED | RESERVED | MAINTENANCE
deriving DecidableEq, Repr

/-- Embedding of `enum class BorrowStatus`. -/
inductive BorrowStatus where
  | ACTIVE | RETURNED | OVERDUE
deriving DecidableEq, Repr

/-! ## Characters and integers -/

/-- The characters removed by the `trim` lambda: space, tab, line feed,
carriage return. -/
def isTrimChar (c : Char) : Bool :=
  decide (c.toNat = 32 ∨ c.toNat = 9 ∨ c.toNat = 10 ∨ c.toNat = 13)

/-- The regex class `\s`: space, tab, line feed, vertical tab, form feed,
carriage return. -/
def isSpace (c : Char) : Bool :=
  decide (c.toNat = 32 ∨ (9 ≤ c.toNat ∧ c.toNat ≤ 13))

/-- The regex class `\d`: the decimal digits. -/
def isDigit (c : Char) : Bool :=
  decide (48 ≤ c.toNat ∧ c.toNat ≤ 57)

/-- The case folding of `std::regex::icase` on ASCII: upper case letters are
mapped to lower case, every other character to itself. -/
def toLower (c : Char) : Char :=
  if 65 ≤ c.toNat ∧ c.toNat ≤ 90 then Char.ofNat (c.toNat + 32) else c

/-- The ASCII letters. -/
def isLetter (c : Char) : Bool :=
  decide ((65 ≤ c.toNat ∧ c.toNat ≤ 90) ∨ (97 ≤ c.toNat ∧ c.toNat ≤ 122))

/-- Largest value of a C++ `int`. -/
def INT_MAX : Int := 2147483647

/-- Smallest value of a C++ `int`. -/
def INT_MIN : Int := -2147483648

/-- The value of an `int` expression whose mathematical value is `x`:
two's-complement wrap-around to 32 bits. -/
def toInt32 (x : Int) : Int := (x + 2147483648) % 4294967296 - 2147483648

/-- Largest value of a 64-bit signed integer, the representation of the
clock's durations and time points. -/
def INT64_MAX : Int := 9223372036854775807

/-- Smallest value of a 64-bit signed integer. -/
def INT64_MIN : Int := -9223372036854775808

/-- The value of a 64-bit signed expression whose mathematical value is `x`:
two's-complement wrap-around to 64 bits. -/
def toInt64 (x : Int) : Int :=
  (x + 9223372036854775808) % 18446744073709551616 - 9223372036854775808

/-- One more decimal digit `c` to the right of a numeral of value `acc`. -/
def digitStep (acc : Nat) (c : Char) : Nat := 10 * acc + (c.toNat - 48)

/-- The number denoted by a string of decimal digits. -/
def digitsValue (ds : List Char) : Nat := ds.foldl digitStep 0

/-- Embedding of `std::stoi`: skips leading white space, reads an optional sign and the
longest run of digits; throws `std::invalid_argument` when there is no digit and
`std::out_of_range` when the value is not an `int`. -/
def stoi (str : List Char) : Except Failure Int :=
  let s1 := str.dropWhile isSpace
  let signed : Bool × List Char :=
    match s1 with
    | c :: r => if c = '-' then (true, r) else if c = '+' then (false, r) else (false, s1)
    | [] => (false, s1)
  let ds := signed.2.takeWhile isDigit
  if ds = [] then .error ⟨.std_invalid_argument, "stoi"⟩
  else
    let v : Int := if signed.1 then -(digitsValue ds : Int) else (digitsValue ds : Int)
    if v < INT_MIN ∨ INT_MAX < v then .error ⟨.std_out_of_range, "stoi"⟩
    else .ok v

/-! ## Time -/

/-- Clock ticks (nanoseconds) in one hour. -/
def ticksPerHour : Int := 3600000000000

/-- Clock ticks in one second. -/
def ticksPerSecond : Int := 1000000000

/-- Embedding of `std::tm` as filled by `std::get_time` with `"%Y-%m-%d"`: the other fields
stay zero. -/
structure Tm where
  tm_year : Int
  tm_mon : Int
  tm_mday : Int
deriving DecidableEq, Repr

/-- Embedding of `ss >> std::get_time(&t, "%Y-%m-%d")` on a string of the shape
`dddd-dd-dd`: the month must lie in 1..12 and the day in 1..31, otherwise the
stream fails (`none`). -/
def get_time (s : List Char) : Option Tm :=
  let y := digitsValue (s.take 4)
  let m := digitsValue ((s.drop 5).take 2)
  let d := digitsValue ((s.drop 8).take 2)
  if 1 ≤ m ∧ m ≤ 12 ∧ 1 ≤ d ∧ d ≤ 31 then
    some ⟨(y : Int) - 1900, (m : Int) - 1, (d : Int)⟩
  else none

/-- Days from 1970-01-01 to the first day of month `m` (1..12) of year `y` in
the proleptic Gregorian calendar. -/
def daysFromCivil (y m : Int) : Int :=
  let y1 := if m ≤ 2 then y - 1 else y
  let era := y1 / 400
  let yoe := y1 - era * 400
  let mp := (m + 9) % 12
  let doy := (153 * mp + 2) / 5
  let doe := yoe * 365 + yoe / 4 - yoe / 100 + doy
  era * 146097 + doe - 719468

/-- Embedding of `std::mktime` for a `std::tm` holding a date at midnight, the local time zone being
UTC: seconds since the epoch.  A day of the month beyond the end of the month
is carried into the next month, as `mktime` does. -/
def mktime (t : Tm) : Int :=
  (daysFromCivil (t.tm_year + 1900) (t.tm_mon + 1) + (t.tm_mday - 1)) * 86400

/-- Embedding of `system_clock::from_time_t`: the seconds are converted to clock ticks
(nanoseconds) in 64-bit signed arithmetic. -/
def from_time_t (tt : Int) : Int := toInt64 (tt * ticksPerSecond)

/-! ## BorrowDuration -/

/-- Embedding of `class BorrowDuration`: `dur_` counts hours. -/
structure BorrowDuration where
  explicitRange_ : Bool := false
  end_ : Int := 0
  dur_ : Int := 0
deriving DecidableEq, Repr

/-- The `trim` lambda of `parse`: drops the trim characters at both ends. -/
def trim (t : List Char) : List Char :=
  ((t.dropWhile isTrimChar).reverse.dropWhile isTrimChar).reverse

/-- The sub-pattern `\d{4}-\d{2}-\d{2}` at the head of the input: the ten
characters matched and what follows them. -/
def matchDate (s : List Char) : Option (List Char × List Char) :=
  match s with
  | y1 :: y2 :: y3 :: y4 :: h1 :: m1 :: m2 :: h2 :: d1 :: d2 :: rest =>
    if isDigit y1 && isDigit y2 && isDigit y3 && isDigit y4 && decide (h1 = '-')
        && isDigit m1 && isDigit m2 && decide (h2 = '-') && isDigit d1 && isDigit d2
    then some ([y1, y2, y3, y4, h1, m1, m2, h2, d1, d2], rest)
    else none
  | _ => none

/-- The pattern `\s+to\s+` (case-insensitive) at the head of the input: what
follows it. -/
def matchTo (s : List Char) : Option (List Char) :=
  match s with
  | c :: r =>
    if isSpace c then
      match r.dropWhile isSpace with
      | t :: o :: r2 =>
        if toLower t = 't' ∧ toLower o = 'o' then
          match r2 with
          | c2 :: r3 => if isSpace c2 then some (r3.dropWhile isSpace) else none
          | [] => none
        else none
      | _ => none
    else none
  | [] => none

/-- The expression `rangeRx` matched at the head of the input: the sub-matches
`m[1]` and `m[2]`. -/
def rangeRxAt (s : List Char) : Option (List Char × List Char) :=
  match matchDate s with
  | some (g1, r1) =>
    match matchTo r1 with
    | some r2 =>
      match matchDate r2 with
      | some (g2, _) => some (g1, g2)
      | none => none
    | none => none
  | none => none

/-- Embedding of `std::regex_search(s, m, rangeRx)`: the leftmost position at which
`(\d{4}-\d{2}-\d{2})\s+to\s+(\d{4}-\d{2}-\d{2})` matches, anywhere in the
input. -/
def rangeRx : List Char → Option (List Char × List Char)
  | [] => none
  | c :: cs =>
    match rangeRxAt (c :: cs) with
    | some m => some m
    | none => rangeRx cs

/-- The sub-matches of `isoRx`: `m[1]` is the outer group, which spans the
whole match; `m[2]` is the digit group of the `D` alternative and `m[3]` the
digit group of the `H` alternative. -/
structure IsoMatch where
  m1 : Option (List Char)
  m2 : Option (List Char)
  m3 : Option (List Char)
deriving DecidableEq, Repr

/-- A run of one or more digits followed by exactly one last character that
folds to `u`: the digits. -/
def digitsThen (u : Char) (r : List Char) : Option (List Char) :=
  let ds := r.takeWhile isDigit
  match r.dropWhile isDigit with
  | [c] => if ds ≠ [] ∧ toLower c = u then some ds else none
  | _ => none

/-- Embedding of `std::regex_search(s, m, isoRx)` for
`^(P(?:(\d+)D)|PT?(?:(\d+)H))$`, case-insensitive. -/
def isoRx (s : List Char) : Option IsoMatch :=
  match s with
  | p :: r =>
    if toLower p = 'p' then
      match digitsThen 'd' r with
      | some ds => some ⟨some s, some ds, none⟩
      | none =>
        let r1 := match r with
          | t :: r2 => if toLower t = 't' then r2 else r
          | [] => r
        match digitsThen 'h' r1 with
        | some hs => some ⟨some s, none, some hs⟩
        | none => none
    else none
  | [] => none

/-- The unit alternation `days?|d|weeks?|w|hours?|h`, on the folded unit. -/
def isUnit (u : List Char) : Bool :=
  decide (u ∈ ["day".data, "days".data, "d".data, "week".data, "weeks".data, "w".data,
    "hour".data, "hours".data, "h".data])

/-- Embedding of `std::regex_search(s, m, nlRx)` for
`^\s*(\d+)\s*(days?|d|weeks?|w|hours?|h)\s*$`, case-insensitive: the
sub-matches `m[1]` (the digits) and `m[2]` (the unit as written). -/
def nlRx (s : List Char) : Option (List Char × List Char) :=
  let s1 := s.dropWhile isSpace
  let ds := s1.takeWhile isDigit
  let s3 := (s1.dropWhile isDigit).dropWhile isSpace
  let unit := s3.takeWhile (fun c => !isSpace c)
  let s4 := s3.dropWhile (fun c => !isSpace c)
  if ds ≠ [] ∧ isUnit (unit.map toLower) = true ∧ s4.all isSpace = true then some (ds, unit)
  else none

/-- Whether `needle` stands at the head of `hay`. -/
def startsWith : List Char → List Char → Bool
  | _, [] => true
  | [], _ :: _ => false
  | h :: hs, n :: ns => decide (h = n) && startsWith hs ns

/-- Whether `needle` occurs somewhere in `hay`. -/
def occursIn : List Char → List Char → Bool
  | [], needle => startsWith [] needle
  | h :: hs, needle => startsWith (h :: hs) needle || occursIn hs needle

/-- Embedding of `std::regex_search(hay, std::regex(needle, icase))` for a literal
`needle`: whether it occurs somewhere in `hay`, both being case-folded. -/
def searchIcase (hay needle : List Char) : Bool :=
  occursIn (hay.map toLower) (needle.map toLower)

/-- The natural-language branch of `parse`, once `nlRx` has matched. -/
def parseNl (m1 unit : List Char) : Except Failure BorrowDuration :=
  match stoi m1 with
  | .error e => .error e
  | .ok num =>
    if searchIcase unit "week".data || searchIcase unit "w".data then
      .ok { dur_ := toInt32 (toInt32 (24 * 7) * num) }
    else if searchIcase unit "day".data || searchIcase unit "d".data then
      .ok { dur_ := toInt32 (24 * num) }
    else if searchIcase unit "hour".data || searchIcase unit "h".data then
      .ok { dur_ := num }
    else .error ⟨.InvalidInputException, "Unsupported duration unit"⟩

/-- The part of `parse` after the ISO test: the natural-language form, or the
final `throw`. -/
def parseTail (s : List Char) : Except Failure BorrowDuration :=
  match nlRx s with
  | some (m1, unit) => parseNl m1 unit
  | none => .error ⟨.InvalidInputException,
      "Unsupported duration format. Supported: '10 days', '2 weeks', 'P14D', 'PT48H', 'YYYY-MM-DD to YYYY-MM-DD'"⟩

/-- The date-range branch of `parse`, once `rangeRx` has matched. -/
def parseRange (g1 g2 : List Char) : Except Failure BorrowDuration :=
  match get_time g1, get_time g2 with
  | some t1, some t2 =>
    let tt1 := mktime t1
    let tt2 := mktime t2
    if tt1 = -1 ∨ tt2 = -1 then .error ⟨.InvalidInputException, "Failed to convert dates"⟩
    else
      let p1 := from_time_t tt1
      let p2 := from_time_t tt2
      if p2 ≤ p1 then .error ⟨.InvalidInputException, "End date must be after start date"⟩
      else .ok { explicitRange_ := true, end_ := p2 }
  | _, _ => .error ⟨.InvalidInputException, "Invalid date format in range"⟩

/-- The ISO branch of `parse`, once `isoRx` has matched: the code reads
`m[1]` and `m[2]`. -/
def parseIso (s : List Char) (m : IsoMatch) : Except Failure BorrowDuration :=
  match m.m1 with
  | some g1 =>
    match stoi g1 with
    | .error e => .error e
    | .ok days => .ok { dur_ := toInt32 (24 * days) }
  | none =>
    match m.m2 with
    | some g2 =>
      match stoi g2 with
      | .error e => .error e
      | .ok hrs => .ok { dur_ := hrs }
    | none => parseTail s

/-- Embedding of `BorrowDuration::parse` on the characters of the input. -/
def parseChars (input : List Char) : Except Failure BorrowDuration :=
  let s := trim input
  if s = [] then .error ⟨.InvalidInputException, "Empty duration string"⟩
  else
    match rangeRx s with
    | some (g1, g2) => parseRange g1 g2
    | none =>
      match isoRx s with
      | some m => parseIso s m
      | none => parseTail s

namespace BorrowDuration

/-- Embedding of `BorrowDuration::parse`. -/
def parse (input : String) : Except Failure BorrowDuration :=
  parseChars input.data

/-- Embedding of `BorrowDuration::computeDueAt`: in `borrowStart + dur_` the hours are
converted to clock ticks and added to the time point, both in 64-bit signed
arithmetic. -/
def computeDueAt (bd : BorrowDuration) (borrowStart : Int) : Int :=
  if bd.explicitRange_ then bd.end_
  else toInt64 (borrowStart + toInt64 (bd.dur_ * ticksPerHour))

end BorrowDuration

/-! ## Entities -/

/-- Embedding of `class User`. -/
structure User where
  id_ : Int := 0
  name_ : String := ""
  borrowLimit_ : Int := 5
deriving DecidableEq, Repr

/-- Embedding of `class Fine`. -/
structure Fine where
  id_ : Int
  itemId_ : Int
  userId_ : Int
  amount_ : Money
  reason_ : String
  appliedAt_ : Int
deriving DecidableEq, Repr

/-- The members that the classes derived from `Item` add to it. -/
inductive ItemVariant where
  | Book (pageCount_ : Int)
  | Audiobook (playbackDuration_ : Int) (narrator_ : String) (playing_ : Bool)
  | EMagazine (issueNumber_ : Int) (issueDate_ : Int) (archived_ : Bool)
deriving DecidableEq, Repr

/-- Embedding of `class Item` together with the members of its dynamic type. -/
structure Item where
  id_ : Int
  title_ : String
  authors_ : List String
  status_ : AvailabilityStatus := .AVAILABLE
  metadata_ : List (String × String) := []
  variant : ItemVariant
deriving DecidableEq, Repr

namespace Item

/-- Embedding of `Item::setStatus`. -/
def setStatus (it : Item) (s : AvailabilityStatus) : Item := { it with status_ := s }

/-- Embedding of `Item::typeName`, as overridden by the three derived classes. -/
def typeName (it : Item) : String :=
  match it.variant with
  | .Book _ => "Book"
  | .Audiobook _ _ _ => "Audiobook"
  | .EMagazine _ _ _ => "EMagazine"

/-- Embedding of `EMagazine::isArchived`; `false` for an item that is not an `EMagazine`. -/
def isArchived (it : Item) : Bool :=
  match it.variant with
  | .EMagazine _ _ a => a
  | _ => false

/-- Whether the dynamic type of the item is `EMagazine`
(`std::dynamic_pointer_cast<EMagazine>` gives a non-null pointer). -/
def isEMagazine (it : Item) : Bool :=
  match it.variant with
  | .EMagazine _ _ _ => true
  | _ => false

end Item

/-- Embedding of `EMagazine::archiveIssue`, on an item whose variant is the magazine with
members `n`, `d`, `archived`. -/
def archiveIssue (it : Item) (n d : Int) (archived : Bool) : Except Failure Item :=
  if archived then .error ⟨.ArchiveException, "Issue already archived"⟩
  else .ok (Item.setStatus { it with variant := .EMagazine n d true } .MAINTENANCE)

/-- Embedding of `class BorrowRecord`. -/
structure BorrowRecord where
  id_ : Int
  itemId_ : Int
  userId_ : Int
  borrowAt_ : Int
  dueAt_ : Int
  status_ : BorrowStatus := .ACTIVE
deriving DecidableEq, Repr

namespace BorrowRecord

/-- Embedding of `BorrowRecord::setId`. -/
def setId (r : BorrowRecord) (id : Int) : BorrowRecord := { r with id_ := id }

/-- Embedding of `BorrowRecord::markReturned`. -/
def markReturned (r : BorrowRecord) : BorrowRecord := { r with status_ := .RETURNED }

/-- Embedding of `BorrowRecord::isOverdue`, the clock reading `now`. -/
def isOverdue (r : BorrowRecord) (now : Int) : Bool := decide (now > r.dueAt_)

/-- Embedding of `BorrowRecord::overdueDays`, the clock reading `now`.  The divisions are
those of C++ (towards zero). -/
def overdueDays (r : BorrowRecord) (now : Int) : Int :=
  if !r.isOverdue now then 0
  else
    let diff := (now - r.dueAt_).tdiv ticksPerHour
    let days := diff.tdiv 24
    max 1 days

end BorrowRecord

/-! ## Repositories -/

/-- The member `unordered_map<int, shared_ptr<T>> storage_`. -/
abbrev Storage (T : Type) := AList (fun _ : Int => T)

namespace Storage

/-- Embedding of `storage_[id] = obj`: an existing entry keeps its place and gets the new
value, a new key gets a new entry. -/
def set {T : Type} (m : Storage T) (id : Int) (obj : T) : Storage T :=
  if id ∈ m then m.replace id obj else m.insert id obj

/-- Embedding of `InMemoryRepo::findById`. -/
def findById {T : Type} (m : Storage T) (id : Int) : Option T := m.lookup id

/-- Embedding of `InMemoryRepo::save`. -/
def save {T : Type} (m : Storage T) (obj : T) (id : Int) : Storage T := m.set id obj

/-- Embedding of `InMemoryRepo::all`. -/
def all {T : Type} (m : Storage T) : List T := m.entries.map (fun e => e.2)

/-- Embedding of `InMemoryRepo::remove`. -/
def remove {T : Type} (m : Storage T) (id : Int) : Storage T := m.erase id

/-- The effect of a member call through the `shared_ptr` stored under `id`:
the stored object is replaced by the modified one. -/
def update {T : Type} (m : Storage T) (id : Int) (obj : T) : Storage T := m.replace id obj

end Storage

/-- Embedding of `ItemRepo::findByType`. -/
def findByType (items : Storage Item) (typeName : String) : List Item :=
  (items.entries.filter (fun e => decide (e.2.typeName = typeName))).map (fun e => e.2)

/-- Embedding of `class BorrowRecordRepo`. -/
structure BorrowRecordRepo where
  storage_ : Storage BorrowRecord := ∅
  nextId_ : Int := 1
deriving DecidableEq

/-- The test of `findActiveByItemId` on a record. -/
def isActiveFor (itemId : Int) (r : BorrowRecord) : Bool :=
  decide (r.itemId_ = itemId ∧ r.status_ = .ACTIVE)

/-- All the stored records that are ACTIVE and are for the item. -/
def activeRecords (repo : BorrowRecordRepo) (itemId : Int) : List BorrowRecord :=
  (repo.storage_.entries.filter (fun e => isActiveFor itemId e.2)).map (fun e => e.2)

namespace BorrowRecordRepo

/-- Embedding of `BorrowRecordRepo::save`: the record as stored, and the repository. -/
def save (repo : BorrowRecordRepo) (r : BorrowRecord) : BorrowRecord × BorrowRecordRepo :=
  if r.id_ = 0 then
    let r1 := r.setId repo.nextId_
    (r1, { storage_ := repo.storage_.set r1.id_ r1, nextId_ := repo.nextId_ + 1 })
  else
    (r, { repo with storage_ := repo.storage_.set r.id_ r })

/-- Embedding of `BorrowRecordRepo::add`. -/
def add (repo : BorrowRecordRepo) (r : BorrowRecord) : BorrowRecordRepo := (repo.save r).2

/-- Embedding of `BorrowRecordRepo::findActiveByItemId`: the first entry, in iteration
order, whose record is ACTIVE and is for the item.  The key of the entry stands
for the returned pointer. -/
def findActiveByItemId (repo : BorrowRecordRepo) (itemId : Int) :
    Option (Sigma (fun _ : Int => BorrowRecord)) :=
  repo.storage_.entries.find? (fun e => isActiveFor itemId e.2)

/-- Embedding of `BorrowRecordRepo::findByUserId`. -/
def findByUserId (repo : BorrowRecordRepo) (userId : Int) : List BorrowRecord :=
  (repo.storage_.entries.filter (fun e => decide (e.2.userId_ = userId))).map (fun e => e.2)

end BorrowRecordRepo

/-- Embedding of `class FineRepo`.  `addFine` is the only member function that writes
`storage_` or `nextId_`, and both are private, so in every `FineRepo` the keys
in use are below `nextId_`: the field `fresh_` records this class invariant. -/
structure FineRepo where
  storage_ : Storage Fine
  nextId_ : Int
  fresh_ : ∀ k : Int, k ∈ storage_ → k < nextId_

namespace FineRepo

/-- A newly constructed `FineRepo`. -/
def empty : FineRepo where
  storage_ := ∅
  nextId_ := 1
  fresh_ := fun k hk => absurd hk (AList.not_mem_empty k)

instance : Inhabited FineRepo := ⟨empty⟩

instance : DecidableEq FineRepo := fun a b =>
  if h : a.storage_ = b.storage_ ∧ a.nextId_ = b.nextId_ then
    isTrue (by cases a; cases b; simp only [mk.injEq]; exact h)
  else
    isFalse (fun hab => h (by subst hab; exact ⟨rfl, rfl⟩))

/-- Embedding of `FineRepo::addFine`, the clock reading `now` when the `Fine` is
constructed: the new fine, and the repository. -/
def addFine (repo : FineRepo) (itemId userId : Int) (amount : Money) (reason : String)
    (now : Int) : Fine × FineRepo :=
  let id := repo.nextId_
  let f : Fine := ⟨id, itemId, userId, amount, reason, now⟩
  (f, { storage_ := repo.storage_.set id f
        nextId_ := repo.nextId_ + 1
        fresh_ := by
          intro k hk
          have hk2 : k = repo.nextId_ ∨ k ∈ repo.storage_ := by
            unfold Storage.set at hk
            split at hk
            · exact Or.inr (AList.mem_replace.mp hk)
            · exact (AList.mem_insert _).mp hk
          rcases hk2 with h | h
          · omega
          · have := repo.fresh_ k h
            omega })

/-- Embedding of `FineRepo::findByUserId`: the parameter is unnamed and unused. -/
def findByUserId (repo : FineRepo) (_userId : Int) : List Fine :=
  repo.storage_.entries.map (fun e => e.2)

end FineRepo

/-! ## LibraryService -/

/-- Embedding of `class LibraryService`: the four repositories it refers to and the daily
fine rate. -/
structure LibraryService where
  items_ : Storage Item
  users_ : Storage User
  records_ : BorrowRecordRepo
  fines_ : FineRepo
  dailyFineRate_ : Money
deriving DecidableEq

/-- What a call leaves behind: `Except.ok ()` when it returns, the exception
when it throws, and the state at that point. -/
abbrev Outcome := Except Failure Unit × LibraryService

namespace LibraryService

/-- Embedding of `LibraryService::borrowItem`, `now` being the clock reading of line 418. -/
def borrowItem (s : LibraryService) (userId itemId : Int) (durationStr : String)
    (now : Int) : Outcome :=
  match s.users_.findById userId with
  | none => (.error ⟨.NotFoundException, "User not found"⟩, s)
  | some _ =>
    match s.items_.findById itemId with
    | none => (.error ⟨.NotFoundException, "Item not found"⟩, s)
    | some item =>
      if item.status_ ≠ .AVAILABLE then
        (.error ⟨.ItemNotAvailableException, "Item not available for borrowing"⟩, s)
      else
        match BorrowDuration.parse durationStr with
        | .error e => (.error e, s)
        | .ok bd =>
          let due := bd.computeDueAt now
          if due ≤ now then
            (.error ⟨.InvalidInputException, "Computed due date must be in the future"⟩, s)
          else
            let items1 := s.items_.update itemId (item.setStatus .BORROWED)
            let record : BorrowRecord := ⟨0, itemId, userId, now, due, .ACTIVE⟩
            (.ok (), { s with items_ := items1, records_ := s.records_.add record })

/-- Embedding of `LibraryService::returnItem`, at the instant `now`. -/
def returnItem (s : LibraryService) (userId itemId : Int) (now : Int) : Outcome :=
  match s.users_.findById userId with
  | none => (.error ⟨.NotFoundException, "User not found"⟩, s)
  | some _ =>
    match s.items_.findById itemId with
    | none => (.error ⟨.NotFoundException, "Item not found"⟩, s)
    | some item =>
      match s.records_.findActiveByItemId itemId with
      | none => (.error ⟨.ReturnException, "No active borrow record for item"⟩, s)
      | some e =>
        let record := e.2
        if record.userId_ ≠ userId then
          (.error ⟨.ReturnException, "Borrow record user mismatch"⟩, s)
        else
          let overdueDays := record.overdueDays now
          let fines1 :=
            if overdueDays > 0 then
              let fineAmount := s.dailyFineRate_.mul overdueDays
              (s.fines_.addFine itemId userId fineAmount
                ("Overdue by " ++ toString overdueDays ++ " days") now).2
            else s.fines_
          let records1 : BorrowRecordRepo :=
            { s.records_ with storage_ := s.records_.storage_.update e.1 record.markReturned }
          let items1 := s.items_.update itemId (item.setStatus .AVAILABLE)
          (.ok (), { s with items_ := items1, records_ := records1, fines_ := fines1 })

/-- Embedding of `LibraryService::searchByType`. -/
def searchByType (s : LibraryService) (typeName : String) : List Item :=
  findByType s.items_ typeName

/-- Embedding of `LibraryService::archiveMagazine`. -/
def archiveMagazine (s : LibraryService) (itemId : Int) : Outcome :=
  match s.items_.findById itemId with
  | none => (.error ⟨.NotFoundException, "Item not found"⟩, s)
  | some it =>
    match it.variant with
    | .EMagazine n d archived =>
      match archiveIssue it n d archived with
      | .error e => (.error e, s)
      | .ok it1 => (.ok (), { s with items_ := s.items_.update itemId it1 })
    | _ => (.error ⟨.ArchiveException, "Item is not an EMagazine"⟩, s)

end LibraryService

/-- A call of one of the three state-changing operations of the service, with
the clock reading at the call. -/
inductive Call where
  | borrowItem (userId itemId : Int) (durationStr : String) (now : Int)
  | returnItem (userId itemId : Int) (now : Int)
  | archiveMagazine (itemId : Int)
deriving DecidableEq, Repr

/-- The outcome of a call. -/
def Call.run (s : LibraryService) : Call → Outcome
  | .borrowItem u i d now => s.borrowItem u i d now
  | .returnItem u i now => s.returnItem u i now
  | .archiveMagazine i => s.archiveMagazine i

/-- Whether the call is a `returnItem`. -/
def Call.isReturn : Call → Bool
  | .returnItem _ _ _ => true
  | _ => false

/-- The state after a sequence of calls, each of which returns or throws. -/
def runCalls (s : LibraryService) (calls : List Call) : LibraryService :=
  calls.foldl (fun st c => (c.run st).2) s

/-- The repositories as `main` sets them up before the menu loop: three items
(the magazine issued at the instant `t0`), one user, and a daily fine
rate of `Money::fromINR(10.0)`, that is 1000 paise. -/
def mainState (t0 : Int) : LibraryService where
  items_ :=
    ((((∅ : Storage Item).save
      ⟨101, "Design Patterns", ["Gamma", "Helm", "Johnson", "Vlissides"], .AVAILABLE, [],
        .Book 395⟩ 101).save
      ⟨102, "Clean Code (Audio)", ["Robert C. Martin"], .AVAILABLE, [],
        .Audiobook 9 "Narrator A" false⟩ 102).save
      ⟨103, "Tech Monthly", ["Editorial Team"], .AVAILABLE, [],
        .EMagazine 15 t0 false⟩ 103)
  users_ := (∅ : Storage User).save ⟨201, "Somen Mishra", 5⟩ 201
  records_ := {}
  fines_ := FineRepo.empty
  dailyFineRate_ := ⟨1000⟩

/-- The repositories of `main` after the caller has stored, through
`BorrowRecordRepo::add`, a record that already carries the id 1 (item 101, user
201, borrowed at 0, due at 1000): the store then holds key 1 while `nextId_` is
still 1. -/
def presetIdState : LibraryService :=
  { mainState 0 with
    records_ := ({} : BorrowRecordRepo).add ⟨1, 101, 201, 0, 1000, .ACTIVE⟩ }

/-! ## Users, sequences of saves and dates named in the claims -/

/-- The user record with the borrow limit left out of account. -/
def User.withoutLimit (u : User) : User := { u with borrowLimit_ := 0 }

/-- The state of `main` after user 201 has borrowed the book 101 at instant 5:
the user holds one ACTIVE record. -/
def holdingState : LibraryService :=
  runCalls (mainState 0) [Call.borrowItem 201 101 "10 days" 5]

/-- The state `holdingState` with the borrow limit of user 201 set to 0. -/
def holdingStateNoLimit : LibraryService :=
  { holdingState with users_ := holdingState.users_.update 201 ⟨201, "Somen Mishra", 0⟩ }

/-- Saving records one after another with `BorrowRecordRepo::save`: the records
as stored, in the order of the saves, and the repository after the last save. -/
def BorrowRecordRepo.saveAll (repo : BorrowRecordRepo) :
    List BorrowRecord → List BorrowRecord × BorrowRecordRepo
  | [] => ([], repo)
  | r :: rs => ((repo.save r).1 :: ((repo.save r).2.saveAll rs).1, ((repo.save r).2.saveAll rs).2)

/-- Whether every record of the sequence, at the time it is saved, has the id
0 or an id below `nextId_`. -/
def BorrowRecordRepo.savesKnownIds (repo : BorrowRecordRepo) : List BorrowRecord → Bool
  | [] => true
  | r :: rs => decide (r.id_ = 0 ∨ r.id_ < repo.nextId_) && (repo.save r).2.savesKnownIds rs

/-- Whether the call is a `borrowItem`. -/
def Call.isBorrow : Call → Bool
  | .borrowItem _ _ _ _ => true
  | _ => false

/-- The number of `borrowItem` calls that return, in a sequence of calls run
from the state `s`. -/
def successfulBorrows (s : LibraryService) : List Call → Nat
  | [] => 0
  | c :: cs =>
    (if c.isBorrow && decide ((c.run s).1 = .ok ()) then 1 else 0) +
      successfulBorrows (c.run s).2 cs

/-- A new record store in which the caller has saved a record that already
carries the id 1. -/
def presetIdRepo : BorrowRecordRepo :=
  (({} : BorrowRecordRepo).saveAll [⟨1, 101, 201, 0, 1000, .ACTIVE⟩]).2

/-- Whether the year is a leap year of the Gregorian calendar. -/
def isLeapYear (y : Nat) : Bool := decide (y % 4 = 0 ∧ (y % 100 ≠ 0 ∨ y % 400 = 0))

/-- The number of days of month `m` of year `y`. -/
def daysInMonth (y m : Nat) : Nat :=
  if m = 2 then (if isLeapYear y then 29 else 28)
  else if m = 4 ∨ m = 6 ∨ m = 9 ∨ m = 11 then 30 else 31

/-- A calendar date with a year of at most four digits. -/
def validDate (y m d : Nat) : Bool :=
  decide (y ≤ 9999 ∧ 1 ≤ m ∧ m ≤ 12 ∧ 1 ≤ d ∧ d ≤ daysInMonth y m)

/-- Whether the first date is earlier than the second. -/
def dateBefore (y1 m1 d1 y2 m2 d2 : Nat) : Bool :=
  decide (y1 < y2 ∨ (y1 = y2 ∧ (m1 < m2 ∨ (m1 = m2 ∧ d1 < d2))))

/-- The days of the year before the first of month `m`, in a leap year or
not. -/
def daysBeforeMonth (leap : Bool) (m : Nat) : Nat :=
  match m with
  | 1 => 0
  | 2 => 31
  | 3 => 59 + leap.toNat
  | 4 => 90 + leap.toNat
  | 5 => 120 + leap.toNat
  | 6 => 151 + leap.toNat
  | 7 => 181 + leap.toNat
  | 8 => 212 + leap.toNat
  | 9 => 243 + leap.toNat
  | 10 => 273 + leap.toNat
  | 11 => 304 + leap.toNat
  | _ => 334 + leap.toNat

/-- The days from 1970-01-01 to the first of January of year `y`, by the
formula of `daysFromCivil`. -/
def yearStart (y : Int) : Int := daysFromCivil y 1

/-- The days from 1970-01-01 to the date, by the formula of `mktime`. -/
def dayNumber (y m d : Nat) : Int := daysFromCivil (y : Int) (m : Int) + ((d : Int) - 1)

/-- Two decimal digits for a number below 100. -/
def pad2 (n : Nat) : List Char := [Nat.digitChar (n / 10), Nat.digitChar (n % 10)]

/-- Four decimal digits for a number below 10000. -/
def pad4 (n : Nat) : List Char :=
  [Nat.digitChar (n / 1000), Nat.digitChar (n / 100 % 10), Nat.digitChar (n / 10 % 10),
    Nat.digitChar (n % 10)]

/-- The date written as `YYYY-MM-DD`. -/
def fmtDate (y m d : Nat) : List Char := pad4 y ++ "-".data ++ pad2 m ++ "-".data ++ pad2 d

/-- Whether the date lies between 1677-09-22 and 2262-04-11, the first and
the last day whose midnight is a time point of the 64-bit nanosecond clock. -/
def inClockRange (y m d : Nat) : Bool :=
  !dateBefore y m d 1677 9 22 && !dateBefore 2262 4 11 y m d

/-- Whether the value is one of a 64-bit signed integer. -/
def fitsInt64 (x : Int) : Bool := decide (INT64_MIN ≤ x ∧ x ≤ INT64_MAX)

/-- The time point that the date-range branch of `parse` computes for a date:
`from_time_t(mktime(&t))` for the `std::tm` of the date, that is midnight at
the start of the date when the date is in the range of the clock. -/
def dateTimePoint (y m d : Nat) : Int :=
  from_time_t (mktime ⟨(y : Int) - 1900, (m : Int) - 1, (d : Int)⟩)

/-! ## States and invariants used in the proofs -/

/-- The state after a successful `borrowItem`. -/
def borrowedState (s : LibraryService) (userId itemId : Int) (item : Item) (now due : Int) :
    LibraryService :=
  { s with
    items_ := s.items_.update itemId (item.setStatus .BORROWED)
    records_ := s.records_.add ⟨0, itemId, userId, now, due, .ACTIVE⟩ }

/-- The fine store after a return of the record `r` at the instant `now`. -/
def finesAfterReturn (s : LibraryService) (userId itemId : Int) (r : BorrowRecord)
    (now : Int) : FineRepo :=
  if r.overdueDays now > 0 then
    (s.fines_.addFine itemId userId (s.dailyFineRate_.mul (r.overdueDays now))
      ("Overdue by " ++ toString (r.overdueDays now) ++ " days") now).2
  else s.fines_

/-- The state after a successful `returnItem` that found the entry `e`. -/
def returnedState (s : LibraryService) (userId itemId : Int) (item : Item)
    (e : Sigma (fun _ : Int => BorrowRecord)) (now : Int) : LibraryService :=
  { s with
    items_ := s.items_.update itemId (item.setStatus .AVAILABLE)
    records_ := { s.records_ with storage_ := s.records_.storage_.update e.1 e.2.markReturned }
    fines_ := finesAfterReturn s userId itemId e.2 now }

/-- The magazine `it` once archived. -/
def archivedItem (it : Item) (n d : Int) : Item :=
  Item.setStatus { it with variant := .EMagazine n d true } .MAINTENANCE

/-- No two stored records with different keys are ACTIVE for the same item. -/
def UniqueActive (repo : BorrowRecordRepo) : Prop :=
  ∀ (k1 k2 : Int) (r1 r2 : BorrowRecord),
    repo.storage_.lookup k1 = some r1 → repo.storage_.lookup k2 = some r2 →
    r1.itemId_ = r2.itemId_ → r1.status_ = .ACTIVE → r2.status_ = .ACTIVE → k1 = k2

/-- An item whose status is AVAILABLE has no ACTIVE record. -/
def AvailableFree (s : LibraryService) : Prop :=
  ∀ (i : Int) (it : Item), s.items_.lookup i = some it → it.status_ = .AVAILABLE →
    ∀ (k : Int) (r : BorrowRecord), s.records_.storage_.lookup k = some r →
      r.itemId_ = i → r.status_ ≠ .ACTIVE

/-! ## Lemmas on the storage -/

theorem kreplace_cons_eq {T : Type} (k : Int) (v b : T) (l : List (Sigma (fun _ : Int => T))) :
    List.kreplace k v (⟨k, b⟩ :: l) = ⟨k, v⟩ :: l := by
  unfold List.kreplace
  exact List.lookmap_cons_some _ _ (if_pos rfl)

theorem kreplace_cons_ne {T : Type} (k a : Int) (v b : T) (l : List (Sigma (fun _ : Int => T)))
    (h : k ≠ a) : List.kreplace k v (⟨a, b⟩ :: l) = ⟨a, b⟩ :: List.kreplace k v l := by
  unfold List.kreplace
  exact List.lookmap_cons_none _ _ (if_neg h)

theorem dlookup_kreplace {T : Type} (k k' : Int) (v : T) (l : List (Sigma (fun _ : Int => T))) :
    List.dlookup k' (List.kreplace k v l) =
      if k' = k then (List.dlookup k l).map (fun _ => v) else List.dlookup k' l := by
  induction l with
  | nil => simp [List.kreplace]
  | cons e l ih =>
    obtain ⟨a, b⟩ := e
    by_cases hka : k = a
    · subst hka
      rw [kreplace_cons_eq]
      by_cases hk : k' = k
      · subst hk
        simp [List.dlookup_cons_eq]
      · have hk2 : k' ≠ (⟨k, v⟩ : Sigma (fun _ : Int => T)).1 := hk
        have hk3 : k' ≠ (⟨k, b⟩ : Sigma (fun _ : Int => T)).1 := hk
        rw [List.dlookup_cons_ne _ _ hk2, List.dlookup_cons_ne _ _ hk3, if_neg hk]
    · rw [kreplace_cons_ne _ _ _ _ _ hka]
      have hka2 : k ≠ (⟨a, b⟩ : Sigma (fun _ : Int => T)).1 := hka
      by_cases hk : k' = k
      · subst hk
        rw [List.dlookup_cons_ne _ _ hka2, ih, if_pos rfl, if_pos rfl,
          List.dlookup_cons_ne _ _ hka2]
      · by_cases hk2 : k' = a
        · subst hk2
          simp [hk, List.dlookup_cons_eq]
        · have hk3 : k' ≠ (⟨a, b⟩ : Sigma (fun _ : Int => T)).1 := hk2
          rw [List.dlookup_cons_ne _ _ hk3, List.dlookup_cons_ne _ _ hk3, ih, if_neg hk, if_neg hk]

theorem Storage.lookup_update {T : Type} (m : Storage T) (k k' : Int) (v : T) :
    (m.update k v).lookup k' =
      if k' = k then (m.lookup k).map (fun _ => v) else m.lookup k' := by
  unfold Storage.update AList.replace AList.lookup
  exact dlookup_kreplace k k' v m.entries

theorem Storage.lookup_set {T : Type} (m : Storage T) (k k' : Int) (v : T) :
    (m.set k v).lookup k' = if k' = k then some v else m.lookup k' := by
  unfold Storage.set
  by_cases hmem : k ∈ m
  · rw [if_pos hmem]
    have h := Storage.lookup_update m k k' v
    unfold Storage.update at h
    rw [h]
    by_cases hk : k' = k
    · obtain ⟨b, hb⟩ := Option.isSome_iff_exists.mp (AList.lookup_isSome.mpr hmem)
      simp [hk, hb]
    · simp [hk]
  · rw [if_neg hmem]
    by_cases hk : k' = k
    · subst hk
      simp [AList.lookup_insert]
    · simp [hk, AList.lookup_insert_ne hk]

theorem Storage.mem_entries_iff {T : Type} (m : Storage T) (k : Int) (v : T) :
    Sigma.mk k v ∈ m.entries ↔ m.lookup k = some v := by
  rw [← AList.mem_lookup_iff]
  exact Iff.rfl

/-! ## Lemmas on `borrowItem` -/

theorem borrowItem_of_valid (s : LibraryService) (userId itemId : Int) (durationStr : String)
    (now : Int) (usr : User) (item : Item) (bd : BorrowDuration)
    (hu : s.users_.findById userId = some usr) (hi : s.items_.findById itemId = some item)
    (ha : item.status_ = .AVAILABLE) (hp : BorrowDuration.parse durationStr = .ok bd)
    (hd : now < bd.computeDueAt now) :
    s.borrowItem userId itemId durationStr now =
      (.ok (), borrowedState s userId itemId item now (bd.computeDueAt now)) := by
  unfold LibraryService.borrowItem borrowedState
  simp only [hu, hi, ha, hp, ne_eq, not_true_eq_false, if_false]
  rw [if_neg (by omega)]

theorem borrowItem_cases (s : LibraryService) (userId itemId : Int) (durationStr : String)
    (now : Int) :
    (∃ e, s.borrowItem userId itemId durationStr now = (.error e, s)) ∨
    (∃ usr item bd, s.users_.findById userId = some usr ∧ s.items_.findById itemId = some item ∧
      item.status_ = .AVAILABLE ∧ BorrowDuration.parse durationStr = .ok bd ∧
      now < bd.computeDueAt now ∧
      s.borrowItem userId itemId durationStr now =
        (.ok (), borrowedState s userId itemId item now (bd.computeDueAt now))) := by
  cases hu : s.users_.findById userId with
  | none =>
    exact Or.inl ⟨⟨.NotFoundException, "User not found"⟩, by simp [LibraryService.borrowItem, hu]⟩
  | some usr =>
    cases hi : s.items_.findById itemId with
    | none =>
      exact Or.inl ⟨⟨.NotFoundException, "Item not found"⟩,
        by simp [LibraryService.borrowItem, hu, hi]⟩
    | some item =>
      by_cases ha : item.status_ = .AVAILABLE
      · cases hp : BorrowDuration.parse durationStr with
        | error e => exact Or.inl ⟨e, by simp [LibraryService.borrowItem, hu, hi, ha, hp]⟩
        | ok bd =>
          by_cases hd : bd.computeDueAt now ≤ now
          · exact Or.inl ⟨⟨.InvalidInputException, "Computed due date must be in the future"⟩,
              by simp [LibraryService.borrowItem, hu, hi, ha, hp, hd]⟩
          · exact Or.inr ⟨usr, item, bd, rfl, rfl, ha, rfl, by omega,
              borrowItem_of_valid s userId itemId durationStr now usr item bd hu hi ha hp
                (by omega)⟩
      · exact Or.inl ⟨⟨.ItemNotAvailableException, "Item not available for borrowing"⟩,
          by simp [LibraryService.borrowItem, hu, hi, ha]⟩

/-! ## Lemmas on `returnItem` and `archiveMagazine` -/

theorem returnItem_of_valid (s : LibraryService) (userId itemId now : Int) (usr : User)
    (item : Item) (e : Sigma (fun _ : Int => BorrowRecord))
    (hu : s.users_.findById userId = some usr) (hi : s.items_.findById itemId = some item)
    (hf : s.records_.findActiveByItemId itemId = some e) (hm : e.2.userId_ = userId) :
    s.returnItem userId itemId now = (.ok (), returnedState s userId itemId item e now) := by
  unfold LibraryService.returnItem returnedState finesAfterReturn
  simp only [hu, hi, hf, hm, ne_eq, not_true_eq_false, if_false]

theorem returnItem_cases (s : LibraryService) (userId itemId now : Int) :
    (∃ e, s.returnItem userId itemId now = (.error e, s)) ∨
    (∃ usr item e, s.users_.findById userId = some usr ∧ s.items_.findById itemId = some item ∧
      s.records_.findActiveByItemId itemId = some e ∧ e.2.userId_ = userId ∧
      s.returnItem userId itemId now = (.ok (), returnedState s userId itemId item e now)) := by
  cases hu : s.users_.findById userId with
  | none =>
    exact Or.inl ⟨⟨.NotFoundException, "User not found"⟩, by simp [LibraryService.returnItem, hu]⟩
  | some usr =>
    cases hi : s.items_.findById itemId with
    | none =>
      exact Or.inl ⟨⟨.NotFoundException, "Item not found"⟩,
        by simp [LibraryService.returnItem, hu, hi]⟩
    | some item =>
      cases hf : s.records_.findActiveByItemId itemId with
      | none =>
        exact Or.inl ⟨⟨.ReturnException, "No active borrow record for item"⟩,
          by simp [LibraryService.returnItem, hu, hi, hf]⟩
      | some e =>
        by_cases hm : e.2.userId_ = userId
        · exact Or.inr ⟨usr, item, e, rfl, rfl, rfl, hm,
            returnItem_of_valid s userId itemId now usr item e hu hi hf hm⟩
        · exact Or.inl ⟨⟨.ReturnException, "Borrow record user mismatch"⟩,
            by simp [LibraryService.returnItem, hu, hi, hf, hm]⟩

theorem archiveMagazine_cases (s : LibraryService) (itemId : Int) :
    (∃ e, s.archiveMagazine itemId = (.error e, s)) ∨
    (∃ it n d, s.items_.findById itemId = some it ∧ it.variant = .EMagazine n d false ∧
      s.archiveMagazine itemId =
        (.ok (), { s with items_ := s.items_.update itemId (archivedItem it n d) })) := by
  cases hi : s.items_.findById itemId with
  | none =>
    exact Or.inl ⟨⟨.NotFoundException, "Item not found"⟩,
      by simp [LibraryService.archiveMagazine, hi]⟩
  | some it =>
    cases hv : it.variant with
    | Book pc =>
      exact Or.inl ⟨⟨.ArchiveException, "Item is not an EMagazine"⟩,
        by simp [LibraryService.archiveMagazine, hi, hv]⟩
    | Audiobook pd nr pl =>
      exact Or.inl ⟨⟨.ArchiveException, "Item is not an EMagazine"⟩,
        by simp [LibraryService.archiveMagazine, hi, hv]⟩
    | EMagazine n d archived =>
      cases archived with
      | true =>
        exact Or.inl ⟨⟨.ArchiveException, "Issue already archived"⟩,
          by simp [LibraryService.archiveMagazine, hi, hv, archiveIssue]⟩
      | false =>
        exact Or.inr ⟨it, n, d, rfl, hv,
          by simp [LibraryService.archiveMagazine, hi, hv, archiveIssue, archivedItem]⟩

theorem run_users (s : LibraryService) (c : Call) : (c.run s).2.users_ = s.users_ := by
  cases c with
  | borrowItem u i d now =>
    rcases borrowItem_cases s u i d now with ⟨e, h⟩ | ⟨usr, item, bd, _, _, _, _, _, h⟩ <;>
      simp [Call.run, h, borrowedState]
  | returnItem u i now =>
    rcases returnItem_cases s u i now with ⟨e, h⟩ | ⟨usr, item, e, _, _, _, _, h⟩ <;>
      simp [Call.run, h, returnedState]
  | archiveMagazine i =>
    rcases archiveMagazine_cases s i with ⟨e, h⟩ | ⟨it, n, d, _, _, h⟩ <;>
      simp [Call.run, h]

theorem runCalls_users (calls : List Call) (s : LibraryService) :
    (runCalls s calls).users_ = s.users_ := by
  induction calls generalizing s with
  | nil => rfl
  | cons c cs ih =>
    show (runCalls (c.run s).2 cs).users_ = s.users_
    rw [ih, run_users]

theorem run_keeps_unavailable (s : LibraryService) (c : Call) (i : Int) (it : Item)
    (hc : c.isReturn = false) (hi : s.items_.lookup i = some it)
    (hs : it.status_ ≠ .AVAILABLE) :
    ∃ it1, (c.run s).2.items_.lookup i = some it1 ∧ it1.status_ ≠ .AVAILABLE := by
  cases c with
  | borrowItem u j d now =>
    rcases borrowItem_cases s u j d now with ⟨e, h⟩ | ⟨usr, item, bd, _, hj, _, _, _, h⟩
    · exact ⟨it, by simp [Call.run, h, hi], hs⟩
    · simp only [Call.run, h, borrowedState, Storage.lookup_update]
      by_cases hij : i = j
      · subst hij
        exact ⟨item.setStatus .BORROWED, by simp [hi], by simp [Item.setStatus]⟩
      · exact ⟨it, by simp [hij, hi], hs⟩
  | returnItem u j now => simp [Call.isReturn] at hc
  | archiveMagazine j =>
    rcases archiveMagazine_cases s j with ⟨e, h⟩ | ⟨it0, n, d, hj, _, h⟩
    · exact ⟨it, by simp [Call.run, h, hi], hs⟩
    · simp only [Call.run, h, Storage.lookup_update]
      by_cases hij : i = j
      · subst hij
        exact ⟨archivedItem it0 n d, by simp [hi], by simp [archivedItem, Item.setStatus]⟩
      · exact ⟨it, by simp [hij, hi], hs⟩

theorem runCalls_keeps_unavailable (calls : List Call) (s : LibraryService) (i : Int) (it : Item)
    (hc : ∀ c ∈ calls, c.isReturn = false) (hi : s.items_.lookup i = some it)
    (hs : it.status_ ≠ .AVAILABLE) :
    ∃ it1, (runCalls s calls).items_.lookup i = some it1 ∧ it1.status_ ≠ .AVAILABLE := by
  induction calls generalizing s it with
  | nil => exact ⟨it, hi, hs⟩
  | cons c cs ih =>
    obtain ⟨it1, h1, h2⟩ :=
      run_keeps_unavailable s c i it (hc c (List.mem_cons_self _ _)) hi hs
    exact ih (c.run s).2 it1 (fun c1 hc1 => hc c1 (List.mem_cons_of_mem _ hc1)) h1 h2

theorem borrowItem_unavailable (s : LibraryService) (userId itemId : Int)
    (durationStr : String) (now : Int) (usr : User) (item : Item)
    (hu : s.users_.findById userId = some usr) (hi : s.items_.findById itemId = some item)
    (hs : item.status_ ≠ .AVAILABLE) :
    s.borrowItem userId itemId durationStr now =
      (.error ⟨.ItemNotAvailableException, "Item not available for borrowing"⟩, s) := by
  simp [LibraryService.borrowItem, hu, hi, hs]

/-! ## The invariant of the record store -/

theorem findActive_some (repo : BorrowRecordRepo) (itemId : Int)
    (e : Sigma (fun _ : Int => BorrowRecord))
    (h : repo.findActiveByItemId itemId = some e) :
    repo.storage_.lookup e.1 = some e.2 ∧ e.2.itemId_ = itemId ∧ e.2.status_ = .ACTIVE := by
  unfold BorrowRecordRepo.findActiveByItemId at h
  have hp := List.find?_some h
  have hm := List.mem_of_find?_eq_some h
  simp only [isActiveFor, decide_eq_true_eq] at hp
  exact ⟨(Storage.mem_entries_iff _ _ _).mp hm, hp.1, hp.2⟩

theorem findActive_none (repo : BorrowRecordRepo) (itemId : Int)
    (h : repo.findActiveByItemId itemId = none) (k : Int) (r : BorrowRecord)
    (hk : repo.storage_.lookup k = some r) : ¬(r.itemId_ = itemId ∧ r.status_ = .ACTIVE) := by
  unfold BorrowRecordRepo.findActiveByItemId at h
  have h2 := List.find?_eq_none.mp h ⟨k, r⟩ ((Storage.mem_entries_iff _ _ _).mpr hk)
  simpa [isActiveFor] using h2

theorem lookup_add (repo : BorrowRecordRepo) (itemId userId now due k : Int) :
    (repo.add ⟨0, itemId, userId, now, due, .ACTIVE⟩).storage_.lookup k =
      if k = repo.nextId_ then some ⟨repo.nextId_, itemId, userId, now, due, .ACTIVE⟩
      else repo.storage_.lookup k := by
  simp only [BorrowRecordRepo.add, BorrowRecordRepo.save, BorrowRecord.setId, if_true,
    Storage.lookup_set]

theorem inv_borrowed (s : LibraryService) (userId itemId : Int) (item : Item) (now due : Int)
    (hi : s.items_.lookup itemId = some item) (ha : item.status_ = .AVAILABLE)
    (hU : UniqueActive s.records_) (hA : AvailableFree s) :
    UniqueActive (borrowedState s userId itemId item now due).records_ ∧
    AvailableFree (borrowedState s userId itemId item now due) := by
  constructor
  · intro k1 k2 r1 r2 h1 h2 hitem ha1 ha2
    simp only [borrowedState, lookup_add] at h1 h2
    by_cases e1 : k1 = s.records_.nextId_ <;> by_cases e2 : k2 = s.records_.nextId_
    · rw [e1, e2]
    · rw [if_pos e1] at h1
      rw [if_neg e2] at h2
      cases h1
      exact absurd ha2 (hA itemId item hi ha k2 r2 h2 hitem.symm)
    · rw [if_neg e1] at h1
      rw [if_pos e2] at h2
      cases h2
      exact absurd ha1 (hA itemId item hi ha k1 r1 h1 hitem)
    · rw [if_neg e1] at h1
      rw [if_neg e2] at h2
      exact hU k1 k2 r1 r2 h1 h2 hitem ha1 ha2
  · intro i it hit hav k r hk hri
    simp only [borrowedState, Storage.lookup_update, hi, Option.map_some'] at hit
    simp only [borrowedState, lookup_add] at hk
    by_cases hii : i = itemId
    · rw [if_pos hii] at hit
      cases hit
      simp [Item.setStatus] at hav
    · rw [if_neg hii] at hit
      by_cases e1 : k = s.records_.nextId_
      · rw [if_pos e1] at hk
        cases hk
        exact absurd hri.symm hii
      · rw [if_neg e1] at hk
        exact hA i it hit hav k r hk hri

theorem inv_returned (s : LibraryService) (userId itemId : Int) (item : Item)
    (e : Sigma (fun _ : Int => BorrowRecord)) (now : Int)
    (hi : s.items_.lookup itemId = some item)
    (hf : s.records_.findActiveByItemId itemId = some e)
    (hU : UniqueActive s.records_) (hA : AvailableFree s) :
    UniqueActive (returnedState s userId itemId item e now).records_ ∧
    AvailableFree (returnedState s userId itemId item e now) := by
  obtain ⟨he1, he2, he3⟩ := findActive_some _ _ _ hf
  have hold : ∀ (k : Int) (r : BorrowRecord),
      (returnedState s userId itemId item e now).records_.storage_.lookup k = some r →
      r.status_ = .ACTIVE → k ≠ e.1 ∧ s.records_.storage_.lookup k = some r := by
    intro k r hk hact
    simp only [returnedState, Storage.lookup_update, he1, Option.map_some'] at hk
    by_cases hke : k = e.1
    · rw [if_pos hke] at hk
      cases hk
      simp [BorrowRecord.markReturned] at hact
    · rw [if_neg hke] at hk
      exact ⟨hke, hk⟩
  constructor
  · intro k1 k2 r1 r2 h1 h2 hitem ha1 ha2
    exact hU k1 k2 r1 r2 (hold k1 r1 h1 ha1).2 (hold k2 r2 h2 ha2).2 hitem ha1 ha2
  · intro i it hit hav k r hk hri hact
    obtain ⟨hke, hk2⟩ := hold k r hk hact
    simp only [returnedState, Storage.lookup_update, hi, Option.map_some'] at hit
    by_cases hii : i = itemId
    · exact hke (hU k e.1 r e.2 hk2 he1 (by rw [hri, he2, hii]) hact he3)
    · rw [if_neg hii] at hit
      exact hA i it hit hav k r hk2 hri hact

theorem inv_run (s : LibraryService) (c : Call) (hU : UniqueActive s.records_)
    (hA : AvailableFree s) : UniqueActive (c.run s).2.records_ ∧ AvailableFree (c.run s).2 := by
  cases c with
  | borrowItem u i d now =>
    rcases borrowItem_cases s u i d now with ⟨e, h⟩ | ⟨usr, item, bd, _, hi, ha, _, _, h⟩
    · simp only [Call.run, h]
      exact ⟨hU, hA⟩
    · simp only [Call.run, h]
      exact inv_borrowed s u i item now _ hi ha hU hA
  | returnItem u i now =>
    rcases returnItem_cases s u i now with ⟨e, h⟩ | ⟨usr, item, e, _, hi, hf, _, h⟩
    · simp only [Call.run, h]
      exact ⟨hU, hA⟩
    · simp only [Call.run, h]
      exact inv_returned s u i item e now hi hf hU hA
  | archiveMagazine i =>
    rcases archiveMagazine_cases s i with ⟨e, h⟩ | ⟨it0, n, d, hi, _, h⟩
    · simp only [Call.run, h]
      exact ⟨hU, hA⟩
    · simp only [Call.run, h]
      refine ⟨hU, ?_⟩
      intro j it hit hav k r hk hri
      have hi2 : s.items_.lookup i = some it0 := hi
      simp only [Storage.lookup_update, hi2, Option.map_some'] at hit
      by_cases hji : j = i
      · rw [if_pos hji] at hit
        cases hit
        simp [archivedItem, Item.setStatus] at hav
      · rw [if_neg hji] at hit
        exact hA j it hit hav k r hk hri

theorem inv_runCalls (calls : List Call) (s : LibraryService) (hU : UniqueActive s.records_)
    (hA : AvailableFree s) :
    UniqueActive (runCalls s calls).records_ ∧ AvailableFree (runCalls s calls) := by
  induction calls generalizing s with
  | nil => exact ⟨hU, hA⟩
  | cons c cs ih =>
    obtain ⟨h1, h2⟩ := inv_run s c hU hA
    exact ih (c.run s).2 h1 h2

theorem length_le_one_of_all_eq {α : Type} (l : List α) (hn : l.Nodup)
    (h : ∀ a ∈ l, ∀ b ∈ l, a = b) : l.length ≤ 1 := by
  match l, hn, h with
  | [], _, _ => simp
  | [_], _, _ => simp
  | a :: b :: t, hn, h =>
    have hab : a = b := h a (by simp) b (by simp)
    subst hab
    simp at hn

theorem activeRecords_length_of_unique (repo : BorrowRecordRepo) (hU : UniqueActive repo)
    (itemId : Int) : (activeRecords repo itemId).length ≤ 1 := by
  unfold activeRecords
  rw [List.length_map]
  apply length_le_one_of_all_eq
  · exact (repo.storage_.nodupKeys.nodup).filter _
  · intro a ha b hb
    obtain ⟨hma, hpa⟩ := List.mem_filter.mp ha
    obtain ⟨hmb, hpb⟩ := List.mem_filter.mp hb
    simp only [isActiveFor, decide_eq_true_eq] at hpa hpb
    obtain ⟨ka, ra⟩ := a
    obtain ⟨kb, rb⟩ := b
    have hla := (Storage.mem_entries_iff _ _ _).mp hma
    have hlb := (Storage.mem_entries_iff _ _ _).mp hmb
    have hk : ka = kb := hU ka kb ra rb hla hlb (by rw [hpa.1, hpb.1]) hpa.2 hpb.2
    subst hk
    rw [hla] at hlb
    cases hlb
    rfl

theorem unique_of_activeRecords_length (repo : BorrowRecordRepo) (itemId : Int)
    (h : (activeRecords repo itemId).length ≤ 1) (k1 k2 : Int) (r1 r2 : BorrowRecord)
    (h1 : repo.storage_.lookup k1 = some r1) (h2 : repo.storage_.lookup k2 = some r2)
    (hi1 : r1.itemId_ = itemId) (hi2 : r2.itemId_ = itemId)
    (ha1 : r1.status_ = .ACTIVE) (ha2 : r2.status_ = .ACTIVE) : k1 = k2 := by
  unfold activeRecords at h
  rw [List.length_map] at h
  have hm1 : (⟨k1, r1⟩ : Sigma (fun _ : Int => BorrowRecord)) ∈
      repo.storage_.entries.filter (fun e => isActiveFor itemId e.2) :=
    List.mem_filter.mpr ⟨(Storage.mem_entries_iff _ _ _).mpr h1, by simp [isActiveFor, hi1, ha1]⟩
  have hm2 : (⟨k2, r2⟩ : Sigma (fun _ : Int => BorrowRecord)) ∈
      repo.storage_.entries.filter (fun e => isActiveFor itemId e.2) :=
    List.mem_filter.mpr ⟨(Storage.mem_entries_iff _ _ _).mpr h2, by simp [isActiveFor, hi2, ha2]⟩
  generalize repo.storage_.entries.filter (fun e => isActiveFor itemId e.2) = L at h hm1 hm2
  match L, h, hm1, hm2 with
  | [], _, hm1, _ => simp at hm1
  | [x], _, hm1, hm2 =>
    simp only [List.mem_singleton] at hm1 hm2
    rw [← hm2] at hm1
    exact congrArg Sigma.fst hm1
  | _ :: _ :: _, h, _, _ => simp at h

/-! ## The record ids in use stay below `nextId_` -/

theorem Storage.mem_set {T : Type} (m : Storage T) (id k : Int) (v : T) :
    k ∈ m.set id v ↔ k = id ∨ k ∈ m := by
  unfold Storage.set
  by_cases h : id ∈ m
  · rw [if_pos h, AList.mem_replace]
    constructor
    · exact Or.inr
    · rintro (rfl | hk)
      · exact h
      · exact hk
  · rw [if_neg h]
    exact AList.mem_insert _

theorem keysBelow_run (s : LibraryService) (c : Call)
    (h : ∀ k : Int, k ∈ s.records_.storage_ → k < s.records_.nextId_) :
    ∀ k : Int, k ∈ (c.run s).2.records_.storage_ → k < (c.run s).2.records_.nextId_ := by
  cases c with
  | borrowItem u i d now =>
    rcases borrowItem_cases s u i d now with ⟨e, he⟩ | ⟨usr, item, bd, _, _, _, _, _, he⟩
    · simp only [Call.run, he]
      exact h
    · simp only [Call.run, he, borrowedState, BorrowRecordRepo.add, BorrowRecordRepo.save,
        BorrowRecord.setId, if_true]
      intro k hk
      rcases (Storage.mem_set _ _ _ _).mp hk with hk1 | hk1
      · omega
      · have := h k hk1
        omega
  | returnItem u i now =>
    rcases returnItem_cases s u i now with ⟨e, he⟩ | ⟨usr, item, e, _, _, _, _, he⟩
    · simp only [Call.run, he]
      exact h
    · simp only [Call.run, he, returnedState, Storage.update]
      intro k hk
      exact h k (AList.mem_replace.mp hk)
  | archiveMagazine i =>
    rcases archiveMagazine_cases s i with ⟨e, he⟩ | ⟨it0, n, d, _, _, he⟩
    · simp only [Call.run, he]
      exact h
    · simp only [Call.run, he]
      exact h

theorem nextId_unused_reachable (calls : List Call) (s : LibraryService)
    (h : ∀ k : Int, k ∈ s.records_.storage_ → k < s.records_.nextId_) :
    (runCalls s calls).records_.nextId_ ∉ (runCalls s calls).records_.storage_ := by
  induction calls generalizing s with
  | nil =>
    intro hm
    have := h _ hm
    simp only [runCalls, List.foldl] at this
    omega
  | cons c cs ih => exact ih (c.run s).2 (keysBelow_run s c h)

/-! ## Lemmas on fines -/

theorem isLetter_of_toLower (c : Char) (h : isLetter (toLower c) = true) : isLetter c = true := by
  unfold toLower at h
  split at h
  · rename_i hu
    simp only [isLetter, decide_eq_true_eq]
    exact Or.inl hu
  · exact h

theorem not_space_of_letter (c : Char) (h : isLetter c = true) : isSpace c = false := by
  simp only [isLetter, decide_eq_true_eq] at h
  simp only [isSpace, decide_eq_false_iff_not]
  omega

theorem not_digit_of_letter (c : Char) (h : isLetter c = true) : isDigit c = false := by
  simp only [isLetter, decide_eq_true_eq] at h
  simp only [isDigit, decide_eq_false_iff_not]
  omega

theorem not_trim_of_letter (c : Char) (h : isLetter c = true) : isTrimChar c = false := by
  simp only [isLetter, decide_eq_true_eq] at h
  simp only [isTrimChar, decide_eq_false_iff_not]
  omega

theorem not_space_of_digit (c : Char) (h : isDigit c = true) : isSpace c = false := by
  simp only [isDigit, decide_eq_true_eq] at h
  simp only [isSpace, decide_eq_false_iff_not]
  omega

theorem not_trim_of_digit (c : Char) (h : isDigit c = true) : isTrimChar c = false := by
  simp only [isDigit, decide_eq_true_eq] at h
  simp only [isTrimChar, decide_eq_false_iff_not]
  omega

theorem not_digit_of_space (c : Char) (h : isSpace c = true) : isDigit c = false := by
  simp only [isSpace, decide_eq_true_eq] at h
  simp only [isDigit, decide_eq_false_iff_not]
  omega

theorem space_of_trim (c : Char) (h : isTrimChar c = true) : isSpace c = true := by
  simp only [isTrimChar, decide_eq_true_eq] at h
  simp only [isSpace, decide_eq_true_eq]
  omega

theorem toNat_ne_of_eq_hyphen (c : Char) (h : c.toNat ≠ 45) : c ≠ '-' := by
  intro hc
  subst hc
  exact h (by decide)

theorem ne_hyphen_of_letter (c : Char) (h : isLetter c = true) : c ≠ '-' := by
  simp only [isLetter, decide_eq_true_eq] at h
  exact toNat_ne_of_eq_hyphen c (by omega)

theorem ne_hyphen_of_digit (c : Char) (h : isDigit c = true) : c ≠ '-' := by
  simp only [isDigit, decide_eq_true_eq] at h
  exact toNat_ne_of_eq_hyphen c (by omega)

theorem ne_hyphen_of_space (c : Char) (h : isSpace c = true) : c ≠ '-' := by
  simp only [isSpace, decide_eq_true_eq] at h
  exact toNat_ne_of_eq_hyphen c (by omega)

theorem ne_plus_of_digit (c : Char) (h : isDigit c = true) : c ≠ '+' := by
  simp only [isDigit, decide_eq_true_eq] at h
  intro hc
  subst hc
  revert h
  decide

theorem toLower_ne_p (c : Char) (h : isSpace c = true ∨ isDigit c = true) :
    toLower c ≠ 'p' := by
  have hn : c.toNat < 65 := by
    rcases h with h | h
    · simp only [isSpace, decide_eq_true_eq] at h
      omega
    · simp only [isDigit, decide_eq_true_eq] at h
      omega
  unfold toLower
  rw [if_neg (by omega)]
  intro hc
  subst hc
  revert hn
  decide

/-! ## Lemmas on decimal numerals -/

theorem digitChar_value (k : Nat) (h : k < 10) :
    isDigit (Nat.digitChar k) = true ∧ (Nat.digitChar k).toNat - 48 = k := by
  interval_cases k <;> decide

theorem toDigitsCore_spec (fuel : Nat) : ∀ (n : Nat) (ds : List Char), n < fuel →
    ∃ pre : List Char, Nat.toDigitsCore 10 fuel n ds = pre ++ ds ∧ pre ≠ [] ∧
      (∀ c ∈ pre, isDigit c = true) ∧
      ∀ acc : Nat, pre.foldl digitStep acc = acc * 10 ^ pre.length + n := by
  induction fuel with
  | zero => intro n ds h; omega
  | succ fuel ih =>
    intro n ds hn
    obtain ⟨hd1, hd2⟩ := digitChar_value (n % 10) (Nat.mod_lt _ (by omega))
    unfold Nat.toDigitsCore
    by_cases h0 : n / 10 = 0
    · simp only [h0, if_true]
      refine ⟨[Nat.digitChar (n % 10)], rfl, by simp, ?_, ?_⟩
      · intro c hc
        simp only [List.mem_singleton] at hc
        rw [hc]
        exact hd1
      · intro acc
        simp only [List.foldl, digitStep, hd2, List.length_singleton, pow_one]
        omega
    · simp only [h0, if_false]
      obtain ⟨pre, hp1, hp2, hp3, hp4⟩ := ih (n / 10) (Nat.digitChar (n % 10) :: ds) (by omega)
      refine ⟨pre ++ [Nat.digitChar (n % 10)], ?_, by simp, ?_, ?_⟩
      · rw [hp1]
        simp
      · intro c hc
        rcases List.mem_append.mp hc with h | h
        · exact hp3 c h
        · simp only [List.mem_singleton] at h
          rw [h]
          exact hd1
      · intro acc
        rw [List.foldl_append, hp4]
        simp only [List.foldl, digitStep, hd2, List.length_append, List.length_singleton,
          pow_succ]
        have := Nat.div_add_mod n 10
        nlinarith [this]

theorem repr_digits (n : Nat) :
    (Nat.repr n).data ≠ [] ∧ (∀ c ∈ (Nat.repr n).data, isDigit c = true) ∧
      digitsValue (Nat.repr n).data = n := by
  obtain ⟨pre, hp1, hp2, hp3, hp4⟩ := toDigitsCore_spec (n + 1) n [] (by omega)
  have hd : (Nat.repr n).data = pre := by
    simp only [Nat.repr, Nat.toDigits, List.asString, hp1, List.append_nil]
  rw [hd]
  refine ⟨hp2, hp3, ?_⟩
  have := hp4 0
  simpa [digitsValue, digitStep] using this

/-! ## Lemmas on `parse` -/

theorem takeWhile_all {p : Char → Bool} (l : List Char) (h : ∀ c ∈ l, p c = true) :
    l.takeWhile p = l := by
  have h2 : (l ++ []).takeWhile p = l ++ ([] : List Char).takeWhile p :=
    List.takeWhile_append_of_pos h
  simpa using h2

theorem dropWhile_all {p : Char → Bool} (l : List Char) (h : ∀ c ∈ l, p c = true) :
    l.dropWhile p = [] := by
  have h2 : (l ++ []).dropWhile p = ([] : List Char).dropWhile p :=
    List.dropWhile_append_of_pos h
  simpa using h2

theorem dropWhile_append_stop {p : Char → Bool} (a : List Char) (c : Char) (r : List Char)
    (hc : p c = false) : (a ++ c :: r).dropWhile p = a.dropWhile p ++ c :: r := by
  induction a with
  | nil => simp [hc]
  | cons x a ih =>
    by_cases hx : p x = true
    · simp [hx, ih]
    · simp [hx]

theorem stoi_digits (ds : List Char) (hne : ds ≠ []) (hd : ∀ c ∈ ds, isDigit c = true)
    (hmax : (digitsValue ds : Int) ≤ INT_MAX) : stoi ds = .ok (digitsValue ds : Int) := by
  obtain ⟨d0, ds1, rfl⟩ := List.exists_cons_of_ne_nil hne
  have hd0 : isDigit d0 = true := hd d0 (List.mem_cons_self _ _)
  have hs : isSpace d0 = false := not_space_of_digit d0 hd0
  have h1 : (d0 :: ds1).dropWhile isSpace = d0 :: ds1 := by simp [hs]
  have h2 : (d0 :: ds1).takeWhile isDigit = d0 :: ds1 := takeWhile_all _ hd
  have hmin : ¬ ((digitsValue (d0 :: ds1) : Int) < INT_MIN) := by
    unfold INT_MIN
    omega
  have hmax2 : ¬ (INT_MAX < (digitsValue (d0 :: ds1) : Int)) := by omega
  unfold stoi
  simp only [h1, if_neg (ne_hyphen_of_digit d0 hd0), if_neg (ne_plus_of_digit d0 hd0), h2]
  simp [hmin, hmax2]

theorem trim_core (w1 m w3 : List Char) (d0 u : Char) (hd : isTrimChar d0 = false)
    (hu : isTrimChar u = false) :
    trim (w1 ++ (d0 :: m ++ [u]) ++ w3) =
      w1.dropWhile isTrimChar ++ (d0 :: m ++ [u]) ++
        (w3.reverse.dropWhile isTrimChar).reverse := by
  unfold trim
  have e1 : w1 ++ (d0 :: m ++ [u]) ++ w3 = w1 ++ d0 :: (m ++ [u] ++ w3) := by simp
  rw [e1, dropWhile_append_stop w1 d0 _ hd]
  have e2 : (List.dropWhile isTrimChar w1 ++ d0 :: (m ++ [u] ++ w3)).reverse =
      w3.reverse ++ u :: (List.dropWhile isTrimChar w1 ++ d0 :: m).reverse := by simp
  rw [e2, dropWhile_append_stop w3.reverse u _ hu]
  simp

theorem matchDate_none (s : List Char) (h : '-' ∉ s) : matchDate s = none := by
  unfold matchDate
  split
  · rename_i y1 y2 y3 y4 h1 m1 m2 h2 d1 d2 rest
    have hh : h1 ≠ '-' := by
      intro he
      apply h
      rw [← he]
      simp
    simp [hh]
  · rfl

theorem rangeRx_none (s : List Char) (h : '-' ∉ s) : rangeRx s = none := by
  induction s with
  | nil => rfl
  | cons c cs ih =>
    have h1 : rangeRxAt (c :: cs) = none := by
      unfold rangeRxAt
      rw [matchDate_none _ h]
    have h2 : '-' ∉ cs := fun hm => h (List.mem_cons_of_mem _ hm)
    unfold rangeRx
    rw [h1]
    exact ih h2

theorem isoRx_none (c : Char) (r : List Char) (h : toLower c ≠ 'p') : isoRx (c :: r) = none := by
  unfold isoRx
  simp [h]

theorem nlRx_shape (a ds w2 unit b : List Char) (ha : ∀ c ∈ a, isSpace c = true)
    (hne : ds ≠ []) (hd : ∀ c ∈ ds, isDigit c = true) (hw : ∀ c ∈ w2, isSpace c = true)
    (hune : unit ≠ []) (hu : ∀ c ∈ unit, isLetter c = true)
    (hunit : isUnit (unit.map toLower) = true) (hb : ∀ c ∈ b, isSpace c = true) :
    nlRx (a ++ ds ++ w2 ++ unit ++ b) = some (ds, unit) := by
  obtain ⟨d0, ds1, rfl⟩ := List.exists_cons_of_ne_nil hne
  obtain ⟨u0, us, rfl⟩ := List.exists_cons_of_ne_nil hune
  have hd0 : isDigit d0 = true := hd d0 (List.mem_cons_self _ _)
  have hu0 : isLetter u0 = true := hu u0 (List.mem_cons_self _ _)
  have e0 : a ++ (d0 :: ds1) ++ w2 ++ (u0 :: us) ++ b =
      a ++ ((d0 :: ds1) ++ (w2 ++ ((u0 :: us) ++ b))) := by simp
  have s1 : (a ++ ((d0 :: ds1) ++ (w2 ++ ((u0 :: us) ++ b)))).dropWhile isSpace =
      (d0 :: ds1) ++ (w2 ++ ((u0 :: us) ++ b)) := by
    rw [List.dropWhile_append_of_pos ha]
    simp [not_space_of_digit d0 hd0]
  have hnd : ∀ c ∈ w2 ++ ((u0 :: us) ++ b), isDigit c = false := by
    intro c hc
    rcases List.mem_append.mp hc with h | h
    · exact not_digit_of_space c (hw c h)
    · rcases List.mem_append.mp h with h | h
      · exact not_digit_of_letter c (hu c h)
      · exact not_digit_of_space c (hb c h)
  have tw0 : (w2 ++ ((u0 :: us) ++ b)).takeWhile isDigit = [] := by
    cases hl : w2 ++ ((u0 :: us) ++ b) with
    | nil => rfl
    | cons x xs =>
      have := hnd x (by rw [hl]; simp)
      simp [this]
  have dw0 : (w2 ++ ((u0 :: us) ++ b)).dropWhile isDigit = w2 ++ ((u0 :: us) ++ b) := by
    cases hl : w2 ++ ((u0 :: us) ++ b) with
    | nil => rfl
    | cons x xs =>
      have := hnd x (by rw [hl]; simp)
      simp [this]
  have ds_eq : ((d0 :: ds1) ++ (w2 ++ ((u0 :: us) ++ b))).takeWhile isDigit = d0 :: ds1 := by
    rw [List.takeWhile_append_of_pos hd, tw0]
    simp
  have s2 : ((d0 :: ds1) ++ (w2 ++ ((u0 :: us) ++ b))).dropWhile isDigit =
      w2 ++ ((u0 :: us) ++ b) := by
    rw [List.dropWhile_append_of_pos hd, dw0]
  have s3 : (w2 ++ ((u0 :: us) ++ b)).dropWhile isSpace = (u0 :: us) ++ b := by
    rw [List.dropWhile_append_of_pos hw]
    simp [not_space_of_letter u0 hu0]
  have hns : ∀ c ∈ u0 :: us, (fun c => !isSpace c) c = true := by
    intro c hc
    simp [not_space_of_letter c (hu c hc)]
  have hbs : ∀ c ∈ b, (fun c => !isSpace c) c = false := by
    intro c hc
    simp [hb c hc]
  have tb : b.takeWhile (fun c => !isSpace c) = [] := by
    cases b with
    | nil => rfl
    | cons x xs =>
      have := hbs x (by simp)
      simp only [Bool.not_eq_false'] at this
      simp [this]
  have db : b.dropWhile (fun c => !isSpace c) = b := by
    cases b with
    | nil => rfl
    | cons x xs =>
      have := hbs x (by simp)
      simp only [Bool.not_eq_false'] at this
      simp [this]
  have un : ((u0 :: us) ++ b).takeWhile (fun c => !isSpace c) = u0 :: us := by
    rw [List.takeWhile_append_of_pos hns, tb]
    simp
  have s4 : ((u0 :: us) ++ b).dropWhile (fun c => !isSpace c) = b := by
    rw [List.dropWhile_append_of_pos hns, db]
  have hall : b.all isSpace = true := List.all_eq_true.mpr hb
  rw [e0]
  unfold nlRx
  simp only [s1, ds_eq, s2, s3, un, s4, hunit, hall]
  simp

theorem isUnit_letters (l : List Char) (h : isUnit l = true) :
    l ≠ [] ∧ ∀ c ∈ l, isLetter c = true := by
  simp only [isUnit, decide_eq_true_eq, List.mem_cons, List.mem_singleton,
    List.not_mem_nil, or_false] at h
  rcases h with h | h | h | h | h | h | h | h | h <;> subst h <;> decide

theorem unit_letters (unit : List Char) (h : isUnit (unit.map toLower) = true) :
    unit ≠ [] ∧ ∀ c ∈ unit, isLetter c = true := by
  obtain ⟨h1, h2⟩ := isUnit_letters _ h
  refine ⟨fun hn => h1 (by rw [hn]; rfl), fun c hc => ?_⟩
  exact isLetter_of_toLower c (h2 (toLower c) (List.mem_map_of_mem _ hc))

theorem parseChars_nl (w1 ds w2 unit w3 : List Char) (h1 : ∀ c ∈ w1, isSpace c = true)
    (hne : ds ≠ []) (hd : ∀ c ∈ ds, isDigit c = true) (h2 : ∀ c ∈ w2, isSpace c = true)
    (hunit : isUnit (unit.map toLower) = true) (h3 : ∀ c ∈ w3, isSpace c = true) :
    parseChars (w1 ++ ds ++ w2 ++ unit ++ w3) = parseNl ds unit := by
  obtain ⟨hune, hu⟩ := unit_letters unit hunit
  obtain ⟨d0, ds1, hds⟩ := List.exists_cons_of_ne_nil hne
  have hd0 : isDigit d0 = true := hd d0 (by rw [hds]; simp)
  have hlast := List.dropLast_append_getLast hune
  have hul : isLetter (unit.getLast hune) = true := hu _ (List.getLast_mem hune)
  have e1 : w1 ++ ds ++ w2 ++ unit ++ w3 =
      w1 ++ (d0 :: (ds1 ++ w2 ++ unit.dropLast) ++ [unit.getLast hune]) ++ w3 := by
    conv_lhs => rw [← hlast, hds]
    simp
  have e2 : d0 :: (ds1 ++ w2 ++ unit.dropLast) ++ [unit.getLast hune] = ds ++ w2 ++ unit := by
    conv_rhs => rw [← hlast, hds]
    simp
  have ha : ∀ c ∈ w1.dropWhile isTrimChar, isSpace c = true :=
    fun c hc => h1 c (List.dropWhile_subset _ hc)
  have hb : ∀ c ∈ (w3.reverse.dropWhile isTrimChar).reverse, isSpace c = true := by
    intro c hc
    have := List.dropWhile_subset _ (List.mem_reverse.mp hc)
    exact h3 c (List.mem_reverse.mp this)
  have ht : trim (w1 ++ ds ++ w2 ++ unit ++ w3) =
      w1.dropWhile isTrimChar ++ ds ++ w2 ++ unit ++
        (w3.reverse.dropWhile isTrimChar).reverse := by
    rw [e1, trim_core _ _ _ _ _ (not_trim_of_digit d0 hd0) (not_trim_of_letter _ hul), e2]
    simp
  generalize w1.dropWhile isTrimChar = a at ha ht
  generalize (w3.reverse.dropWhile isTrimChar).reverse = b at hb ht
  have hmem : ∀ c ∈ a ++ ds ++ w2 ++ unit ++ b,
      isSpace c = true ∨ isDigit c = true ∨ isLetter c = true := by
    intro c hc
    simp only [List.mem_append] at hc
    rcases hc with (((h | h) | h) | h) | h
    · exact Or.inl (ha c h)
    · exact Or.inr (Or.inl (hd c h))
    · exact Or.inl (h2 c h)
    · exact Or.inr (Or.inr (hu c h))
    · exact Or.inl (hb c h)
  have hhy : '-' ∉ a ++ ds ++ w2 ++ unit ++ b := by
    intro hm
    rcases hmem _ hm with h | h | h
    · exact ne_hyphen_of_space _ h rfl
    · exact ne_hyphen_of_digit _ h rfl
    · exact ne_hyphen_of_letter _ h rfl
  have hnil : a ++ ds ++ w2 ++ unit ++ b ≠ [] := by
    rw [hds]
    simp
  have hiso : isoRx (a ++ ds ++ w2 ++ unit ++ b) = none := by
    cases a with
    | nil =>
      rw [hds]
      exact isoRx_none d0 _ (toLower_ne_p d0 (Or.inr hd0))
    | cons x xs =>
      exact isoRx_none x _ (toLower_ne_p x (Or.inl (ha x (List.mem_cons_self _ _))))
  unfold parseChars
  simp only [ht, hnil, if_false, rangeRx_none _ hhy, hiso, parseTail,
    nlRx_shape a ds w2 unit b ha hne hd h2 hune hu hunit hb]

theorem toInt32_of_fits (x : Int) (h1 : INT_MIN ≤ x) (h2 : x ≤ INT_MAX) : toInt32 x = x := by
  unfold INT_MIN at h1
  unfold INT_MAX at h2
  unfold toInt32
  omega

theorem parseNl_week (ds unit : List Char) (n : Nat) (hs : stoi ds = .ok (n : Int))
    (hu : unit.map toLower ∈ ["week".data, "weeks".data, "w".data])
    (hfit : (168 * n : Int) ≤ INT_MAX) :
    parseNl ds unit = .ok { dur_ := 168 * (n : Int) } := by
  have hc : (searchIcase unit "week".data || searchIcase unit "w".data) = true := by
    simp only [List.mem_cons, List.mem_singleton, List.not_mem_nil, or_false] at hu
    unfold searchIcase
    rcases hu with h | h | h <;> rw [h] <;> decide
  have h24 : toInt32 (24 * 7) = 168 := by decide
  unfold parseNl
  simp only [hs, hc, if_true, h24]
  rw [toInt32_of_fits _ (by unfold INT_MIN; omega) hfit]

theorem parseNl_day (ds unit : List Char) (n : Nat) (hs : stoi ds = .ok (n : Int))
    (hu : unit.map toLower ∈ ["day".data, "days".data, "d".data])
    (hfit : (24 * n : Int) ≤ INT_MAX) :
    parseNl ds unit = .ok { dur_ := 24 * (n : Int) } := by
  simp only [List.mem_cons, List.mem_singleton, List.not_mem_nil, or_false] at hu
  have hw : (searchIcase unit "week".data || searchIcase unit "w".data) = false := by
    unfold searchIcase
    rcases hu with h | h | h <;> rw [h] <;> decide
  have hc : (searchIcase unit "day".data || searchIcase unit "d".data) = true := by
    unfold searchIcase
    rcases hu with h | h | h <;> rw [h] <;> decide
  unfold parseNl
  simp only [hs, hw, hc, if_true, Bool.false_eq_true, if_false]
  rw [toInt32_of_fits _ (by unfold INT_MIN; omega) hfit]

theorem parseNl_hour (ds unit : List Char) (n : Nat) (hs : stoi ds = .ok (n : Int))
    (hu : unit.map toLower ∈ ["hour".data, "hours".data, "h".data]) :
    parseNl ds unit = .ok { dur_ := (n : Int) } := by
  simp only [List.mem_cons, List.mem_singleton, List.not_mem_nil, or_false] at hu
  have hw : (searchIcase unit "week".data || searchIcase unit "w".data) = false := by
    unfold searchIcase
    rcases hu with h | h | h <;> rw [h] <;> decide
  have hd : (searchIcase unit "day".data || searchIcase unit "d".data) = false := by
    unfold searchIcase
    rcases hu with h | h | h <;> rw [h] <;> decide
  have hc : (searchIcase unit "hour".data || searchIcase unit "h".data) = true := by
    unfold searchIcase
    rcases hu with h | h | h <;> rw [h] <;> decide
  unfold parseNl
  simp only [hs, hw, hd, hc, if_true, Bool.false_eq_true, if_false]

theorem isUnit_of_mem (l : List Char)
    (h : l ∈ ["week".data, "weeks".data, "w".data] ∨ l ∈ ["day".data, "days".data, "d".data] ∨
      l ∈ ["hour".data, "hours".data, "h".data]) : isUnit l = true := by
  simp only [List.mem_cons, List.mem_singleton, List.not_mem_nil, or_false] at h
  rcases h with (h | h | h) | (h | h | h) | (h | h | h) <;> subst h <;> decide

theorem ne_plus_of_letter (c : Char) (h : isLetter c = true) : c ≠ '+' := by
  simp only [isLetter, decide_eq_true_eq] at h
  intro hc
  subst hc
  revert h
  decide

theorem stoi_letter (c : Char) (r : List Char) (h : isLetter c = true) :
    stoi (c :: r) = .error ⟨.std_invalid_argument, "stoi"⟩ := by
  have h1 : (c :: r).dropWhile isSpace = c :: r := by simp [not_space_of_letter c h]
  have h2 : (c :: r).takeWhile isDigit = [] := by simp [not_digit_of_letter c h]
  unfold stoi
  simp only [h1, if_neg (ne_hyphen_of_letter c h), if_neg (ne_plus_of_letter c h), h2, if_true]

theorem parseIso_throws (s : List Char) (m : IsoMatch) (h : isoRx s = some m) :
    parseIso s m = .error ⟨.std_invalid_argument, "stoi"⟩ := by
  cases s with
  | nil => simp [isoRx] at h
  | cons p r =>
    by_cases hp : toLower p = 'p'
    · have hl : isLetter p = true := isLetter_of_toLower p (by rw [hp]; decide)
      have hm : m.m1 = some (p :: r) := by
        unfold isoRx at h
        simp only [hp, if_true] at h
        split at h
        · cases h
          rfl
        · split at h
          · cases h
            rfl
          · cases h
      unfold parseIso
      simp only [hm, stoi_letter p r hl]
    · simp [isoRx, hp] at h

theorem parseChars_iso (input : List Char) (m : IsoMatch) (hr : rangeRx (trim input) = none)
    (hi : isoRx (trim input) = some m) :
    parseChars input = .error ⟨.std_invalid_argument, "stoi"⟩ := by
  have hne : trim input ≠ [] := by
    intro hn
    rw [hn] at hi
    simp [isoRx] at hi
  unfold parseChars
  simp only [hne, if_false, hr, hi, parseIso_throws _ m hi]

theorem isoRx_days (ds : List Char) (hne : ds ≠ []) (hd : ∀ c ∈ ds, isDigit c = true) :
    isoRx ("P".data ++ ds ++ "D".data) =
      some ⟨some ("P".data ++ ds ++ "D".data), some ds, none⟩ := by
  have e : "P".data ++ ds ++ "D".data = 'P' :: (ds ++ ['D']) := by
    show ['P'] ++ ds ++ ['D'] = _
    simp
  have hp : toLower 'P' = 'p' := by decide
  have hD : toLower 'D' = 'd' := by decide
  have hnd : isDigit 'D' = false := by decide
  have t1 : (ds ++ ['D']).takeWhile isDigit = ds := by
    rw [List.takeWhile_append_of_pos hd]
    simp [hnd]
  have t2 : (ds ++ ['D']).dropWhile isDigit = ['D'] := by
    rw [List.dropWhile_append_of_pos hd]
    simp [hnd]
  rw [e]
  unfold isoRx digitsThen
  simp only [hp, if_true, t1, t2, hD, ne_eq, hne, not_false_eq_true, and_self]

theorem isoRx_hours (ds : List Char) (hne : ds ≠ []) (hd : ∀ c ∈ ds, isDigit c = true) :
    isoRx ("PT".data ++ ds ++ "H".data) =
      some ⟨some ("PT".data ++ ds ++ "H".data), none, some ds⟩ := by
  obtain ⟨d0, ds1, hds⟩ := List.exists_cons_of_ne_nil hne
  have hd0 : isDigit d0 = true := hd d0 (by rw [hds]; simp)
  have e : "PT".data ++ ds ++ "H".data = 'P' :: 'T' :: (ds ++ ['H']) := by
    show ['P', 'T'] ++ ds ++ ['H'] = _
    simp
  have hp : toLower 'P' = 'p' := by decide
  have hT : toLower 'T' = 't' := by decide
  have hH : toLower 'H' = 'h' := by decide
  have hHd : toLower 'H' ≠ 'd' := by decide
  have hnT : isDigit 'T' = false := by decide
  have hnH : isDigit 'H' = false := by decide
  have t0 : ('T' :: (ds ++ ['H'])).takeWhile isDigit = [] := by simp [hnT]
  have t1 : (ds ++ ['H']).takeWhile isDigit = ds := by
    rw [List.takeWhile_append_of_pos hd]
    simp [hnH]
  have t2 : (ds ++ ['H']).dropWhile isDigit = ['H'] := by
    rw [List.dropWhile_append_of_pos hd]
    simp [hnH]
  have t3 : ('T' :: (ds ++ ['H'])).dropWhile isDigit = 'T' :: (ds ++ ['H']) := by simp [hnT]
  have hlen : 'T' :: (ds ++ ['H']) = 'T' :: d0 :: (ds1 ++ ['H']) := by
    rw [hds]
    simp
  rw [e]
  unfold isoRx digitsThen
  simp only [hp, if_true, t0, t1, t2, t3, hT, hH, ne_eq, hne, not_false_eq_true, and_self]
  rw [hlen]

theorem trim_self (d0 u : Char) (m : List Char) (hd : isTrimChar d0 = false)
    (hu : isTrimChar u = false) : trim (d0 :: m ++ [u]) = d0 :: m ++ [u] := by
  have := trim_core [] m [] d0 u hd hu
  simpa using this

theorem parseChars_iso_days (n : Nat) :
    parseChars ("P".data ++ (Nat.repr n).data ++ "D".data) =
      .error ⟨.std_invalid_argument, "stoi"⟩ := by
  obtain ⟨hne, hd, _⟩ := repr_digits n
  have e : "P".data ++ (Nat.repr n).data ++ "D".data = 'P' :: (Nat.repr n).data ++ ['D'] := by
    show ['P'] ++ (Nat.repr n).data ++ ['D'] = _
    simp
  have ht : trim ("P".data ++ (Nat.repr n).data ++ "D".data) =
      "P".data ++ (Nat.repr n).data ++ "D".data := by
    rw [e]
    exact trim_self 'P' 'D' _ (by decide) (by decide)
  have hhy : '-' ∉ "P".data ++ (Nat.repr n).data ++ "D".data := by
    rw [e]
    intro hm
    simp only [List.cons_append, List.mem_cons, List.mem_append, List.mem_singleton,
      List.not_mem_nil, or_false] at hm
    rcases hm with h | h | h
    · revert h; decide
    · exact ne_hyphen_of_digit _ (hd _ h) rfl
    · revert h; decide
  apply parseChars_iso _ ⟨some ("P".data ++ (Nat.repr n).data ++ "D".data),
    some (Nat.repr n).data, none⟩
  · rw [ht]
    exact rangeRx_none _ hhy
  · rw [ht]
    exact isoRx_days _ hne hd

theorem parseChars_iso_hours (n : Nat) :
    parseChars ("PT".data ++ (Nat.repr n).data ++ "H".data) =
      .error ⟨.std_invalid_argument, "stoi"⟩ := by
  obtain ⟨hne, hd, _⟩ := repr_digits n
  have e : "PT".data ++ (Nat.repr n).data ++ "H".data =
      'P' :: ('T' :: (Nat.repr n).data) ++ ['H'] := by
    show ['P', 'T'] ++ (Nat.repr n).data ++ ['H'] = _
    simp
  have ht : trim ("PT".data ++ (Nat.repr n).data ++ "H".data) =
      "PT".data ++ (Nat.repr n).data ++ "H".data := by
    rw [e]
    exact trim_self 'P' 'H' _ (by decide) (by decide)
  have hhy : '-' ∉ "PT".data ++ (Nat.repr n).data ++ "H".data := by
    rw [e]
    intro hm
    simp only [List.cons_append, List.mem_cons, List.mem_append, List.mem_singleton,
      List.not_mem_nil, or_false] at hm
    rcases hm with h | h | h | h
    · revert h; decide
    · revert h; decide
    · exact ne_hyphen_of_digit _ (hd _ h) rfl
    · revert h; decide
  apply parseChars_iso _ ⟨some ("PT".data ++ (Nat.repr n).data ++ "H".data), none,
    some (Nat.repr n).data⟩
  · rw [ht]
    exact rangeRx_none _ hhy
  · rw [ht]
    exact isoRx_hours _ hne hd

/-! ## Lemmas on overdue days, the type search and the borrow limit -/

theorem typeName_cases (it : Item) :
    it.typeName = "Book" ∨ it.typeName = "Audiobook" ∨ it.typeName = "EMagazine" := by
  unfold Item.typeName
  cases it.variant <;> simp

theorem findByType_eq_filter (items : Storage Item) (typeName : String) :
    findByType items typeName =
      items.all.filter (fun it => decide (it.typeName = typeName)) := by
  unfold findByType Storage.all
  rw [List.filter_map]
  rfl

theorem borrowItem_congr_users (s1 s2 : LibraryService) (userId itemId : Int)
    (durationStr : String) (now : Int)
    (hitems : s1.items_ = s2.items_) (hrec : s1.records_ = s2.records_)
    (hu : (s1.users_.findById userId).isSome = (s2.users_.findById userId).isSome) :
    (s1.borrowItem userId itemId durationStr now).1 =
      (s2.borrowItem userId itemId durationStr now).1 ∧
    (s1.borrowItem userId itemId durationStr now).2.items_ =
      (s2.borrowItem userId itemId durationStr now).2.items_ ∧
    (s1.borrowItem userId itemId durationStr now).2.records_ =
      (s2.borrowItem userId itemId durationStr now).2.records_ := by
  unfold LibraryService.borrowItem
  rw [← hitems, ← hrec]
  cases h1 : s1.users_.findById userId with
  | none =>
    rw [h1] at hu
    cases h2 : s2.users_.findById userId with
    | none => exact ⟨rfl, hitems, hrec⟩
    | some u2 => rw [h2] at hu; cases hu
  | some u1 =>
    rw [h1] at hu
    cases h2 : s2.users_.findById userId with
    | none => rw [h2] at hu; cases hu
    | some u2 =>
      simp only
      cases s1.items_.findById itemId with
      | none => exact ⟨rfl, hitems, hrec⟩
      | some item =>
        simp only
        split
        · exact ⟨rfl, hitems, hrec⟩
        · cases BorrowDuration.parse durationStr with
          | error e => exact ⟨rfl, hitems, hrec⟩
          | ok bd =>
            simp only
            split
            · exact ⟨rfl, hitems, hrec⟩
            · exact ⟨rfl, rfl, rfl⟩

theorem run_fines_borrow (s : LibraryService) (userId itemId : Int) (durationStr : String)
    (now : Int) : (s.borrowItem userId itemId durationStr now).2.fines_ = s.fines_ ∧
      (s.borrowItem userId itemId durationStr now).2.users_ = s.users_ := by
  rcases borrowItem_cases s userId itemId durationStr now with
    ⟨e, h⟩ | ⟨usr, item, bd, _, _, _, _, _, h⟩ <;> rw [h] <;> exact ⟨rfl, rfl⟩

/-! ## Lemmas on record ids -/

theorem save_zero (repo : BorrowRecordRepo) (r : BorrowRecord) (h : r.id_ = 0) :
    (repo.save r).1 = r.setId repo.nextId_ ∧
    (repo.save r).2.nextId_ = repo.nextId_ + 1 ∧
    (repo.save r).2.storage_ = repo.storage_.set repo.nextId_ (r.setId repo.nextId_) := by
  simp [BorrowRecordRepo.save, h, BorrowRecord.setId]

theorem save_nonzero (repo : BorrowRecordRepo) (r : BorrowRecord) (h : r.id_ ≠ 0) :
    (repo.save r).1 = r ∧ (repo.save r).2.nextId_ = repo.nextId_ ∧
    (repo.save r).2.storage_ = repo.storage_.set r.id_ r := by
  simp [BorrowRecordRepo.save, h]

theorem saveAll_ids (recs : List BorrowRecord) : ∀ (repo : BorrowRecordRepo),
    (∀ r ∈ recs, r.id_ = 0) →
    (repo.saveAll recs).1.map (fun r => r.id_) =
      (List.range recs.length).map (fun i : Nat => repo.nextId_ + (i : Int)) := by
  induction recs with
  | nil => intro repo _; rfl
  | cons r rs ih =>
    intro repo h
    obtain ⟨h1, h2, _⟩ := save_zero repo r (h r (List.mem_cons_self _ _))
    have ih2 := ih (repo.save r).2 (fun x hx => h x (List.mem_cons_of_mem _ hx))
    simp only [BorrowRecordRepo.saveAll, List.map_cons, List.length_cons, List.range_succ_eq_map,
      List.map_map, ih2, h1, h2, BorrowRecord.setId]
    refine congrArg₂ List.cons (by simp) ?_
    apply List.map_congr_left
    intro i _
    simp only [Function.comp]
    push_cast
    omega

theorem keysBelow_save (repo : BorrowRecordRepo) (r : BorrowRecord)
    (hr : r.id_ = 0 ∨ r.id_ < repo.nextId_)
    (h1 : 1 ≤ repo.nextId_) (h : ∀ k : Int, k ∈ repo.storage_ → k < repo.nextId_) :
    1 ≤ (repo.save r).2.nextId_ ∧
    ∀ k : Int, k ∈ (repo.save r).2.storage_ → k < (repo.save r).2.nextId_ := by
  by_cases h0 : r.id_ = 0
  · obtain ⟨_, e2, e3⟩ := save_zero repo r h0
    rw [e2, e3]
    refine ⟨by omega, fun k hk => ?_⟩
    rcases (Storage.mem_set _ _ _ _).mp hk with hk1 | hk1
    · omega
    · have := h k hk1
      omega
  · obtain ⟨_, e2, e3⟩ := save_nonzero repo r h0
    rw [e2, e3]
    refine ⟨h1, fun k hk => ?_⟩
    rcases (Storage.mem_set _ _ _ _).mp hk with hk1 | hk1
    · rcases hr with hr | hr
      · exact absurd hr h0
      · omega
    · exact h k hk1

theorem keysBelow_saveAll (recs : List BorrowRecord) : ∀ (repo : BorrowRecordRepo),
    repo.savesKnownIds recs = true → 1 ≤ repo.nextId_ →
    (∀ k : Int, k ∈ repo.storage_ → k < repo.nextId_) →
    1 ≤ (repo.saveAll recs).2.nextId_ ∧
    ∀ k : Int, k ∈ (repo.saveAll recs).2.storage_ → k < (repo.saveAll recs).2.nextId_ := by
  induction recs with
  | nil => intro repo _ h1 h; exact ⟨h1, h⟩
  | cons r rs ih =>
    intro repo hs h1 h
    simp only [BorrowRecordRepo.savesKnownIds, Bool.and_eq_true, decide_eq_true_eq] at hs
    obtain ⟨g1, g2⟩ := keysBelow_save repo r hs.1 h1 h
    exact ih (repo.save r).2 hs.2 g1 g2

theorem nextId_run (s : LibraryService) (c : Call) :
    (c.run s).2.records_.nextId_ = s.records_.nextId_ +
      ((if c.isBorrow && decide ((c.run s).1 = .ok ()) then 1 else 0 : Nat) : Int) := by
  cases c with
  | borrowItem u i d now =>
    rcases borrowItem_cases s u i d now with ⟨e, he⟩ | ⟨usr, item, bd, _, _, _, _, _, he⟩
    · simp [Call.run, he, Call.isBorrow]
    · simp [Call.run, he, Call.isBorrow, borrowedState, BorrowRecordRepo.add,
        BorrowRecordRepo.save]
  | returnItem u i now =>
    rcases returnItem_cases s u i now with ⟨e, he⟩ | ⟨usr, item, e, _, _, _, _, he⟩ <;>
      simp [Call.run, he, Call.isBorrow, returnedState]
  | archiveMagazine i =>
    rcases archiveMagazine_cases s i with ⟨e, he⟩ | ⟨it0, n, d, _, _, he⟩ <;>
      simp [Call.run, he, Call.isBorrow]

theorem nextId_runCalls (calls : List Call) : ∀ s : LibraryService,
    (runCalls s calls).records_.nextId_ =
      s.records_.nextId_ + (successfulBorrows s calls : Int) := by
  induction calls with
  | nil => intro s; simp [runCalls, successfulBorrows]
  | cons c cs ih =>
    intro s
    show (runCalls (c.run s).2 cs).records_.nextId_ = _
    rw [ih, nextId_run]
    simp only [successfulBorrows]
    push_cast
    omega

/-! ## Lemmas on rejected duration strings -/

theorem nlRx_eval (a ds w2 unit b : List Char) (ha : ∀ c ∈ a, isSpace c = true)
    (hne : ds ≠ []) (hd : ∀ c ∈ ds, isDigit c = true) (hw : ∀ c ∈ w2, isSpace c = true)
    (hune : unit ≠ []) (hu : ∀ c ∈ unit, isLetter c = true)
    (hb : ∀ c ∈ b, isSpace c = true) :
    nlRx (a ++ ds ++ w2 ++ unit ++ b) =
      if isUnit (unit.map toLower) = true then some (ds, unit) else none := by
  obtain ⟨d0, ds1, rfl⟩ := List.exists_cons_of_ne_nil hne
  obtain ⟨u0, us, rfl⟩ := List.exists_cons_of_ne_nil hune
  have hd0 : isDigit d0 = true := hd d0 (List.mem_cons_self _ _)
  have hu0 : isLetter u0 = true := hu u0 (List.mem_cons_self _ _)
  have e0 : a ++ (d0 :: ds1) ++ w2 ++ (u0 :: us) ++ b =
      a ++ ((d0 :: ds1) ++ (w2 ++ ((u0 :: us) ++ b))) := by simp
  have s1 : (a ++ ((d0 :: ds1) ++ (w2 ++ ((u0 :: us) ++ b)))).dropWhile isSpace =
      (d0 :: ds1) ++ (w2 ++ ((u0 :: us) ++ b)) := by
    rw [List.dropWhile_append_of_pos ha]
    simp [not_space_of_digit d0 hd0]
  have hnd : ∀ c ∈ w2 ++ ((u0 :: us) ++ b), isDigit c = false := by
    intro c hc
    rcases List.mem_append.mp hc with h | h
    · exact not_digit_of_space c (hw c h)
    · rcases List.mem_append.mp h with h | h
      · exact not_digit_of_letter c (hu c h)
      · exact not_digit_of_space c (hb c h)
  have tw0 : (w2 ++ ((u0 :: us) ++ b)).takeWhile isDigit = [] := by
    cases hl : w2 ++ ((u0 :: us) ++ b) with
    | nil => rfl
    | cons x xs =>
      have := hnd x (by rw [hl]; simp)
      simp [this]
  have dw0 : (w2 ++ ((u0 :: us) ++ b)).dropWhile isDigit = w2 ++ ((u0 :: us) ++ b) := by
    cases hl : w2 ++ ((u0 :: us) ++ b) with
    | nil => rfl
    | cons x xs =>
      have := hnd x (by rw [hl]; simp)
      simp [this]
  have ds_eq : ((d0 :: ds1) ++ (w2 ++ ((u0 :: us) ++ b))).takeWhile isDigit = d0 :: ds1 := by
    rw [List.takeWhile_append_of_pos hd, tw0]
    simp
  have s2 : ((d0 :: ds1) ++ (w2 ++ ((u0 :: us) ++ b))).dropWhile isDigit =
      w2 ++ ((u0 :: us) ++ b) := by
    rw [List.dropWhile_append_of_pos hd, dw0]
  have s3 : (w2 ++ ((u0 :: us) ++ b)).dropWhile isSpace = (u0 :: us) ++ b := by
    rw [List.dropWhile_append_of_pos hw]
    simp [not_space_of_letter u0 hu0]
  have hns : ∀ c ∈ u0 :: us, (fun c => !isSpace c) c = true := by
    intro c hc
    simp [not_space_of_letter c (hu c hc)]
  have hbs : ∀ c ∈ b, (fun c => !isSpace c) c = false := by
    intro c hc
    simp [hb c hc]
  have tb : b.takeWhile (fun c => !isSpace c) = [] := by
    cases b with
    | nil => rfl
    | cons x xs =>
      have := hbs x (by simp)
      simp only [Bool.not_eq_false'] at this
      simp [this]
  have db : b.dropWhile (fun c => !isSpace c) = b := by
    cases b with
    | nil => rfl
    | cons x xs =>
      have := hbs x (by simp)
      simp only [Bool.not_eq_false'] at this
      simp [this]
  have un : ((u0 :: us) ++ b).takeWhile (fun c => !isSpace c) = u0 :: us := by
    rw [List.takeWhile_append_of_pos hns, tb]
    simp
  have s4 : ((u0 :: us) ++ b).dropWhile (fun c => !isSpace c) = b := by
    rw [List.dropWhile_append_of_pos hns, db]
  have hall : b.all isSpace = true := List.all_eq_true.mpr hb
  rw [e0]
  unfold nlRx
  simp only [s1, ds_eq, s2, s3, un, s4, hall]
  simp

theorem matchDate_none_of_no_digit (s : List Char) (h : ∀ c ∈ s, isDigit c = false) :
    matchDate s = none := by
  unfold matchDate
  split
  · rename_i y1 y2 y3 y4 h1 m1 m2 h2 d1 d2 rest
    have hy : isDigit y1 = false := h y1 (by simp)
    simp [hy]
  · rfl

theorem rangeRx_none_of_no_digit (s : List Char) (h : ∀ c ∈ s, isDigit c = false) :
    rangeRx s = none := by
  induction s with
  | nil => rfl
  | cons c cs ih =>
    have h1 : rangeRxAt (c :: cs) = none := by
      unfold rangeRxAt
      rw [matchDate_none_of_no_digit _ h]
    unfold rangeRx
    rw [h1]
    exact ih (fun x hx => h x (List.mem_cons_of_mem _ hx))

theorem takeWhile_nil_of_none {p : Char → Bool} (l : List Char) (h : ∀ c ∈ l, p c = false) :
    l.takeWhile p = [] := by
  cases l with
  | nil => rfl
  | cons x xs =>
    have := h x (List.mem_cons_self _ _)
    simp [this]

theorem digitsThen_none_of_no_digit (u : Char) (r : List Char)
    (h : ∀ c ∈ r, isDigit c = false) : digitsThen u r = none := by
  unfold digitsThen
  rw [takeWhile_nil_of_none r h]
  split
  · simp
  · rfl

theorem isoRx_none_of_no_digit (s : List Char) (h : ∀ c ∈ s, isDigit c = false) :
    isoRx s = none := by
  cases s with
  | nil => rfl
  | cons p r =>
    have hr : ∀ c ∈ r, isDigit c = false := fun c hc => h c (List.mem_cons_of_mem _ hc)
    unfold isoRx
    simp only
    split
    · rw [digitsThen_none_of_no_digit _ r hr]
      cases r with
      | nil => simp [digitsThen_none_of_no_digit _ [] hr]
      | cons t r2 =>
        have hr2 : ∀ c ∈ r2, isDigit c = false :=
          fun c hc => hr c (List.mem_cons_of_mem _ hc)
        by_cases ht : toLower t = 't'
        · simp [ht, digitsThen_none_of_no_digit _ r2 hr2]
        · simp [ht, digitsThen_none_of_no_digit _ (t :: r2) hr]
    · rfl

theorem nlRx_none_of_no_digit (s : List Char) (h : ∀ c ∈ s, isDigit c = false) :
    nlRx s = none := by
  have h1 : (s.dropWhile isSpace).takeWhile isDigit = [] :=
    takeWhile_nil_of_none _ (fun c hc => h c (List.dropWhile_subset _ hc))
  unfold nlRx
  simp [h1]

theorem trim_subset (s : List Char) : ∀ c ∈ trim s, c ∈ s := by
  intro c hc
  unfold trim at hc
  have h1 := List.dropWhile_subset _ (List.mem_reverse.mp hc)
  exact List.dropWhile_subset _ (List.mem_reverse.mp h1)

theorem parseChars_no_digit (input : List Char) (h : ∀ c ∈ input, isDigit c = false) :
    parseChars input = .error ⟨.InvalidInputException, "Empty duration string"⟩ ∨
    parseChars input = .error ⟨.InvalidInputException,
      "Unsupported duration format. Supported: '10 days', '2 weeks', 'P14D', 'PT48H', 'YYYY-MM-DD to YYYY-MM-DD'"⟩ := by
  have ht : ∀ c ∈ trim input, isDigit c = false := fun c hc => h c (trim_subset _ c hc)
  unfold parseChars
  by_cases he : trim input = []
  · left
    simp [he]
  · right
    simp only [he, if_false, rangeRx_none_of_no_digit _ ht, isoRx_none_of_no_digit _ ht,
      parseTail, nlRx_none_of_no_digit _ ht]

theorem parseChars_blank (input : List Char) (h : ∀ c ∈ input, isTrimChar c = true) :
    parseChars input = .error ⟨.InvalidInputException, "Empty duration string"⟩ := by
  have ht : trim input = [] := by
    unfold trim
    rw [dropWhile_all input h]
    rfl
  unfold parseChars
  simp [ht]

theorem parseChars_unknown_word (ds word : List Char) (hne : ds ≠ [])
    (hd : ∀ c ∈ ds, isDigit c = true) (hwne : word ≠ [])
    (hw : ∀ c ∈ word, isLetter c = true) (hnu : isUnit (word.map toLower) = false) :
    parseChars (ds ++ " ".data ++ word) = .error ⟨.InvalidInputException,
      "Unsupported duration format. Supported: '10 days', '2 weeks', 'P14D', 'PT48H', 'YYYY-MM-DD to YYYY-MM-DD'"⟩ := by
  obtain ⟨d0, ds1, hds⟩ := List.exists_cons_of_ne_nil hne
  have hd0 : isDigit d0 = true := hd d0 (by rw [hds]; simp)
  have hlast := List.dropLast_append_getLast hwne
  have hul : isLetter (word.getLast hwne) = true := hw _ (List.getLast_mem hwne)
  have hsp : ∀ c ∈ " ".data, isSpace c = true := by decide
  have e1 : ds ++ " ".data ++ word =
      d0 :: (ds1 ++ " ".data ++ word.dropLast) ++ [word.getLast hwne] := by
    conv_lhs => rw [← hlast, hds]
    simp
  have ht : trim (ds ++ " ".data ++ word) = ds ++ " ".data ++ word := by
    rw [e1]
    exact trim_self d0 _ _ (not_trim_of_digit d0 hd0) (not_trim_of_letter _ hul)
  have hhy : '-' ∉ ds ++ " ".data ++ word := by
    intro hm
    simp only [List.mem_append] at hm
    rcases hm with (h | h) | h
    · exact ne_hyphen_of_digit _ (hd _ h) rfl
    · exact ne_hyphen_of_space _ (hsp _ h) rfl
    · exact ne_hyphen_of_letter _ (hw _ h) rfl
  have hnil : ds ++ " ".data ++ word ≠ [] := by
    rw [hds]
    simp
  have hiso : isoRx (ds ++ " ".data ++ word) = none := by
    rw [hds]
    exact isoRx_none d0 _ (toLower_ne_p d0 (Or.inr hd0))
  have hnl : nlRx (ds ++ " ".data ++ word) = none := by
    have := nlRx_eval [] ds " ".data word [] (by simp) hne hd hsp hwne hw (by simp)
    simp only [List.nil_append, List.append_nil, hnu, Bool.false_eq_true, if_false] at this
    exact this
  unfold parseChars
  simp only [ht, hnil, if_false, rangeRx_none _ hhy, hiso, parseTail, hnl]

/-! ## Lemmas on the calendar -/

theorem yearStart_eq (y : Int) :
    yearStart y = (y - 1) / 400 * 146097 + ((y - 1) - (y - 1) / 400 * 400) * 365 +
      ((y - 1) - (y - 1) / 400 * 400) / 4 - ((y - 1) - (y - 1) / 400 * 400) / 100 + 306
      - 719468 := by
  simp only [yearStart, daysFromCivil]
  norm_num
  ring

theorem yearStart_succ (y : Int) :
    yearStart (y + 1) = yearStart y + 365 +
      (if y % 4 = 0 ∧ (y % 100 ≠ 0 ∨ y % 400 = 0) then 1 else 0) := by
  rw [yearStart_eq, yearStart_eq]
  split <;> omega

theorem leap_cast (y : Nat) :
    (if (y : Int) % 4 = 0 ∧ ((y : Int) % 100 ≠ 0 ∨ (y : Int) % 400 = 0) then (1 : Int) else 0) =
      ((isLeapYear y).toNat : Int) := by
  unfold isLeapYear
  by_cases h : y % 4 = 0 ∧ (y % 100 ≠ 0 ∨ y % 400 = 0)
  · have h2 : (y : Int) % 4 = 0 ∧ ((y : Int) % 100 ≠ 0 ∨ (y : Int) % 400 = 0) := by omega
    rw [if_pos h2, decide_eq_true h]
    rfl
  · have h2 : ¬((y : Int) % 4 = 0 ∧ ((y : Int) % 100 ≠ 0 ∨ (y : Int) % 400 = 0)) := by omega
    rw [if_neg h2, decide_eq_false h]
    rfl

theorem yearStart_next (y : Nat) :
    yearStart ((y : Int) + 1) = yearStart y + 365 + ((isLeapYear y).toNat : Int) := by
  rw [yearStart_succ, leap_cast]

theorem yearStart_mono (y : Nat) (n : Nat) :
    yearStart (y : Int) + 365 * (n : Int) ≤ yearStart ((y + n : Nat) : Int) := by
  induction n with
  | zero => simp
  | succ n ih =>
    have h := yearStart_next (y + n)
    have e : ((y + (n + 1) : Nat) : Int) = ((y + n : Nat) : Int) + 1 := by push_cast; ring
    rw [e, h]
    have : (0 : Int) ≤ ((isLeapYear (y + n)).toNat : Int) := by omega
    push_cast at ih ⊢
    omega

theorem daysFromCivil_early (y : Int) :
    daysFromCivil y 1 = yearStart y ∧ daysFromCivil y 2 = yearStart y + 31 := by
  refine ⟨rfl, ?_⟩
  rw [yearStart_eq]
  simp only [daysFromCivil]
  norm_num
  omega

theorem daysFromCivil_late (y : Int) (m : Nat) (h1 : 3 ≤ m) (h2 : m ≤ 12) :
    daysFromCivil y (m : Int) =
      yearStart (y + 1) - 306 + ((153 * ((m : Int) - 3) + 2) / 5) := by
  rw [yearStart_eq]
  interval_cases m <;> simp only [daysFromCivil] <;> norm_num <;> omega

theorem daysFromCivil_month (y : Nat) (m : Nat) (h1 : 1 ≤ m) (h2 : m ≤ 12) :
    daysFromCivil (y : Int) (m : Int) =
      yearStart y + (daysBeforeMonth (isLeapYear y) m : Int) := by
  by_cases h3 : 3 ≤ m
  · rw [daysFromCivil_late y m h3 h2, yearStart_next]
    interval_cases m <;> simp only [daysBeforeMonth] <;> push_cast <;> omega
  · obtain ⟨e1, e2⟩ := daysFromCivil_early (y : Int)
    interval_cases m
    · simpa [daysBeforeMonth] using e1
    · simpa [daysBeforeMonth] using e2

theorem month_table (l : Bool) (y m1 m2 : Nat) (hl : isLeapYear y = l) (h1 : 1 ≤ m1)
    (h12 : m1 < m2) (h2 : m2 ≤ 12) :
    daysBeforeMonth l m1 + daysInMonth y m1 ≤ daysBeforeMonth l m2 := by
  have h3 : m1 ≤ 11 := by omega
  have h4 : 2 ≤ m2 := by omega
  cases l <;> interval_cases m1 <;> interval_cases m2 <;>
    simp [daysBeforeMonth, daysInMonth, hl] at h12 ⊢

theorem month_table_last (l : Bool) (y m : Nat) (hl : isLeapYear y = l) (h1 : 1 ≤ m)
    (h2 : m ≤ 12) : daysBeforeMonth l m + daysInMonth y m ≤ 365 + l.toNat := by
  cases l <;> interval_cases m <;> simp [daysBeforeMonth, daysInMonth, hl]

theorem dayNumber_eq (y m d : Nat) (h1 : 1 ≤ m) (h2 : m ≤ 12) :
    dayNumber y m d = yearStart y + (daysBeforeMonth (isLeapYear y) m : Int) + ((d : Int) - 1) := by
  unfold dayNumber
  rw [daysFromCivil_month y m h1 h2]

theorem dayNumber_lt (y1 m1 d1 y2 m2 d2 : Nat) (hv1 : validDate y1 m1 d1 = true)
    (hv2 : validDate y2 m2 d2 = true) (hb : dateBefore y1 m1 d1 y2 m2 d2 = true) :
    dayNumber y1 m1 d1 < dayNumber y2 m2 d2 := by
  simp only [validDate, decide_eq_true_eq] at hv1 hv2
  simp only [dateBefore, decide_eq_true_eq] at hb
  rw [dayNumber_eq y1 m1 d1 hv1.2.1 hv1.2.2.1, dayNumber_eq y2 m2 d2 hv2.2.1 hv2.2.2.1]
  have hlast := month_table_last (isLeapYear y1) y1 m1 rfl hv1.2.1 hv1.2.2.1
  rcases hb with hy | ⟨hy, hm | ⟨hm, hd⟩⟩
  · obtain ⟨n, hn⟩ : ∃ n : Nat, y2 = y1 + 1 + n := ⟨y2 - y1 - 1, by omega⟩
    have hmono := yearStart_mono (y1 + 1) n
    have hnext := yearStart_next y1
    rw [hn]
    push_cast at hmono hnext ⊢
    have : (0 : Int) ≤ (daysBeforeMonth (isLeapYear (y1 + 1 + n)) m2 : Int) := by omega
    omega
  · subst hy
    have := month_table (isLeapYear y1) y1 m1 m2 rfl hv1.2.1 hm hv2.2.2.1
    omega
  · subst hy
    subst hm
    omega

theorem dayNumber_le (y1 m1 d1 y2 m2 d2 : Nat) (hv1 : validDate y1 m1 d1 = true)
    (hv2 : validDate y2 m2 d2 = true) (hb : dateBefore y1 m1 d1 y2 m2 d2 = false) :
    dayNumber y2 m2 d2 ≤ dayNumber y1 m1 d1 := by
  by_cases hrev : dateBefore y2 m2 d2 y1 m1 d1 = true
  · exact le_of_lt (dayNumber_lt y2 m2 d2 y1 m1 d1 hv2 hv1 hrev)
  · simp only [dateBefore, decide_eq_true_eq, decide_eq_false_iff_not] at hb hrev
    have h1 : y1 = y2 := by omega
    have h2 : m1 = m2 := by omega
    have h3 : d1 = d2 := by omega
    rw [h1, h2, h3]

/-! ## Lemmas on the date-range branch -/

theorem digitsValue_pad2 (n : Nat) (h : n < 100) : digitsValue (pad2 n) = n := by
  obtain ⟨_, h1⟩ := digitChar_value (n / 10) (by omega)
  obtain ⟨_, h2⟩ := digitChar_value (n % 10) (by omega)
  simp only [digitsValue, pad2, List.foldl, digitStep, h1, h2]
  omega

theorem digitsValue_pad4 (n : Nat) (h : n < 10000) : digitsValue (pad4 n) = n := by
  obtain ⟨_, h1⟩ := digitChar_value (n / 1000) (by omega)
  obtain ⟨_, h2⟩ := digitChar_value (n / 100 % 10) (by omega)
  obtain ⟨_, h3⟩ := digitChar_value (n / 10 % 10) (by omega)
  obtain ⟨_, h4⟩ := digitChar_value (n % 10) (by omega)
  simp only [digitsValue, pad4, List.foldl, digitStep, h1, h2, h3, h4]
  omega

theorem get_time_fmtDate (y m d : Nat) (hv : validDate y m d = true) :
    get_time (fmtDate y m d) = some ⟨(y : Int) - 1900, (m : Int) - 1, (d : Int)⟩ := by
  simp only [validDate, decide_eq_true_eq] at hv
  have hd31 : d ≤ 31 := by
    have : daysInMonth y m ≤ 31 := by
      unfold daysInMonth
      split
      · split <;> omega
      · split <;> omega
    omega
  have e1 : (fmtDate y m d).take 4 = pad4 y := by simp [fmtDate, pad4]
  have e2 : ((fmtDate y m d).drop 5).take 2 = pad2 m := by simp [fmtDate, pad4, pad2]
  have e3 : ((fmtDate y m d).drop 8).take 2 = pad2 d := by simp [fmtDate, pad4, pad2]
  unfold get_time
  simp only [e1, e2, e3, digitsValue_pad4 y (by omega), digitsValue_pad2 m (by omega),
    digitsValue_pad2 d (by omega)]
  rw [if_pos ⟨hv.2.1, hv.2.2.1, hv.2.2.2.1, hd31⟩]

theorem matchDate_fmtDate (y m d : Nat) (hy : y ≤ 9999) (hm : m < 100) (hd : d < 100)
    (rest : List Char) : matchDate (fmtDate y m d ++ rest) = some (fmtDate y m d, rest) := by
  obtain ⟨a1, _⟩ := digitChar_value (y / 1000) (by omega)
  obtain ⟨a2, _⟩ := digitChar_value (y / 100 % 10) (by omega)
  obtain ⟨a3, _⟩ := digitChar_value (y / 10 % 10) (by omega)
  obtain ⟨a4, _⟩ := digitChar_value (y % 10) (by omega)
  obtain ⟨b1, _⟩ := digitChar_value (m / 10) (by omega)
  obtain ⟨b2, _⟩ := digitChar_value (m % 10) (by omega)
  obtain ⟨c1, _⟩ := digitChar_value (d / 10) (by omega)
  obtain ⟨c2, _⟩ := digitChar_value (d % 10) (by omega)
  have e : fmtDate y m d ++ rest =
      Nat.digitChar (y / 1000) :: Nat.digitChar (y / 100 % 10) :: Nat.digitChar (y / 10 % 10) ::
        Nat.digitChar (y % 10) :: '-' :: Nat.digitChar (m / 10) :: Nat.digitChar (m % 10) ::
        '-' :: Nat.digitChar (d / 10) :: Nat.digitChar (d % 10) :: rest := by
    simp [fmtDate, pad4, pad2]
  have e2 : fmtDate y m d =
      [Nat.digitChar (y / 1000), Nat.digitChar (y / 100 % 10), Nat.digitChar (y / 10 % 10),
        Nat.digitChar (y % 10), '-', Nat.digitChar (m / 10), Nat.digitChar (m % 10),
        '-', Nat.digitChar (d / 10), Nat.digitChar (d % 10)] := by
    simp [fmtDate, pad4, pad2]
  rw [e, e2]
  simp [matchDate, a1, a2, a3, a4, b1, b2, c1, c2]

theorem fmtDate_head (y m d : Nat) :
    fmtDate y m d = Nat.digitChar (y / 1000) ::
      ([Nat.digitChar (y / 100 % 10), Nat.digitChar (y / 10 % 10), Nat.digitChar (y % 10),
        '-', Nat.digitChar (m / 10), Nat.digitChar (m % 10), '-', Nat.digitChar (d / 10)]
        ++ [Nat.digitChar (d % 10)]) := by
  simp [fmtDate, pad4, pad2]

theorem matchTo_fmtDate (y m d : Nat) (hy : y ≤ 9999) :
    matchTo (" to ".data ++ fmtDate y m d) = some (fmtDate y m d) := by
  obtain ⟨a1, _⟩ := digitChar_value (y / 1000) (by omega)
  have hs : isSpace (Nat.digitChar (y / 1000)) = false := not_space_of_digit _ a1
  have e : " to ".data ++ fmtDate y m d = ' ' :: 't' :: 'o' :: ' ' :: fmtDate y m d := rfl
  have h1 : isSpace ' ' = true := by decide
  have h2 : isSpace 't' = false := by decide
  have h3 : toLower 't' = 't' := by decide
  have h4 : toLower 'o' = 'o' := by decide
  have hdw : (fmtDate y m d).dropWhile isSpace = fmtDate y m d := by
    rw [fmtDate_head]
    simp [hs]
  rw [e]
  simp only [matchTo, h1, if_true, List.dropWhile_cons_of_neg (by simp [h2] : ¬ isSpace 't' = true),
    h3, h4, and_self, hdw]

theorem rangeRx_fmt (y1 m1 d1 y2 m2 d2 : Nat) (hv1 : validDate y1 m1 d1 = true)
    (hv2 : validDate y2 m2 d2 = true) :
    rangeRx (fmtDate y1 m1 d1 ++ " to ".data ++ fmtDate y2 m2 d2) =
      some (fmtDate y1 m1 d1, fmtDate y2 m2 d2) := by
  simp only [validDate, decide_eq_true_eq] at hv1 hv2
  have hd1 : d1 ≤ 31 := by
    have : daysInMonth y1 m1 ≤ 31 := by
      unfold daysInMonth
      split
      · split <;> omega
      · split <;> omega
    omega
  have hd2 : d2 ≤ 31 := by
    have : daysInMonth y2 m2 ≤ 31 := by
      unfold daysInMonth
      split
      · split <;> omega
      · split <;> omega
    omega
  have hat : rangeRxAt (fmtDate y1 m1 d1 ++ " to ".data ++ fmtDate y2 m2 d2) =
      some (fmtDate y1 m1 d1, fmtDate y2 m2 d2) := by
    have e : fmtDate y1 m1 d1 ++ " to ".data ++ fmtDate y2 m2 d2 =
        fmtDate y1 m1 d1 ++ (" to ".data ++ fmtDate y2 m2 d2) := by simp
    have h2 := matchDate_fmtDate y2 m2 d2 hv2.1 (by omega) (by omega) []
    rw [List.append_nil] at h2
    rw [e]
    unfold rangeRxAt
    simp only [matchDate_fmtDate y1 m1 d1 hv1.1 (by omega) (by omega), matchTo_fmtDate y2 m2 d2 hv2.1,
      h2]
  have hcons : fmtDate y1 m1 d1 ++ " to ".data ++ fmtDate y2 m2 d2 =
      Nat.digitChar (y1 / 1000) :: (([Nat.digitChar (y1 / 100 % 10), Nat.digitChar (y1 / 10 % 10),
        Nat.digitChar (y1 % 10), '-', Nat.digitChar (m1 / 10), Nat.digitChar (m1 % 10), '-',
        Nat.digitChar (d1 / 10)] ++ [Nat.digitChar (d1 % 10)]) ++ " to ".data
        ++ fmtDate y2 m2 d2) := by
    rw [fmtDate_head y1 m1 d1]
    simp
  rw [hcons] at hat ⊢
  unfold rangeRx
  rw [hat]

theorem mktime_date (y m d : Nat) :
    mktime ⟨(y : Int) - 1900, (m : Int) - 1, (d : Int)⟩ = dayNumber y m d * 86400 := by
  simp [mktime, dayNumber]

theorem toInt64_of_fits (x : Int) (h1 : INT64_MIN ≤ x) (h2 : x ≤ INT64_MAX) : toInt64 x = x := by
  unfold INT64_MIN at h1
  unfold INT64_MAX at h2
  unfold toInt64
  omega

theorem toInt64_range (x : Int) : INT64_MIN ≤ toInt64 x ∧ toInt64 x ≤ INT64_MAX := by
  unfold INT64_MIN INT64_MAX toInt64
  omega

theorem dateTimePoint_wrap (y m d : Nat) :
    dateTimePoint y m d = toInt64 (dayNumber y m d * 86400 * ticksPerSecond) := by
  simp [dateTimePoint, from_time_t, mktime_date]

theorem dayNumber_clock (y m d : Nat) (hv : validDate y m d = true)
    (hr : inClockRange y m d = true) :
    -106751 ≤ dayNumber y m d ∧ dayNumber y m d ≤ 106751 := by
  simp only [inClockRange, Bool.and_eq_true, Bool.not_eq_true'] at hr
  have h1 := dayNumber_le y m d 1677 9 22 hv (by decide) hr.1
  have h2 := dayNumber_le 2262 4 11 y m d (by decide) hv hr.2
  have e1 : dayNumber 1677 9 22 = -106751 := by decide
  have e2 : dayNumber 2262 4 11 = 106751 := by decide
  rw [e1] at h1
  rw [e2] at h2
  exact ⟨h1, h2⟩

theorem dateTimePoint_eq (y m d : Nat) (hv : validDate y m d = true)
    (hr : inClockRange y m d = true) :
    dateTimePoint y m d = dayNumber y m d * 86400 * ticksPerSecond := by
  obtain ⟨h1, h2⟩ := dayNumber_clock y m d hv hr
  rw [dateTimePoint_wrap]
  apply toInt64_of_fits
  · unfold INT64_MIN ticksPerSecond
    omega
  · unfold INT64_MAX ticksPerSecond
    omega

theorem dateTimePoint_le_iff (y1 m1 d1 y2 m2 d2 : Nat) (hv1 : validDate y1 m1 d1 = true)
    (hv2 : validDate y2 m2 d2 = true) (hr1 : inClockRange y1 m1 d1 = true)
    (hr2 : inClockRange y2 m2 d2 = true) :
    dateTimePoint y2 m2 d2 ≤ dateTimePoint y1 m1 d1 ↔ dayNumber y2 m2 d2 ≤ dayNumber y1 m1 d1 := by
  rw [dateTimePoint_eq y1 m1 d1 hv1 hr1, dateTimePoint_eq y2 m2 d2 hv2 hr2]
  unfold ticksPerSecond
  omega

theorem trim_range (y1 m1 d1 y2 m2 d2 : Nat) (hy1 : y1 ≤ 9999) :
    trim (fmtDate y1 m1 d1 ++ " to ".data ++ fmtDate y2 m2 d2) =
      fmtDate y1 m1 d1 ++ " to ".data ++ fmtDate y2 m2 d2 := by
  obtain ⟨a1, _⟩ := digitChar_value (y1 / 1000) (by omega)
  obtain ⟨c2, _⟩ := digitChar_value (d2 % 10) (by omega)
  have e : fmtDate y1 m1 d1 ++ " to ".data ++ fmtDate y2 m2 d2 =
      Nat.digitChar (y1 / 1000) ::
        ([Nat.digitChar (y1 / 100 % 10), Nat.digitChar (y1 / 10 % 10), Nat.digitChar (y1 % 10),
          '-', Nat.digitChar (m1 / 10), Nat.digitChar (m1 % 10), '-', Nat.digitChar (d1 / 10),
          Nat.digitChar (d1 % 10)] ++ " to ".data ++
          [Nat.digitChar (y2 / 1000), Nat.digitChar (y2 / 100 % 10),
            Nat.digitChar (y2 / 10 % 10), Nat.digitChar (y2 % 10), '-',
            Nat.digitChar (m2 / 10), Nat.digitChar (m2 % 10), '-', Nat.digitChar (d2 / 10)])
        ++ [Nat.digitChar (d2 % 10)] := by
    simp [fmtDate, pad4, pad2]
  rw [e]
  exact trim_self _ _ _ (not_trim_of_digit _ a1) (not_trim_of_digit _ c2)

theorem parseChars_range (y1 m1 d1 y2 m2 d2 : Nat) (hv1 : validDate y1 m1 d1 = true)
    (hv2 : validDate y2 m2 d2 = true) :
    parseChars (fmtDate y1 m1 d1 ++ " to ".data ++ fmtDate y2 m2 d2) =
      if dateTimePoint y2 m2 d2 ≤ dateTimePoint y1 m1 d1 then
        .error ⟨.InvalidInputException, "End date must be after start date"⟩
      else .ok { explicitRange_ := true, end_ := dateTimePoint y2 m2 d2 } := by
  have hv1' := hv1
  have hv2' := hv2
  simp only [validDate, decide_eq_true_eq] at hv1' hv2'
  have hd2 : d2 ≤ 31 := by
    have : daysInMonth y2 m2 ≤ 31 := by
      unfold daysInMonth
      split
      · split <;> omega
      · split <;> omega
    omega
  have hne : fmtDate y1 m1 d1 ++ " to ".data ++ fmtDate y2 m2 d2 ≠ [] := by
    rw [fmtDate_head y1 m1 d1]
    simp
  have h1 : dayNumber y1 m1 d1 * 86400 ≠ -1 := by omega
  have h2 : dayNumber y2 m2 d2 * 86400 ≠ -1 := by omega
  unfold parseChars
  simp only [trim_range y1 m1 d1 y2 m2 d2 hv1'.1, hne, if_false,
    rangeRx_fmt y1 m1 d1 y2 m2 d2 hv1 hv2, parseRange, get_time_fmtDate y1 m1 d1 hv1,
    get_time_fmtDate y2 m2 d2 hv2, mktime_date, h1, h2, or_self, dateTimePoint]

theorem parseChars_range_clock (y1 m1 d1 y2 m2 d2 : Nat) (hv1 : validDate y1 m1 d1 = true)
    (hv2 : validDate y2 m2 d2 = true) (hr1 : inClockRange y1 m1 d1 = true)
    (hr2 : inClockRange y2 m2 d2 = true) :
    parseChars (fmtDate y1 m1 d1 ++ " to ".data ++ fmtDate y2 m2 d2) =
      if dayNumber y2 m2 d2 ≤ dayNumber y1 m1 d1 then
        .error ⟨.InvalidInputException, "End date must be after start date"⟩
      else .ok { explicitRange_ := true, end_ := dateTimePoint y2 m2 d2 } := by
  rw [parseChars_range y1 m1 d1 y2 m2 d2 hv1 hv2]
  simp only [dateTimePoint_le_iff y1 m1 d1 y2 m2 d2 hv1 hv2 hr1 hr2]

theorem yearStart_closed (y : Int) :
    yearStart y = 365 * (y - 1970) + ((y - 1) / 4 - (y - 1) / 100 + (y - 1) / 400) - 477 := by
  rw [yearStart_eq]
  omega

theorem dateTimePoint_closed (y m d : Nat) (hv : validDate y m d = true)
    (hr : inClockRange y m d = true) :
    dateTimePoint y m d =
      (365 * ((y : Int) - 1970) + (((y : Int) - 1) / 4 - ((y : Int) - 1) / 100 +
          ((y : Int) - 1) / 400 - 477) +
        (daysBeforeMonth (isLeapYear y) m : Int) + ((d : Int) - 1)) * 86400 * ticksPerSecond := by
  have hm : 1 ≤ m ∧ m ≤ 12 := by
    simp only [validDate, decide_eq_true_eq] at hv
    exact ⟨hv.2.1, hv.2.2.1⟩
  rw [dateTimePoint_eq y m d hv hr, dayNumber_eq y m d hm.1 hm.2, yearStart_closed]
  ring

/-! ## Lemmas on a date range inside other text -/

theorem matchDate_none_of_fifth (a b c d e : Char) (r : List Char) (h : e ≠ '-') :
    matchDate (a :: b :: c :: d :: e :: r) = none := by
  unfold matchDate
  split
  · rename_i y1 y2 y3 y4 h1 m1 m2 h2 d1 d2 rest heq
    simp only [List.cons.injEq] at heq
    obtain ⟨_, _, _, _, he, _⟩ := heq
    have hh : h1 ≠ '-' := by
      rw [← he]
      exact h
    simp [hh]
  · rfl

theorem matchDate_none_before (c : Char) (p : List Char) (y m d : Nat) (hy : y ≤ 9999)
    (rest : List Char) (hc : '-' ∉ c :: p) :
    matchDate (c :: p ++ (fmtDate y m d ++ rest)) = none := by
  obtain ⟨a1, _⟩ := digitChar_value (y / 1000) (by omega)
  obtain ⟨a2, _⟩ := digitChar_value (y / 100 % 10) (by omega)
  obtain ⟨a3, _⟩ := digitChar_value (y / 10 % 10) (by omega)
  obtain ⟨a4, _⟩ := digitChar_value (y % 10) (by omega)
  have e : fmtDate y m d ++ rest =
      Nat.digitChar (y / 1000) :: Nat.digitChar (y / 100 % 10) :: Nat.digitChar (y / 10 % 10) ::
        Nat.digitChar (y % 10) :: '-' :: Nat.digitChar (m / 10) :: Nat.digitChar (m % 10) ::
        '-' :: Nat.digitChar (d / 10) :: Nat.digitChar (d % 10) :: rest := by
    simp [fmtDate, pad4, pad2]
  rw [e]
  match p, hc with
  | [], _ => exact matchDate_none_of_fifth _ _ _ _ _ _ (ne_hyphen_of_digit _ a4)
  | [_], _ => exact matchDate_none_of_fifth _ _ _ _ _ _ (ne_hyphen_of_digit _ a3)
  | [_, _], _ => exact matchDate_none_of_fifth _ _ _ _ _ _ (ne_hyphen_of_digit _ a2)
  | [_, _, _], _ => exact matchDate_none_of_fifth _ _ _ _ _ _ (ne_hyphen_of_digit _ a1)
  | _ :: _ :: _ :: x :: q, hc =>
    refine matchDate_none_of_fifth _ _ _ _ x _ ?_
    intro hx
    apply hc
    rw [hx]
    simp

theorem matchTo_before_date (y m d : Nat) (hy : y ≤ 9999) (rest : List Char) :
    matchTo (" to ".data ++ (fmtDate y m d ++ rest)) = some (fmtDate y m d ++ rest) := by
  obtain ⟨a1, _⟩ := digitChar_value (y / 1000) (by omega)
  have hs : isSpace (Nat.digitChar (y / 1000)) = false := not_space_of_digit _ a1
  have e : " to ".data ++ (fmtDate y m d ++ rest) =
      ' ' :: 't' :: 'o' :: ' ' :: (fmtDate y m d ++ rest) := rfl
  have h1 : isSpace ' ' = true := by decide
  have h2 : isSpace 't' = false := by decide
  have h3 : toLower 't' = 't' := by decide
  have h4 : toLower 'o' = 'o' := by decide
  have hdw : (fmtDate y m d ++ rest).dropWhile isSpace = fmtDate y m d ++ rest := by
    rw [fmtDate_head]
    simp [hs]
  rw [e]
  simp only [matchTo, h1, if_true, List.dropWhile_cons_of_neg (by simp [h2] : ¬ isSpace 't' = true),
    h3, h4, and_self, hdw]

theorem rangeRxAt_range (y1 m1 d1 y2 m2 d2 : Nat) (hy1 : y1 ≤ 9999) (hy2 : y2 ≤ 9999)
    (hm1 : m1 < 100) (hd1 : d1 < 100) (hm2 : m2 < 100) (hd2 : d2 < 100) (rest : List Char) :
    rangeRxAt (fmtDate y1 m1 d1 ++ (" to ".data ++ (fmtDate y2 m2 d2 ++ rest))) =
      some (fmtDate y1 m1 d1, fmtDate y2 m2 d2) := by
  unfold rangeRxAt
  simp only [matchDate_fmtDate y1 m1 d1 hy1 hm1 hd1, matchTo_before_date y2 m2 d2 hy2,
    matchDate_fmtDate y2 m2 d2 hy2 hm2 hd2]

theorem rangeRx_embedded (y1 m1 d1 y2 m2 d2 : Nat) (hy1 : y1 ≤ 9999) (hy2 : y2 ≤ 9999)
    (hm1 : m1 < 100) (hd1 : d1 < 100) (hm2 : m2 < 100) (hd2 : d2 < 100) (rest : List Char)
    (p : List Char) (hp : '-' ∉ p) :
    rangeRx (p ++ (fmtDate y1 m1 d1 ++ (" to ".data ++ (fmtDate y2 m2 d2 ++ rest)))) =
      some (fmtDate y1 m1 d1, fmtDate y2 m2 d2) := by
  induction p with
  | nil =>
    have hat := rangeRxAt_range y1 m1 d1 y2 m2 d2 hy1 hy2 hm1 hd1 hm2 hd2 rest
    rw [List.nil_append]
    rw [fmtDate_head y1 m1 d1] at hat ⊢
    rw [List.cons_append] at hat ⊢
    unfold rangeRx
    rw [hat]
  | cons c q ih =>
    have hq : '-' ∉ q := fun hm => hp (List.mem_cons_of_mem _ hm)
    have hnone : rangeRxAt (c :: q ++ (fmtDate y1 m1 d1 ++
        (" to ".data ++ (fmtDate y2 m2 d2 ++ rest)))) = none := by
      unfold rangeRxAt
      rw [matchDate_none_before c q y1 m1 d1 hy1 _ hp]
    rw [List.cons_append] at hnone ⊢
    unfold rangeRx
    rw [hnone]
    exact ih hq

theorem validDate_bounds (y m d : Nat) (hv : validDate y m d = true) :
    y ≤ 9999 ∧ m < 100 ∧ d < 100 := by
  simp only [validDate, decide_eq_true_eq] at hv
  have : daysInMonth y m ≤ 31 := by
    unfold daysInMonth
    split
    · split <;> omega
    · split <;> omega
  omega

theorem parseChars_embedded_range (y1 m1 d1 y2 m2 d2 : Nat) (hv1 : validDate y1 m1 d1 = true)
    (hv2 : validDate y2 m2 d2 = true) (pre suf : List Char) (hp : '-' ∉ pre) :
    parseChars (pre ++ (fmtDate y1 m1 d1 ++ " to ".data ++ fmtDate y2 m2 d2) ++ suf) =
      parseRange (fmtDate y1 m1 d1) (fmtDate y2 m2 d2) := by
  obtain ⟨hy1, hm1, hd1⟩ := validDate_bounds y1 m1 d1 hv1
  obtain ⟨hy2, hm2, hd2⟩ := validDate_bounds y2 m2 d2 hv2
  obtain ⟨a1, _⟩ := digitChar_value (y1 / 1000) (by omega)
  obtain ⟨c2, _⟩ := digitChar_value (d2 % 10) (by omega)
  have e : fmtDate y1 m1 d1 ++ " to ".data ++ fmtDate y2 m2 d2 =
      Nat.digitChar (y1 / 1000) ::
        ([Nat.digitChar (y1 / 100 % 10), Nat.digitChar (y1 / 10 % 10), Nat.digitChar (y1 % 10),
          '-', Nat.digitChar (m1 / 10), Nat.digitChar (m1 % 10), '-', Nat.digitChar (d1 / 10),
          Nat.digitChar (d1 % 10)] ++ " to ".data ++
          [Nat.digitChar (y2 / 1000), Nat.digitChar (y2 / 100 % 10),
            Nat.digitChar (y2 / 10 % 10), Nat.digitChar (y2 % 10), '-',
            Nat.digitChar (m2 / 10), Nat.digitChar (m2 % 10), '-', Nat.digitChar (d2 / 10)])
        ++ [Nat.digitChar (d2 % 10)] := by
    simp [fmtDate, pad4, pad2]
  have ht : trim (pre ++ (fmtDate y1 m1 d1 ++ " to ".data ++ fmtDate y2 m2 d2) ++ suf) =
      pre.dropWhile isTrimChar ++ (fmtDate y1 m1 d1 ++ (" to ".data ++ (fmtDate y2 m2 d2 ++
        (suf.reverse.dropWhile isTrimChar).reverse))) := by
    rw [e, trim_core _ _ _ _ _ (not_trim_of_digit _ a1) (not_trim_of_digit _ c2), ← e]
    simp
  have hp2 : '-' ∉ pre.dropWhile isTrimChar := fun hm => hp (List.dropWhile_subset _ hm)
  have hne : pre.dropWhile isTrimChar ++ (fmtDate y1 m1 d1 ++ (" to ".data ++ (fmtDate y2 m2 d2 ++
        (suf.reverse.dropWhile isTrimChar).reverse))) ≠ [] := by
    rw [fmtDate_head y1 m1 d1]
    simp
  unfold parseChars
  simp only [ht, hne, if_false,
    rangeRx_embedded y1 m1 d1 y2 m2 d2 hy1 hy2 hm1 hd1 hm2 hd2 _ _ hp2]

theorem parseRange_dates (y1 m1 d1 y2 m2 d2 : Nat) (hv1 : validDate y1 m1 d1 = true)
    (hv2 : validDate y2 m2 d2 = true) :
    parseRange (fmtDate y1 m1 d1) (fmtDate y2 m2 d2) =
      if dateTimePoint y2 m2 d2 ≤ dateTimePoint y1 m1 d1 then
        .error ⟨.InvalidInputException, "End date must be after start date"⟩
      else .ok { explicitRange_ := true, end_ := dateTimePoint y2 m2 d2 } := by
  have h := parseChars_embedded_range y1 m1 d1 y2 m2 d2 hv1 hv2 [] [] (by simp)
  rw [List.nil_append, List.append_nil] at h
  rw [← h]
  exact parseChars_range y1 m1 d1 y2 m2 d2 hv1 hv2

/-! ## Lemmas on due dates -/

theorem computeDueAt_exact (h T : Int) (hf1 : fitsInt64 (h * ticksPerHour) = true)
    (hf2 : fitsInt64 (T + h * ticksPerHour) = true) :
    BorrowDuration.computeDueAt { dur_ := h } T - T = h * ticksPerHour := by
  simp only [fitsInt64, decide_eq_true_eq] at hf1 hf2
  simp only [BorrowDuration.computeDueAt, Bool.false_eq_true, if_false]
  rw [toInt64_of_fits _ hf1.1 hf1.2, toInt64_of_fits _ hf2.1 hf2.2]
  ring

theorem borrowItem_due_not_after (s : LibraryService) (userId itemId : Int)
    (durationStr : String) (now : Int) (usr : User) (item : Item) (bd : BorrowDuration)
    (hu : s.users_.findById userId = some usr) (hi : s.items_.findById itemId = some item)
    (ha : item.status_ = .AVAILABLE) (hp : BorrowDuration.parse durationStr = .ok bd)
    (hd : bd.computeDueAt now ≤ now) :
    s.borrowItem userId itemId durationStr now =
      (.error ⟨.InvalidInputException, "Computed due date must be in the future"⟩, s) := by
  unfold LibraryService.borrowItem
  simp only [hu, hi, ha, hp, ne_eq, not_true_eq_false, if_false]
  rw [if_pos hd]

theorem digitsValue_zeros (zs : List Char) (h : ∀ c ∈ zs, c = '0') : digitsValue zs = 0 := by
  induction zs with
  | nil => rfl
  | cons c cs ih =>
    have hc : c = '0' := h c (List.mem_cons_self _ _)
    have hcs : ∀ x ∈ cs, x = '0' := fun x hx => h x (List.mem_cons_of_mem _ hx)
    have h0 : digitStep 0 '0' = 0 := by decide
    have := ih hcs
    unfold digitsValue at this ⊢
    rw [List.foldl_cons, hc, h0]
    exact this

theorem isUnit_split (l : List Char) (h : isUnit l = true) :
    l ∈ ["week".data, "weeks".data, "w".data] ∨ l ∈ ["day".data, "days".data, "d".data] ∨
      l ∈ ["hour".data, "hours".data, "h".data] := by
  simp only [isUnit, decide_eq_true_eq, List.mem_cons, List.mem_singleton,
    List.not_mem_nil, or_false] at h
  simp only [List.mem_cons, List.mem_singleton, List.not_mem_nil, or_false]
  tauto

theorem parseChars_zero (w1 zs w2 unit w3 : List Char) (h1 : ∀ c ∈ w1, isSpace c = true)
    (hne : zs ≠ []) (hz : ∀ c ∈ zs, c = '0') (h2 : ∀ c ∈ w2, isSpace c = true)
    (hunit : isUnit (unit.map toLower) = true) (h3 : ∀ c ∈ w3, isSpace c = true) :
    parseChars (w1 ++ zs ++ w2 ++ unit ++ w3) = .ok { dur_ := 0 } := by
  have hd : ∀ c ∈ zs, isDigit c = true := by
    intro c hc
    rw [hz c hc]
    decide
  have hv : digitsValue zs = 0 := digitsValue_zeros zs hz
  have hs : stoi zs = .ok ((0 : Nat) : Int) := by
    have := stoi_digits zs hne hd (by rw [hv]; decide)
    rw [hv] at this
    exact this
  rw [parseChars_nl w1 zs w2 unit w3 h1 hne hd h2 hunit h3]
  rcases isUnit_split _ hunit with hu | hu | hu
  · rw [parseNl_week zs unit 0 hs hu (by decide)]
    rfl
  · rw [parseNl_day zs unit 0 hs hu (by decide)]
    rfl
  · rw [parseNl_hour zs unit 0 hs hu]
    rfl

/-! ## The claims -/

/-- C1, counterexample.  In `presetIdState` the user 201 exists, the item 102
is AVAILABLE, "10 days" parses and the due time is after `now`; the call
returns, but the new record takes the id 1 and replaces the record stored under
that key: the number of records stays 1 and the record that was there is gone. -/
theorem borrowItem_success_counterexample :
    presetIdState.users_.findById 201 = some ⟨201, "Somen Mishra", 5⟩ ∧
    (presetIdState.items_.findById 102).map (fun it => it.status_) = some .AVAILABLE ∧
    BorrowDuration.parse "10 days" = .ok { dur_ := 240 } ∧
    (5 : Int) < BorrowDuration.computeDueAt { dur_ := 240 } 5 ∧
    (presetIdState.borrowItem 201 102 "10 days" 5).1 = .ok () ∧
    presetIdState.records_.storage_.lookup 1 = some ⟨1, 101, 201, 0, 1000, .ACTIVE⟩ ∧
    (presetIdState.borrowItem 201 102 "10 days" 5).2.records_.storage_.lookup 1 =
      some ⟨1, 102, 201, 5, 864000000000005, .ACTIVE⟩ ∧
    presetIdState.records_.storage_.entries.length = 1 ∧
    (presetIdState.borrowItem 201 102 "10 days" 5).2.records_.storage_.entries.length = 1 := by
  decide

/-- C1, amended.  When the user exists, the item exists with status AVAILABLE,
the duration text parses, the due time is after `now`, and no stored record has
the key `nextId_`, `borrowItem` returns; the item gets status BORROWED and every
other item is as before; the record store gains exactly one entry, under the key
`nextId_`, holding the ACTIVE record (itemId, userId, now, due), in front of the
entries it had, which are unchanged; users, fines and the fine rate are as
before. -/
theorem borrowItem_success (s : LibraryService) (userId itemId : Int) (durationStr : String)
    (now : Int) (usr : User) (item : Item) (bd : BorrowDuration)
    (hu : s.users_.findById userId = some usr) (hi : s.items_.findById itemId = some item)
    (ha : item.status_ = .AVAILABLE) (hp : BorrowDuration.parse durationStr = .ok bd)
    (hd : now < bd.computeDueAt now) (hfresh : s.records_.nextId_ ∉ s.records_.storage_) :
    (s.borrowItem userId itemId durationStr now).1 = .ok () ∧
    (∀ k : Int, (s.borrowItem userId itemId durationStr now).2.items_.lookup k =
      if k = itemId then some { item with status_ := .BORROWED } else s.items_.lookup k) ∧
    (s.borrowItem userId itemId durationStr now).2.items_.keys = s.items_.keys ∧
    (s.borrowItem userId itemId durationStr now).2.records_.storage_.entries =
      ⟨s.records_.nextId_,
        ⟨s.records_.nextId_, itemId, userId, now, bd.computeDueAt now, .ACTIVE⟩⟩ ::
        s.records_.storage_.entries ∧
    (s.borrowItem userId itemId durationStr now).2.users_ = s.users_ ∧
    (s.borrowItem userId itemId durationStr now).2.fines_ = s.fines_ ∧
    (s.borrowItem userId itemId durationStr now).2.dailyFineRate_ = s.dailyFineRate_ := by
  rw [borrowItem_of_valid s userId itemId durationStr now usr item bd hu hi ha hp hd]
  have hi2 : s.items_.lookup itemId = some item := hi
  refine ⟨rfl, ?_, ?_, ?_, rfl, rfl, rfl⟩
  · intro k
    simp only [borrowedState, Storage.lookup_update, hi2, Option.map_some']
    rfl
  · exact AList.keys_replace _ _ _
  · simp only [borrowedState, BorrowRecordRepo.add, BorrowRecordRepo.save, BorrowRecord.setId,
      if_true, Storage.set]
    rw [if_neg hfresh]
    exact AList.insert_entries_of_neg hfresh

/-- Witness of C1 (amended): the first `borrowItem` of `main`. -/
theorem borrowItem_success_witness :
    ((mainState 0).borrowItem 201 101 "10 days" 5).1 = .ok () ∧
    ((mainState 0).borrowItem 201 101 "10 days" 5).2.records_.storage_.entries =
      [⟨1, ⟨1, 101, 201, 5, 864000000000005, .ACTIVE⟩⟩] :=
  have h := borrowItem_success (mainState 0) 201 101 "10 days" 5 ⟨201, "Somen Mishra", 5⟩
    ⟨101, "Design Patterns", ["Gamma", "Helm", "Johnson", "Vlissides"], .AVAILABLE, [],
      .Book 395⟩ { dur_ := 240 } (by decide) (by decide) (by decide) (by decide) (by decide)
    (by decide)
  ⟨h.1, h.2.2.2.1⟩

/-- C2. At most one ACTIVE record per item: from a state whose record store
is empty, after any sequence of `borrowItem`, `returnItem` and
`archiveMagazine` calls, returning or throwing, at arbitrary times, every item
id has at most one stored record that is ACTIVE. -/
theorem at_most_one_active_record (s : LibraryService) (calls : List Call)
    (h : s.records_.storage_ = ∅) (itemId : Int) :
    (activeRecords (runCalls s calls).records_ itemId).length ≤ 1 := by
  have hU : UniqueActive s.records_ := by
    intro k1 k2 r1 r2 h1
    rw [h, AList.lookup_empty] at h1
    cases h1
  have hA : AvailableFree s := by
    intro i it _ _ k r hk
    rw [h, AList.lookup_empty] at hk
    cases hk
  exact activeRecords_length_of_unique _ (inv_runCalls calls s hU hA).1 itemId

/-- Witness of C2: two borrows of the same book (the second is refused), a
return and a new borrow, from the state of `main`. -/
theorem at_most_one_active_record_witness :
    (activeRecords (runCalls (mainState 0)
      [Call.borrowItem 201 101 "10 days" 5, Call.borrowItem 201 101 "2 weeks" 6,
        Call.returnItem 201 101 7, Call.borrowItem 201 101 "1 d" 8]).records_ 101).length ≤ 1 :=
  at_most_one_active_record (mainState 0) _ rfl 101

/-- C3. `borrowItem` is atomic on failure: whenever the call throws, whatever
the exception, the state it leaves (item store with every status, record store,
user store, fine store, fine rate) is the state before the call. -/
theorem borrowItem_failure_leaves_state (s : LibraryService) (userId itemId : Int)
    (durationStr : String) (now : Int) (e : Failure)
    (h : (s.borrowItem userId itemId durationStr now).1 = .error e) :
    (s.borrowItem userId itemId durationStr now).2 = s ∧
    (s.borrowItem userId itemId durationStr now).2.items_ = s.items_ ∧
    (s.borrowItem userId itemId durationStr now).2.records_ = s.records_ ∧
    (s.borrowItem userId itemId durationStr now).2.users_ = s.users_ ∧
    (s.borrowItem userId itemId durationStr now).2.fines_ = s.fines_ := by
  rcases borrowItem_cases s userId itemId durationStr now with
    ⟨e1, h1⟩ | ⟨usr, item, bd, _, _, _, _, _, h1⟩
  · rw [h1]
    exact ⟨rfl, rfl, rfl, rfl, rfl⟩
  · rw [h1] at h
    cases h

/-- Witness of C3: an unparsable duration, on the known user and a known item
of `main`. -/
theorem borrowItem_failure_leaves_state_witness :
    ((mainState 0).borrowItem 201 101 "5 fortnights" 7).1 =
        .error ⟨.InvalidInputException,
          "Unsupported duration format. Supported: '10 days', '2 weeks', 'P14D', 'PT48H', 'YYYY-MM-DD to YYYY-MM-DD'"⟩ ∧
      ((mainState 0).borrowItem 201 101 "5 fortnights" 7).2 = mainState 0 :=
  ⟨by decide, (borrowItem_failure_leaves_state (mainState 0) 201 101 "5 fortnights" 7
    ⟨.InvalidInputException,
      "Unsupported duration format. Supported: '10 days', '2 weeks', 'P14D', 'PT48H', 'YYYY-MM-DD to YYYY-MM-DD'"⟩
    (by decide)).1⟩

/-- C4. When the user exists and the item exists with a status other than
AVAILABLE, `borrowItem` throws `ItemNotAvailableException` whatever the
duration text, and leaves the state as it was.  In particular, after a
successful `borrowItem` on an item, and after any further calls none of which is
a `returnItem`, a `borrowItem` on the same item by any existing user throws
`ItemNotAvailableException`. -/
theorem borrowItem_not_available (s : LibraryService) (userId itemId : Int) :
    (∀ (usr : User) (item : Item) (durationStr : String) (now : Int),
      s.users_.findById userId = some usr → s.items_.findById itemId = some item →
      item.status_ ≠ .AVAILABLE →
      s.borrowItem userId itemId durationStr now =
        (.error ⟨.ItemNotAvailableException, "Item not available for borrowing"⟩, s)) ∧
    (∀ (durationStr : String) (now : Int) (calls : List Call) (userId2 : Int) (usr2 : User)
      (durationStr2 : String) (now2 : Int),
      (s.borrowItem userId itemId durationStr now).1 = .ok () →
      (∀ c ∈ calls, c.isReturn = false) →
      s.users_.findById userId2 = some usr2 →
      ((runCalls (s.borrowItem userId itemId durationStr now).2 calls).borrowItem
          userId2 itemId durationStr2 now2).1 =
        .error ⟨.ItemNotAvailableException, "Item not available for borrowing"⟩) := by
  refine ⟨fun usr item durationStr now hu hi hs =>
    borrowItem_unavailable s userId itemId durationStr now usr item hu hi hs, ?_⟩
  intro durationStr now calls userId2 usr2 durationStr2 now2 hok hcalls hu2
  rcases borrowItem_cases s userId itemId durationStr now with
    ⟨e1, h1⟩ | ⟨usr, item, bd, _, hi, _, _, _, h1⟩
  · rw [h1] at hok
    cases hok
  · rw [h1]
    have hl : (borrowedState s userId itemId item now (bd.computeDueAt now)).items_.lookup itemId
        = some (item.setStatus .BORROWED) := by
      have hi2 : s.items_.lookup itemId = some item := hi
      simp [borrowedState, Storage.lookup_update, hi2]
    obtain ⟨it1, h2, h3⟩ := runCalls_keeps_unavailable calls _ itemId _ hcalls hl
      (by simp [Item.setStatus])
    have hu3 : (runCalls (borrowedState s userId itemId item now (bd.computeDueAt now))
        calls).users_.findById userId2 = some usr2 := by
      rw [runCalls_users]
      exact hu2
    rw [borrowItem_unavailable _ userId2 itemId durationStr2 now2 usr2 it1 hu3 h2 h3]

/-- Witness of C4: the magazine of `main` is borrowed, then archived, and a
second `borrowItem` with a malformed duration is refused as not available. -/
theorem borrowItem_not_available_witness :
    ((mainState 0).borrowItem 201 103 "10 days" 5).1 = .ok () ∧
    ((runCalls ((mainState 0).borrowItem 201 103 "10 days" 5).2
        [Call.archiveMagazine 103]).borrowItem 201 103 "abc" 9).1 =
      .error ⟨.ItemNotAvailableException, "Item not available for borrowing"⟩ :=
  ⟨by decide, (borrowItem_not_available (mainState 0) 201 103).2 "10 days" 5
    [Call.archiveMagazine 103] 201 ⟨201, "Somen Mishra", 5⟩ "abc" 9 (by decide) (by decide)
    (by decide)⟩

/-- C6. When the user and the item exist, `returnItem` throws
`ReturnException` exactly when no stored record is ACTIVE for the item or the
ACTIVE record found has another user id; a throwing call leaves the whole state
as it was (the record stays ACTIVE, the item keeps its status, no fine is
created); and when the item has at most one ACTIVE record, a `returnItem` by any
existing user after a successful return throws `ReturnException` and changes
nothing. -/
theorem returnItem_return_error (s : LibraryService) (userId itemId now : Int) (usr : User)
    (item : Item) (hu : s.users_.findById userId = some usr)
    (hi : s.items_.findById itemId = some item) :
    ((∃ msg, (s.returnItem userId itemId now).1 = .error ⟨.ReturnException, msg⟩) ↔
      ((∀ (k : Int) (r : BorrowRecord), s.records_.storage_.lookup k = some r →
          ¬(r.itemId_ = itemId ∧ r.status_ = .ACTIVE)) ∨
        (∃ e, s.records_.findActiveByItemId itemId = some e ∧ e.2.userId_ ≠ userId))) ∧
    (∀ e : Failure, (s.returnItem userId itemId now).1 = .error e →
      (s.returnItem userId itemId now).2 = s) ∧
    ((s.returnItem userId itemId now).1 = .ok () →
      (activeRecords s.records_ itemId).length ≤ 1 →
      ∀ (userId2 : Int) (usr2 : User) (now2 : Int), s.users_.findById userId2 = some usr2 →
        (s.returnItem userId itemId now).2.returnItem userId2 itemId now2 =
          (.error ⟨.ReturnException, "No active borrow record for item"⟩,
            (s.returnItem userId itemId now).2)) := by
  refine ⟨?_, ?_, ?_⟩
  · cases hf : s.records_.findActiveByItemId itemId with
    | none =>
      have h : s.returnItem userId itemId now =
          (.error ⟨.ReturnException, "No active borrow record for item"⟩, s) := by
        simp [LibraryService.returnItem, hu, hi, hf]
      rw [h]
      exact ⟨fun _ => Or.inl (fun k r hk => findActive_none _ _ hf k r hk),
        fun _ => ⟨_, rfl⟩⟩
    | some e =>
      obtain ⟨he1, he2, he3⟩ := findActive_some _ _ _ hf
      by_cases hm : e.2.userId_ = userId
      · rw [returnItem_of_valid s userId itemId now usr item e hu hi hf hm]
        constructor
        · rintro ⟨msg, h⟩
          cases h
        · rintro (h | ⟨e2, h2, h3⟩)
          · exact absurd ⟨he2, he3⟩ (h e.1 e.2 he1)
          · cases h2
            exact absurd hm h3
      · have h : s.returnItem userId itemId now =
            (.error ⟨.ReturnException, "Borrow record user mismatch"⟩, s) := by
          simp [LibraryService.returnItem, hu, hi, hf, hm]
        rw [h]
        exact ⟨fun _ => Or.inr ⟨e, rfl, hm⟩, fun _ => ⟨_, rfl⟩⟩
  · intro e he
    rcases returnItem_cases s userId itemId now with ⟨e1, h⟩ | ⟨_, _, e1, _, _, _, _, h⟩
    · rw [h]
    · rw [h] at he
      cases he
  · intro hok hone userId2 usr2 now2 hu2
    rcases returnItem_cases s userId itemId now with
      ⟨e1, h⟩ | ⟨usr1, item1, e, _, hi1, hf, _, h⟩
    · rw [h] at hok
      cases hok
    · rw [h]
      obtain ⟨he1, he2, he3⟩ := findActive_some _ _ _ hf
      have hi2 : s.items_.lookup itemId = some item1 := hi1
      have hnone : (returnedState s userId itemId item1 e now).records_.findActiveByItemId itemId
          = none := by
        unfold BorrowRecordRepo.findActiveByItemId
        rw [List.find?_eq_none]
        rintro ⟨k, r⟩ hmem hp
        have hk := (Storage.mem_entries_iff _ _ _).mp hmem
        simp only [isActiveFor, decide_eq_true_eq] at hp
        simp only [returnedState, Storage.lookup_update, he1, Option.map_some'] at hk
        by_cases hke : k = e.1
        · rw [if_pos hke] at hk
          cases hk
          simp [BorrowRecord.markReturned] at hp
        · rw [if_neg hke] at hk
          exact hke (unique_of_activeRecords_length s.records_ itemId hone k e.1 r e.2 hk he1
            hp.1 he2 hp.2 he3)
      have hu3 : (returnedState s userId itemId item1 e now).users_.findById userId2
          = some usr2 := hu2
      have hi3 : (returnedState s userId itemId item1 e now).items_.findById itemId
          = some (item1.setStatus .AVAILABLE) := by
        show (s.items_.update itemId (item1.setStatus .AVAILABLE)).lookup itemId = _
        simp [Storage.lookup_update, hi2]
      simp only [LibraryService.returnItem, hu3, hi3, hnone]

/-- Witness of C6: after a borrow and a return of the book of `main`, a second
return throws and changes nothing. -/
theorem returnItem_return_error_witness :
    (runCalls (mainState 0) [Call.borrowItem 201 101 "10 days" 5, Call.returnItem 201 101 6]
      ).returnItem 201 101 7 =
    (.error ⟨.ReturnException, "No active borrow record for item"⟩,
      runCalls (mainState 0) [Call.borrowItem 201 101 "10 days" 5, Call.returnItem 201 101 6]) :=
  (returnItem_return_error (runCalls (mainState 0) [Call.borrowItem 201 101 "10 days" 5])
    201 101 6 ⟨201, "Somen Mishra", 5⟩
    ⟨101, "Design Patterns", ["Gamma", "Helm", "Johnson", "Vlissides"], .BORROWED, [],
      .Book 395⟩ (by decide) (by decide)).2.2 (by decide) (by decide) 201
    ⟨201, "Somen Mishra", 5⟩ 7 (by decide)

/-- C7, the code at the failing input.  From the state of `main`, in which no
magazine is archived, the magazine 103 is borrowed, archived while BORROWED,
and returned: all three calls return, and the magazine ends with
`archived_ = true` and status AVAILABLE; a further `borrowItem` returns and
makes it BORROWED. -/
theorem archived_magazine_becomes_available :
    ((mainState 0).items_.lookup 103).map Item.isArchived = some false ∧
    ((mainState 0).borrowItem 201 103 "10 days" 5).1 = .ok () ∧
    ((runCalls (mainState 0) [Call.borrowItem 201 103 "10 days" 5]).archiveMagazine 103).1
      = .ok () ∧
    ((runCalls (mainState 0) [Call.borrowItem 201 103 "10 days" 5,
      Call.archiveMagazine 103]).returnItem 201 103 6).1 = .ok () ∧
    (runCalls (mainState 0) [Call.borrowItem 201 103 "10 days" 5, Call.archiveMagazine 103,
      Call.returnItem 201 103 6]).items_.lookup 103 =
      some ⟨103, "Tech Monthly", ["Editorial Team"], .AVAILABLE, [], .EMagazine 15 0 true⟩ ∧
    (runCalls (mainState 0) [Call.borrowItem 201 103 "10 days" 5, Call.archiveMagazine 103,
      Call.returnItem 201 103 6, Call.borrowItem 201 103 "1 week" 7]).items_.lookup 103 =
      some ⟨103, "Tech Monthly", ["Editorial Team"], .BORROWED, [], .EMagazine 15 0 true⟩ := by
  decide

/-- C8. The outcome of `archiveMagazine`: `NotFoundException` when no item
has the id; `ArchiveException` "Item is not an EMagazine" for a Book or an
Audiobook; `ArchiveException` "Issue already archived" for a magazine whose
flag is set; otherwise the call returns, the item gets `archived_ = true` and
status MAINTENANCE, every other item and every other store is as before, and a
second call on the same id throws "Issue already archived".  Every throwing
call leaves the state as it was. -/
theorem archiveMagazine_outcome (s : LibraryService) (itemId : Int) :
    (s.items_.findById itemId = none →
      s.archiveMagazine itemId = (.error ⟨.NotFoundException, "Item not found"⟩, s)) ∧
    (∀ it : Item, s.items_.findById itemId = some it →
      ((∃ pc, it.variant = .Book pc) ∨ (∃ pd nr pl, it.variant = .Audiobook pd nr pl)) →
      s.archiveMagazine itemId =
        (.error ⟨.ArchiveException, "Item is not an EMagazine"⟩, s)) ∧
    (∀ (it : Item) (n d : Int), s.items_.findById itemId = some it →
      it.variant = .EMagazine n d true →
      s.archiveMagazine itemId = (.error ⟨.ArchiveException, "Issue already archived"⟩, s)) ∧
    (∀ (it : Item) (n d : Int), s.items_.findById itemId = some it →
      it.variant = .EMagazine n d false →
      (s.archiveMagazine itemId).1 = .ok () ∧
      (∀ k : Int, (s.archiveMagazine itemId).2.items_.lookup k =
        if k = itemId then
          some { it with variant := .EMagazine n d true, status_ := .MAINTENANCE }
        else s.items_.lookup k) ∧
      (s.archiveMagazine itemId).2.items_.keys = s.items_.keys ∧
      (s.archiveMagazine itemId).2.users_ = s.users_ ∧
      (s.archiveMagazine itemId).2.records_ = s.records_ ∧
      (s.archiveMagazine itemId).2.fines_ = s.fines_ ∧
      (s.archiveMagazine itemId).2.dailyFineRate_ = s.dailyFineRate_ ∧
      ((s.archiveMagazine itemId).2.archiveMagazine itemId) =
        (.error ⟨.ArchiveException, "Issue already archived"⟩, (s.archiveMagazine itemId).2)) ∧
    (∀ e : Failure, (s.archiveMagazine itemId).1 = .error e →
      (s.archiveMagazine itemId).2 = s) := by
  refine ⟨?_, ?_, ?_, ?_, ?_⟩
  · intro hi
    simp [LibraryService.archiveMagazine, hi]
  · rintro it hi (⟨pc, hv⟩ | ⟨pd, nr, pl, hv⟩) <;>
      simp [LibraryService.archiveMagazine, hi, hv]
  · intro it n d hi hv
    simp [LibraryService.archiveMagazine, hi, hv, archiveIssue]
  · intro it n d hi hv
    have h : s.archiveMagazine itemId =
        (.ok (), { s with items_ := s.items_.update itemId (archivedItem it n d) }) := by
      simp [LibraryService.archiveMagazine, hi, hv, archiveIssue, archivedItem]
    have hi2 : s.items_.lookup itemId = some it := hi
    rw [h]
    refine ⟨rfl, ?_, ?_, rfl, rfl, rfl, rfl, ?_⟩
    · intro k
      simp only [Storage.lookup_update, hi2, Option.map_some']
      rfl
    · exact AList.keys_replace _ _ _
    · have hl : (s.items_.update itemId (archivedItem it n d)).findById itemId
          = some (archivedItem it n d) := by
        show (s.items_.update itemId (archivedItem it n d)).lookup itemId = _
        simp [Storage.lookup_update, hi2]
      simp only [LibraryService.archiveMagazine, hl]
      simp [archiveIssue, archivedItem, Item.setStatus]
  · intro e he
    rcases archiveMagazine_cases s itemId with ⟨e1, h⟩ | ⟨it, n, d, _, _, h⟩
    · rw [h]
    · rw [h] at he
      cases he

/-- Witness of C8: the magazine 103 of `main` is archived once; the Book 101 is
refused. -/
theorem archiveMagazine_outcome_witness :
    ((mainState 0).archiveMagazine 103).1 = .ok () ∧
    ((mainState 0).archiveMagazine 103).2.archiveMagazine 103 =
      (.error ⟨.ArchiveException, "Issue already archived"⟩,
        ((mainState 0).archiveMagazine 103).2) ∧
    (mainState 0).archiveMagazine 101 =
      (.error ⟨.ArchiveException, "Item is not an EMagazine"⟩, mainState 0) :=
  have h := (archiveMagazine_outcome (mainState 0) 103).2.2.2.1
    ⟨103, "Tech Monthly", ["Editorial Team"], .AVAILABLE, [], .EMagazine 15 0 false⟩ 15 0
    (by decide) (by decide)
  ⟨h.1, h.2.2.2.2.2.2.2,
    (archiveMagazine_outcome (mainState 0) 101).2.1
      ⟨101, "Design Patterns", ["Gamma", "Helm", "Johnson", "Vlissides"], .AVAILABLE, [],
        .Book 395⟩ (by decide) (Or.inl ⟨395, by decide⟩)⟩

/-- C9, the code at the failing inputs.  For every natural number `n` the
inputs `P<n>D` and `PT<n>H` match `isoRx`, whose first group spans the whole
match; the code passes that group, which starts with the letter `P`, to
`std::stoi`, and `parse` throws `std::invalid_argument` instead of returning a
duration.  In particular `parse("P14D")` throws while `parse("14 days")`
returns 336 hours. -/
theorem parse_iso_throws (n : Nat) :
    BorrowDuration.parse (String.mk ("P".data ++ (Nat.repr n).data ++ "D".data)) =
      .error ⟨.std_invalid_argument, "stoi"⟩ ∧
    BorrowDuration.parse (String.mk ("PT".data ++ (Nat.repr n).data ++ "H".data)) =
      .error ⟨.std_invalid_argument, "stoi"⟩ ∧
    BorrowDuration.parse "P14D" = .error ⟨.std_invalid_argument, "stoi"⟩ ∧
    BorrowDuration.parse "14 days" = .ok { dur_ := 336 } :=
  ⟨parseChars_iso_days n, parseChars_iso_hours n, by decide, by decide⟩

/-- C10, counterexample.  `parse("3000000 h")` returns 3000000 hours, an
hour count that fits an `int`.  Converted to clock ticks the hours exceed the
64-bit tick count: at the instant `T` 1800000000 seconds after the epoch,
`computeDueAt(T)` is a time point before `T`, not `T` plus 3000000 hours. -/
theorem parse_natural_language_counterexample :
    (3000000 : Int) ≤ INT_MAX ∧
    BorrowDuration.parse "3000000 h" = .ok { dur_ := 3000000 } ∧
    BorrowDuration.computeDueAt { dur_ := 3000000 } (1800000000 * ticksPerSecond) -
        1800000000 * ticksPerSecond ≠ 3000000 * ticksPerHour ∧
    BorrowDuration.computeDueAt { dur_ := 3000000 } (1800000000 * ticksPerSecond) <
      1800000000 * ticksPerSecond := by
  decide

/-- C10. Natural-language durations.  For every natural number `n`, every
start time `T`, and every input made of optional white space, the
decimal numeral of `n`, optional white space, a unit written in any mix of
upper and lower case, and optional white space: when the hour count fits an
`int`, `parse` returns the hour count (168·n for the units week, weeks, w; 24·n
for day, days, d; n for hour, hours, h); and when the hours converted to clock
ticks and the due time `T` plus those ticks both fit the 64-bit tick count,
`computeDueAt(T)` is `T` plus that many hours. -/
theorem parse_natural_language (n : Nat) (w1 w2 w3 unit : List Char) (T : Int)
    (h1 : ∀ c ∈ w1, isSpace c = true) (h2 : ∀ c ∈ w2, isSpace c = true)
    (h3 : ∀ c ∈ w3, isSpace c = true) :
    (unit.map toLower ∈ ["week".data, "weeks".data, "w".data] → (168 * n : Int) ≤ INT_MAX →
      BorrowDuration.parse (String.mk (w1 ++ (Nat.repr n).data ++ w2 ++ unit ++ w3)) =
        .ok { dur_ := 168 * (n : Int) } ∧
      (fitsInt64 (168 * (n : Int) * ticksPerHour) = true →
        fitsInt64 (T + 168 * (n : Int) * ticksPerHour) = true →
        BorrowDuration.computeDueAt { dur_ := 168 * (n : Int) } T - T
          = 168 * (n : Int) * ticksPerHour)) ∧
    (unit.map toLower ∈ ["day".data, "days".data, "d".data] → (24 * n : Int) ≤ INT_MAX →
      BorrowDuration.parse (String.mk (w1 ++ (Nat.repr n).data ++ w2 ++ unit ++ w3)) =
        .ok { dur_ := 24 * (n : Int) } ∧
      (fitsInt64 (24 * (n : Int) * ticksPerHour) = true →
        fitsInt64 (T + 24 * (n : Int) * ticksPerHour) = true →
        BorrowDuration.computeDueAt { dur_ := 24 * (n : Int) } T - T
          = 24 * (n : Int) * ticksPerHour)) ∧
    (unit.map toLower ∈ ["hour".data, "hours".data, "h".data] → (n : Int) ≤ INT_MAX →
      BorrowDuration.parse (String.mk (w1 ++ (Nat.repr n).data ++ w2 ++ unit ++ w3)) =
        .ok { dur_ := (n : Int) } ∧
      (fitsInt64 ((n : Int) * ticksPerHour) = true →
        fitsInt64 (T + (n : Int) * ticksPerHour) = true →
        BorrowDuration.computeDueAt { dur_ := (n : Int) } T - T = (n : Int) * ticksPerHour)) := by
  obtain ⟨hne, hd, hv⟩ := repr_digits n
  have hstoi : (n : Int) ≤ INT_MAX → stoi (Nat.repr n).data = .ok (n : Int) := by
    intro hfit
    have := stoi_digits (Nat.repr n).data hne hd (by rw [hv]; exact hfit)
    rw [hv] at this
    exact this
  have hdue : ∀ h : Int, fitsInt64 (h * ticksPerHour) = true →
      fitsInt64 (T + h * ticksPerHour) = true →
      BorrowDuration.computeDueAt { dur_ := h } T - T = h * ticksPerHour :=
    fun h hf1 hf2 => computeDueAt_exact h T hf1 hf2
  refine ⟨fun hu hfit => ⟨?_, hdue _⟩, fun hu hfit => ⟨?_, hdue _⟩,
    fun hu hfit => ⟨?_, hdue _⟩⟩
  · show parseChars _ = _
    rw [parseChars_nl w1 _ w2 unit w3 h1 hne hd h2 (isUnit_of_mem _ (Or.inl hu)) h3]
    exact parseNl_week _ _ n (hstoi (by unfold INT_MAX at hfit ⊢; omega)) hu hfit
  · show parseChars _ = _
    rw [parseChars_nl w1 _ w2 unit w3 h1 hne hd h2 (isUnit_of_mem _ (Or.inr (Or.inl hu))) h3]
    exact parseNl_day _ _ n (hstoi (by unfold INT_MAX at hfit ⊢; omega)) hu hfit
  · show parseChars _ = _
    rw [parseChars_nl w1 _ w2 unit w3 h1 hne hd h2 (isUnit_of_mem _ (Or.inr (Or.inr hu))) h3]
    exact parseNl_hour _ _ n (hstoi hfit) hu

/-- Witness of C10: `parse("2 weeks")`, due 336 hours after `T = 1000`. -/
theorem parse_natural_language_witness :
    BorrowDuration.parse "2 weeks" = .ok { dur_ := 336 } ∧
    BorrowDuration.computeDueAt { dur_ := 336 } 1000 - 1000 = 336 * ticksPerHour :=
  ⟨((parse_natural_language 2 [] " ".data [] "weeks".data 1000 (by decide) (by decide)
      (by decide)).1 (by decide) (by decide)).1,
    ((parse_natural_language 2 [] " ".data [] "weeks".data 1000 (by decide) (by decide)
      (by decide)).1 (by decide) (by decide)).2 (by decide) (by decide)⟩

/-- C11. Rejected duration strings.  `parse` throws `InvalidInputException`
for every input made only of spaces, tabs, carriage returns and line feeds
(the empty input included), for every input without a decimal digit, and for
every input made of the decimal numeral of a natural number, one space, and a
non-empty run of letters that, case-folded, is none of day, days, d, week,
weeks, w, hour, hours, h. -/
theorem parse_rejects (input : String) :
    ((∀ c ∈ input.data, isTrimChar c = true) →
      BorrowDuration.parse input =
        .error ⟨.InvalidInputException, "Empty duration string"⟩) ∧
    ((∀ c ∈ input.data, isDigit c = false) →
      (BorrowDuration.parse input =
          .error ⟨.InvalidInputException, "Empty duration string"⟩ ∨
        BorrowDuration.parse input = .error ⟨.InvalidInputException,
          "Unsupported duration format. Supported: '10 days', '2 weeks', 'P14D', 'PT48H', 'YYYY-MM-DD to YYYY-MM-DD'"⟩)) ∧
    (∀ (n : Nat) (word : List Char), word ≠ [] → (∀ c ∈ word, isLetter c = true) →
      isUnit (word.map toLower) = false →
      input = String.mk ((Nat.repr n).data ++ " ".data ++ word) →
      BorrowDuration.parse input = .error ⟨.InvalidInputException,
        "Unsupported duration format. Supported: '10 days', '2 weeks', 'P14D', 'PT48H', 'YYYY-MM-DD to YYYY-MM-DD'"⟩) := by
  refine ⟨parseChars_blank input.data, parseChars_no_digit input.data, ?_⟩
  intro n word hne hw hnu hin
  obtain ⟨h1, h2, _⟩ := repr_digits n
  rw [hin]
  exact parseChars_unknown_word _ word h1 h2 hne hw hnu

/-- Witness of C11: the inputs "", "abc" and "5 fortnights". -/
theorem parse_rejects_witness :
    BorrowDuration.parse "" = .error ⟨.InvalidInputException, "Empty duration string"⟩ ∧
    (BorrowDuration.parse "abc" = .error ⟨.InvalidInputException, "Empty duration string"⟩ ∨
      BorrowDuration.parse "abc" = .error ⟨.InvalidInputException,
        "Unsupported duration format. Supported: '10 days', '2 weeks', 'P14D', 'PT48H', 'YYYY-MM-DD to YYYY-MM-DD'"⟩) ∧
    BorrowDuration.parse "5 fortnights" = .error ⟨.InvalidInputException,
      "Unsupported duration format. Supported: '10 days', '2 weeks', 'P14D', 'PT48H', 'YYYY-MM-DD to YYYY-MM-DD'"⟩ :=
  ⟨(parse_rejects "").1 (by decide), (parse_rejects "abc").2.1 (by decide),
    (parse_rejects "5 fortnights").2.2 5 "fortnights".data (by decide) (by decide) (by decide)
      (by decide)⟩

/-- C12, counterexample.  2024-01-01 and 2300-01-01 are valid calendar dates,
the first earlier than the second, and `parse("2024-01-01 to 2300-01-01")`
throws "End date must be after start date": midnight of 2300-01-01 is beyond
the last time point of the 64-bit nanosecond clock (in 2262), the conversion
of `from_time_t` wraps to a time point before 2024-01-01. -/
theorem parse_date_range_counterexample :
    validDate 2024 1 1 = true ∧ validDate 2300 1 1 = true ∧
    dateBefore 2024 1 1 2300 1 1 = true ∧
    BorrowDuration.parse "2024-01-01 to 2300-01-01" =
      .error ⟨.InvalidInputException, "End date must be after start date"⟩ :=
  ⟨by decide, by decide, by decide,
    (parseChars_range 2024 1 1 2300 1 1 (by decide) (by decide)).trans (if_pos (by decide))⟩

/-- C12. An explicit date range ignores the borrow start.  For valid calendar
dates `d1` earlier than `d2`, both between 1677-09-22 and 2262-04-11 (the days
whose midnight the 64-bit nanosecond clock can hold) and written as
`YYYY-MM-DD`, `parse("d1 to d2")` returns a duration whose `computeDueAt(T)`
is, for every `T`, the time point of `d2`, hence the same for any two borrow
starts.  The time point of `d2` is midnight at the start of that day: the days
from 1970-01-01 to `d2`, counted with the Gregorian leap years, times 86400
seconds. -/
theorem parse_date_range (y1 m1 d1 y2 m2 d2 : Nat) (hv1 : validDate y1 m1 d1 = true)
    (hv2 : validDate y2 m2 d2 = true) (hb : dateBefore y1 m1 d1 y2 m2 d2 = true)
    (hr1 : inClockRange y1 m1 d1 = true) (hr2 : inClockRange y2 m2 d2 = true) :
    BorrowDuration.parse
        (String.mk (fmtDate y1 m1 d1 ++ " to ".data ++ fmtDate y2 m2 d2)) =
      .ok { explicitRange_ := true, end_ := dateTimePoint y2 m2 d2 } ∧
    (∀ T : Int, BorrowDuration.computeDueAt
      { explicitRange_ := true, end_ := dateTimePoint y2 m2 d2 } T = dateTimePoint y2 m2 d2) ∧
    (∀ T1 T2 : Int, BorrowDuration.computeDueAt
        { explicitRange_ := true, end_ := dateTimePoint y2 m2 d2 } T1 =
      BorrowDuration.computeDueAt
        { explicitRange_ := true, end_ := dateTimePoint y2 m2 d2 } T2) ∧
    dateTimePoint y2 m2 d2 =
      (365 * ((y2 : Int) - 1970) + (((y2 : Int) - 1) / 4 - ((y2 : Int) - 1) / 100 +
          ((y2 : Int) - 1) / 400 - 477) +
        (daysBeforeMonth (isLeapYear y2) m2 : Int) + ((d2 : Int) - 1)) * 86400 *
        ticksPerSecond := by
  have hlt := dayNumber_lt y1 m1 d1 y2 m2 d2 hv1 hv2 hb
  refine ⟨?_, fun T => rfl, fun T1 T2 => rfl, dateTimePoint_closed y2 m2 d2 hv2 hr2⟩
  show parseChars _ = _
  rw [parseChars_range_clock y1 m1 d1 y2 m2 d2 hv1 hv2 hr1 hr2, if_neg (by omega)]

/-- Witness of C12: `parse("2024-01-01 to 2024-01-10")` is due on 2024-01-10,
1704844800 seconds after the epoch, whatever the borrow start. -/
theorem parse_date_range_witness :
    BorrowDuration.parse "2024-01-01 to 2024-01-10" =
      .ok { explicitRange_ := true, end_ := 1704844800 * ticksPerSecond } ∧
    ∀ T : Int, BorrowDuration.computeDueAt
      { explicitRange_ := true, end_ := 1704844800 * ticksPerSecond } T =
        1704844800 * ticksPerSecond :=
  ⟨(parse_date_range 2024 1 1 2024 1 10 (by decide) (by decide) (by decide) (by decide)
      (by decide)).1,
    (parse_date_range 2024 1 1 2024 1 10 (by decide) (by decide) (by decide) (by decide)
      (by decide)).2.1⟩

/-- C13, counterexample.  2300-01-01 and 2024-01-01 are valid calendar dates,
the second before the first, and `parse("2300-01-01 to 2024-01-01")` returns a
range that ends on 2024-01-01 (1704067200 seconds after the epoch): midnight
of 2300-01-01 is beyond the last time point of the 64-bit nanosecond clock,
the conversion of `from_time_t` wraps to a time point before 2024-01-01. -/
theorem parse_date_range_rejected_counterexample :
    validDate 2300 1 1 = true ∧ validDate 2024 1 1 = true ∧
    dateBefore 2300 1 1 2024 1 1 = false ∧
    BorrowDuration.parse "2300-01-01 to 2024-01-01" =
      .ok { explicitRange_ := true, end_ := 1704067200 * ticksPerSecond } :=
  ⟨by decide, by decide, by decide,
    (parseChars_range 2300 1 1 2024 1 1 (by decide) (by decide)).trans (if_neg (by decide))⟩

/-- C13. A date range that is not positive is rejected.  For valid calendar
dates between 1677-09-22 and 2262-04-11 (the days whose midnight the 64-bit
nanosecond clock can hold), written as `YYYY-MM-DD`, with `d2` on or before
`d1` (the two may be the same date), `parse("d1 to d2")` throws
`InvalidInputException`, "End date must be after start date". -/
theorem parse_date_range_rejected (y1 m1 d1 y2 m2 d2 : Nat)
    (hv1 : validDate y1 m1 d1 = true) (hv2 : validDate y2 m2 d2 = true)
    (hb : dateBefore y1 m1 d1 y2 m2 d2 = false)
    (hr1 : inClockRange y1 m1 d1 = true) (hr2 : inClockRange y2 m2 d2 = true) :
    BorrowDuration.parse
        (String.mk (fmtDate y1 m1 d1 ++ " to ".data ++ fmtDate y2 m2 d2)) =
      .error ⟨.InvalidInputException, "End date must be after start date"⟩ := by
  have hle := dayNumber_le y1 m1 d1 y2 m2 d2 hv1 hv2 hb
  show parseChars _ = _
  rw [parseChars_range_clock y1 m1 d1 y2 m2 d2 hv1 hv2 hr1 hr2, if_pos hle]

/-- Witness of C13: `parse("2024-01-10 to 2024-01-01")`. -/
theorem parse_date_range_rejected_witness :
    BorrowDuration.parse "2024-01-10 to 2024-01-01" =
      .error ⟨.InvalidInputException, "End date must be after start date"⟩ :=
  parse_date_range_rejected 2024 1 10 2024 1 1 (by decide) (by decide) (by decide) (by decide)
    (by decide)

/-- C15. The borrow limit is not enforced.  For two states with the same
items, records and fines, whose user stores agree up to the borrow limits,
`borrowItem` at the same instant has the same outcome (it returns in both or
throws the same exception in both) and leaves the same items, records and
fines, each user store being as before.  In particular `borrowItem` returns
whenever the user and the item exist, the item is AVAILABLE, the duration
parses and the due time is after `now`, whatever the user's borrow limit and
whatever records the user holds. -/
theorem borrowLimit_not_enforced (s1 s2 : LibraryService) (userId itemId : Int)
    (durationStr : String) (now : Int)
    (hitems : s1.items_ = s2.items_) (hrec : s1.records_ = s2.records_)
    (hfines : s1.fines_ = s2.fines_)
    (husers : ∀ k : Int, (s1.users_.lookup k).map User.withoutLimit =
      (s2.users_.lookup k).map User.withoutLimit) :
    (s1.borrowItem userId itemId durationStr now).1 =
      (s2.borrowItem userId itemId durationStr now).1 ∧
    (s1.borrowItem userId itemId durationStr now).2.items_ =
      (s2.borrowItem userId itemId durationStr now).2.items_ ∧
    (s1.borrowItem userId itemId durationStr now).2.records_ =
      (s2.borrowItem userId itemId durationStr now).2.records_ ∧
    (s1.borrowItem userId itemId durationStr now).2.fines_ =
      (s2.borrowItem userId itemId durationStr now).2.fines_ ∧
    (s1.borrowItem userId itemId durationStr now).2.users_ = s1.users_ ∧
    (s2.borrowItem userId itemId durationStr now).2.users_ = s2.users_ ∧
    (∀ (usr : User) (item : Item) (bd : BorrowDuration),
      s1.users_.findById userId = some usr → s1.items_.findById itemId = some item →
      item.status_ = .AVAILABLE → BorrowDuration.parse durationStr = .ok bd →
      now < bd.computeDueAt now →
      (s1.borrowItem userId itemId durationStr now).1 = .ok ()) := by
  have hu : (s1.users_.findById userId).isSome = (s2.users_.findById userId).isSome := by
    have := congrArg Option.isSome (husers userId)
    simpa [Storage.findById] using this
  obtain ⟨h1, h2, h3⟩ := borrowItem_congr_users s1 s2 userId itemId durationStr now hitems hrec hu
  refine ⟨h1, h2, h3, ?_, (run_fines_borrow s1 _ _ _ _).2, (run_fines_borrow s2 _ _ _ _).2, ?_⟩
  · rw [(run_fines_borrow s1 _ _ _ _).1, (run_fines_borrow s2 _ _ _ _).1, hfines]
  · intro usr item bd hu1 hi ha hp hd
    rw [borrowItem_of_valid s1 userId itemId durationStr now usr item bd hu1 hi ha hp hd]

/-- Witness of C15: user 201 holds one ACTIVE record; with the borrow limit 5
and with the borrow limit 0 the borrow of the audiobook 102 returns. -/
theorem borrowLimit_not_enforced_witness :
    (holdingStateNoLimit.users_.lookup 201).map (fun u => u.borrowLimit_) = some 0 ∧
    (activeRecords holdingStateNoLimit.records_ 101).length = 1 ∧
    (holdingState.borrowItem 201 102 "2 weeks" 6).1 =
      (holdingStateNoLimit.borrowItem 201 102 "2 weeks" 6).1 ∧
    (holdingStateNoLimit.borrowItem 201 102 "2 weeks" 6).1 = .ok () :=
  ⟨by decide, by decide,
    (borrowLimit_not_enforced holdingState holdingStateNoLimit 201 102 "2 weeks" 6 rfl rfl rfl
      (fun k => by
        show (holdingState.users_.lookup k).map User.withoutLimit =
          ((holdingState.users_.update 201 ⟨201, "Somen Mishra", 0⟩).lookup k).map
            User.withoutLimit
        rw [Storage.lookup_update]
        by_cases hk : k = 201
        · subst hk
          decide
        · rw [if_neg hk])).1,
    by decide⟩

/-- C16. The result of `FineRepo::findByUserId` does not depend on its
argument: for any two user ids it is the same list, which has one element for
each stored entry (so its length is the number of keys), and a fine is in it
exactly when it is stored under some key, whatever user it is attributed to.
For instance, with one fine of user 201 and one of user 202 in the store, the
call for user 201 returns both. -/
theorem findByUserId_ignores_user (repo : FineRepo) (u1 u2 : Int) :
    repo.findByUserId u1 = repo.findByUserId u2 ∧
    repo.findByUserId u1 = repo.storage_.all ∧
    (repo.findByUserId u1).length = repo.storage_.keys.length ∧
    (∀ f : Fine, f ∈ repo.findByUserId u1 ↔ ∃ k : Int, repo.storage_.lookup k = some f) ∧
    (((FineRepo.empty.addFine 101 201 ⟨1000⟩ "Overdue by 1 days" 5).2.addFine 102 202 ⟨2000⟩
        "Overdue by 2 days" 6).2.findByUserId 201).map (fun f => f.userId_) = [202, 201] := by
  refine ⟨rfl, rfl, ?_, ?_, by decide⟩
  · simp [FineRepo.findByUserId, AList.keys, List.keys]
  · intro f
    simp only [FineRepo.findByUserId, List.mem_map]
    constructor
    · rintro ⟨⟨k, v⟩, hm, rfl⟩
      exact ⟨k, (Storage.mem_entries_iff _ _ _).mp hm⟩
    · rintro ⟨k, hk⟩
      exact ⟨⟨k, f⟩, (Storage.mem_entries_iff _ _ _).mpr hk, rfl⟩

/-- C17. Sequential record ids.  When records whose id is 0 are saved one
after another in a new `BorrowRecordRepo`, the ids assigned are 1, 2, ..., k
in that order.  On a service whose record store is new, after any sequence of
calls of which `n` were `borrowItem` calls that returned, a `borrowItem` that
returns creates the record with id `n + 1`, under the key `n + 1`, which was
not in use. -/
theorem sequential_record_ids :
    (∀ recs : List BorrowRecord, (∀ r ∈ recs, r.id_ = 0) →
      ((({} : BorrowRecordRepo).saveAll recs).1.map (fun r => r.id_)) =
        (List.range recs.length).map (fun i : Nat => (i : Int) + 1)) ∧
    (∀ (s : LibraryService) (calls : List Call) (userId itemId : Int) (durationStr : String)
      (now : Int), s.records_ = {} →
      ((runCalls s calls).borrowItem userId itemId durationStr now).1 = .ok () →
      ∃ bd : BorrowDuration, BorrowDuration.parse durationStr = .ok bd ∧
        (runCalls s calls).records_.storage_.lookup ((successfulBorrows s calls : Int) + 1)
          = none ∧
        ((runCalls s calls).borrowItem userId itemId durationStr now).2.records_.storage_.lookup
            ((successfulBorrows s calls : Int) + 1) =
          some ⟨(successfulBorrows s calls : Int) + 1, itemId, userId, now,
            bd.computeDueAt now, .ACTIVE⟩) := by
  constructor
  · intro recs h
    rw [saveAll_ids recs {} h]
    apply List.map_congr_left
    intro i _
    show (1 : Int) + (i : Int) = (i : Int) + 1
    omega
  · intro s calls userId itemId durationStr now hs hok
    have hn : (runCalls s calls).records_.nextId_ = (successfulBorrows s calls : Int) + 1 := by
      rw [nextId_runCalls, hs]
      show (1 : Int) + _ = _
      omega
    have hfresh := nextId_unused_reachable calls s (by
      intro k hk
      rw [hs] at hk
      exact absurd hk (AList.not_mem_empty k))
    rcases borrowItem_cases (runCalls s calls) userId itemId durationStr now with
      ⟨e, he⟩ | ⟨usr, item, bd, _, _, _, hp, _, he⟩
    · rw [he] at hok
      cases hok
    · refine ⟨bd, hp, ?_, ?_⟩
      · rw [← hn]
        exact AList.lookup_eq_none.mpr hfresh
      · rw [he]
        simp only [borrowedState, lookup_add, hn, if_true]

/-- Witness of C17: three saves on a new repository, and the second borrow
that returns in a run on the state of `main`. -/
theorem sequential_record_ids_witness :
    ((({} : BorrowRecordRepo).saveAll
      [⟨0, 101, 201, 0, 10, .ACTIVE⟩, ⟨0, 102, 201, 1, 11, .ACTIVE⟩,
        ⟨0, 103, 201, 2, 12, .ACTIVE⟩]).1.map (fun r => r.id_)) =
      (List.range 3).map (fun i : Nat => (i : Int) + 1) ∧
    ∃ bd : BorrowDuration, BorrowDuration.parse "1 week" = .ok bd ∧
      (runCalls (mainState 0) [Call.borrowItem 201 101 "10 days" 5,
        Call.borrowItem 201 101 "10 days" 6]).records_.storage_.lookup
          ((successfulBorrows (mainState 0) [Call.borrowItem 201 101 "10 days" 5,
            Call.borrowItem 201 101 "10 days" 6] : Int) + 1) = none ∧
      ((runCalls (mainState 0) [Call.borrowItem 201 101 "10 days" 5,
        Call.borrowItem 201 101 "10 days" 6]).borrowItem 201 102 "1 week"
          7).2.records_.storage_.lookup
          ((successfulBorrows (mainState 0) [Call.borrowItem 201 101 "10 days" 5,
            Call.borrowItem 201 101 "10 days" 6] : Int) + 1) =
        some ⟨(successfulBorrows (mainState 0) [Call.borrowItem 201 101 "10 days" 5,
            Call.borrowItem 201 101 "10 days" 6] : Int) + 1, 102, 201, 7,
          bd.computeDueAt 7, .ACTIVE⟩ :=
  ⟨sequential_record_ids.1 _ (by decide),
    sequential_record_ids.2 (mainState 0) _ 201 102 "1 week" 7 rfl (by decide)⟩

/-- C18, counterexample.  `presetIdRepo` is reached from the empty repository
by one `save`, of a record that carries the id 1.  Its `nextId_` is 1 and the
key 1 is in use; saving a record with id 0 assigns it the id 1 and overwrites
the stored record. -/
theorem assigned_id_unused_counterexample :
    presetIdRepo.nextId_ = 1 ∧
    presetIdRepo.storage_.lookup 1 = some ⟨1, 101, 201, 0, 1000, .ACTIVE⟩ ∧
    (presetIdRepo.save ⟨0, 102, 202, 5, 2000, .ACTIVE⟩).1.id_ = 1 ∧
    (presetIdRepo.save ⟨0, 102, 202, 5, 2000, .ACTIVE⟩).2.storage_.lookup 1 =
      some ⟨1, 102, 202, 5, 2000, .ACTIVE⟩ ∧
    (presetIdRepo.save ⟨0, 102, 202, 5, 2000, .ACTIVE⟩).2.storage_.entries.length = 1 := by
  decide

/-- C18, amended.  In every repository reached from the empty one by saves of
records that, when saved, have the id 0 or an id below `nextId_`, saving a
record with id 0 assigns it the id `nextId_`, which is positive, above every
key in use and so not a key of the store; every stored record stays stored
under its key, and the store gains the new entry in front of the others. -/
theorem assigned_id_unused (recs : List BorrowRecord) (r : BorrowRecord)
    (hrecs : ({} : BorrowRecordRepo).savesKnownIds recs = true) (hr : r.id_ = 0) :
    ((({} : BorrowRecordRepo).saveAll recs).2.save r).1.id_ =
      (({} : BorrowRecordRepo).saveAll recs).2.nextId_ ∧
    0 < (({} : BorrowRecordRepo).saveAll recs).2.nextId_ ∧
    (∀ k : Int, k ∈ (({} : BorrowRecordRepo).saveAll recs).2.storage_ →
      k < (({} : BorrowRecordRepo).saveAll recs).2.nextId_) ∧
    (({} : BorrowRecordRepo).saveAll recs).2.nextId_ ∉
      (({} : BorrowRecordRepo).saveAll recs).2.storage_ ∧
    ((({} : BorrowRecordRepo).saveAll recs).2.save r).2.storage_.entries =
      ⟨(({} : BorrowRecordRepo).saveAll recs).2.nextId_,
        r.setId (({} : BorrowRecordRepo).saveAll recs).2.nextId_⟩ ::
        (({} : BorrowRecordRepo).saveAll recs).2.storage_.entries ∧
    ((({} : BorrowRecordRepo).saveAll recs).2.save r).2.nextId_ =
      (({} : BorrowRecordRepo).saveAll recs).2.nextId_ + 1 := by
  obtain ⟨h1, h2⟩ := keysBelow_saveAll recs {} hrecs (by decide)
    (fun k hk => absurd hk (AList.not_mem_empty k))
  generalize (({} : BorrowRecordRepo).saveAll recs).2 = repo at h1 h2
  obtain ⟨e1, e2, e3⟩ := save_zero repo r hr
  have hfresh : repo.nextId_ ∉ repo.storage_ := fun hm => by
    have := h2 _ hm
    omega
  refine ⟨by rw [e1]; rfl, by omega, h2, hfresh, ?_, e2⟩
  rw [e3]
  unfold Storage.set
  rw [if_neg hfresh]
  exact AList.insert_entries_of_neg hfresh

/-- Witness of C18 (amended): two saves with id 0, a repeated save of the
first stored record under its id 1, then a save with id 0, which gets id 3. -/
theorem assigned_id_unused_witness :
    ((({} : BorrowRecordRepo).saveAll
      [⟨0, 101, 201, 0, 10, .ACTIVE⟩, ⟨0, 102, 201, 1, 11, .ACTIVE⟩,
        ⟨1, 101, 201, 0, 10, .RETURNED⟩]).2.save ⟨0, 103, 201, 2, 12, .ACTIVE⟩).1.id_ = 3 :=
  (assigned_id_unused
    [⟨0, 101, 201, 0, 10, .ACTIVE⟩, ⟨0, 102, 201, 1, 11, .ACTIVE⟩,
      ⟨1, 101, 201, 0, 10, .RETURNED⟩] ⟨0, 103, 201, 2, 12, .ACTIVE⟩ (by decide) (by decide)).1

/-- C19. The result of `searchByType` is the snapshot of the stored items
filtered by the test `typeName() == typeName`: an item is in the result exactly
when it is stored under some key and its variant name equals the argument
character for character, and the result has one element for each such entry;
the result is the empty list, not an error, when the argument is none of
"Book", "Audiobook", "EMagazine" (so for "book").  The call only reads the item
store (`findByType` is a `const` member), so it yields a result and no new
state. -/
theorem searchByType_exact (s : LibraryService) (typeName : String) :
    s.searchByType typeName =
      s.items_.all.filter (fun it => decide (it.typeName = typeName)) ∧
    (∀ it : Item, it ∈ s.searchByType typeName ↔
      (∃ k : Int, s.items_.lookup k = some it) ∧ it.typeName = typeName) ∧
    (s.searchByType typeName).length =
      (s.items_.entries.filter (fun e => decide (e.2.typeName = typeName))).length ∧
    (typeName ≠ "Book" → typeName ≠ "Audiobook" → typeName ≠ "EMagazine" →
      s.searchByType typeName = []) ∧
    s.searchByType "book" = [] := by
  have hmem : ∀ it : Item, it ∈ s.searchByType typeName ↔
      (∃ k : Int, s.items_.lookup k = some it) ∧ it.typeName = typeName := by
    intro it
    simp only [LibraryService.searchByType, findByType, List.mem_map, List.mem_filter,
      decide_eq_true_eq]
    constructor
    · rintro ⟨⟨k, v⟩, ⟨hm, ht⟩, rfl⟩
      exact ⟨⟨k, (Storage.mem_entries_iff _ _ _).mp hm⟩, ht⟩
    · rintro ⟨⟨k, hk⟩, ht⟩
      exact ⟨⟨k, it⟩, ⟨(Storage.mem_entries_iff _ _ _).mpr hk, ht⟩, rfl⟩
  have hnone : ∀ t : String, t ≠ "Book" → t ≠ "Audiobook" → t ≠ "EMagazine" →
      s.searchByType t = [] := by
    intro t h1 h2 h3
    simp only [LibraryService.searchByType, findByType, List.map_eq_nil_iff,
      List.filter_eq_nil_iff, decide_eq_true_eq]
    intro e _ he
    rcases typeName_cases e.2 with h | h | h <;> rw [h] at he
    · exact h1 he.symm
    · exact h2 he.symm
    · exact h3 he.symm
  refine ⟨findByType_eq_filter _ _, hmem, ?_, hnone typeName, ?_⟩
  · simp [LibraryService.searchByType, findByType]
  · exact hnone "book" (by decide) (by decide) (by decide)

/-- Witness of C19: the items of `main` searched by "Book" and by "book". -/
theorem searchByType_exact_witness :
    (mainState 0).searchByType "Book" =
      [⟨101, "Design Patterns", ["Gamma", "Helm", "Johnson", "Vlissides"], .AVAILABLE, [],
        .Book 395⟩] ∧
    (mainState 0).searchByType "Tape" = [] :=
  ⟨by decide, (searchByType_exact (mainState 0) "Tape").2.2.2.1 (by decide) (by decide)
    (by decide)⟩

/-- C21. The date-range grammar does not have to cover the whole input.  For
valid calendar dates `d1` and `d2` written as `YYYY-MM-DD`, every run of
characters `pre` without a hyphen and every run of characters `suf`: `parse`
of `pre`, the range "d1 to d2" and `suf` put together gives what `parse` of
the range alone gives, because `rangeRx` is searched for anywhere in the
input; when `d1` is earlier than `d2`, both between 1677-09-22 and 2262-04-11
(the days whose midnight the 64-bit nanosecond clock can hold), the call
returns the duration that is due on `d2` instead of throwing
`InvalidInputException`. -/
theorem parse_date_range_embedded (y1 m1 d1 y2 m2 d2 : Nat) (pre suf : List Char)
    (hv1 : validDate y1 m1 d1 = true) (hv2 : validDate y2 m2 d2 = true)
    (hp : '-' ∉ pre) :
    BorrowDuration.parse
        (String.mk (pre ++ (fmtDate y1 m1 d1 ++ " to ".data ++ fmtDate y2 m2 d2) ++ suf)) =
      BorrowDuration.parse
        (String.mk (fmtDate y1 m1 d1 ++ " to ".data ++ fmtDate y2 m2 d2)) ∧
    (dateBefore y1 m1 d1 y2 m2 d2 = true → inClockRange y1 m1 d1 = true →
      inClockRange y2 m2 d2 = true →
      BorrowDuration.parse
          (String.mk (pre ++ (fmtDate y1 m1 d1 ++ " to ".data ++ fmtDate y2 m2 d2) ++ suf)) =
        .ok { explicitRange_ := true, end_ := dateTimePoint y2 m2 d2 }) := by
  have h1 := parseChars_embedded_range y1 m1 d1 y2 m2 d2 hv1 hv2 pre suf hp
  have h2 := parseChars_embedded_range y1 m1 d1 y2 m2 d2 hv1 hv2 [] [] (by simp)
  rw [List.nil_append, List.append_nil] at h2
  refine ⟨?_, fun hb hr1 hr2 => ?_⟩
  · show parseChars _ = parseChars _
    rw [h1, h2]
  · have hlt := dayNumber_lt y1 m1 d1 y2 m2 d2 hv1 hv2 hb
    have hcmp := dateTimePoint_le_iff y1 m1 d1 y2 m2 d2 hv1 hv2 hr1 hr2
    show parseChars _ = _
    rw [h1, parseRange_dates y1 m1 d1 y2 m2 d2 hv1 hv2, if_neg (by omega)]

/-- Witness of C21: `parse("from 2024-01-01 to 2024-01-10 please")` and
`parse("12024-01-01 to 2024-01-100")` both return the duration that is due on
2024-01-10, 1704844800 seconds after the epoch. -/
theorem parse_date_range_embedded_witness :
    BorrowDuration.parse "from 2024-01-01 to 2024-01-10 please" =
      .ok { explicitRange_ := true, end_ := 1704844800 * ticksPerSecond } ∧
    BorrowDuration.parse "12024-01-01 to 2024-01-100" =
      .ok { explicitRange_ := true, end_ := 1704844800 * ticksPerSecond } :=
  ⟨(parse_date_range_embedded 2024 1 1 2024 1 10 "from ".data " please".data (by decide)
      (by decide) (by decide)).2 (by decide) (by decide) (by decide),
    (parse_date_range_embedded 2024 1 1 2024 1 10 "1".data "0".data (by decide)
      (by decide) (by decide)).2 (by decide) (by decide) (by decide)⟩

/-- C22, counterexample.  In the state of `main`, at an instant `now` on
2027-01-15 (1800000000 seconds after the epoch), user 201 asks for the
AVAILABLE book 101 for "1500-01-01 to 1600-01-01", a range of valid dates
whose end date is before `now`.  Both dates are before the first time point of
the 64-bit nanosecond clock; the conversion of `from_time_t` wraps them to
time points in the years 2084 and 2184, so `parse` returns, the due time is
after `now`, and the call returns: the book is BORROWED and a record is
stored. -/
theorem borrowItem_non_future_counterexample :
    (mainState 0).users_.findById 201 = some ⟨201, "Somen Mishra", 5⟩ ∧
    ((mainState 0).items_.findById 101).map (fun it => it.status_) = some .AVAILABLE ∧
    validDate 1500 1 1 = true ∧ validDate 1600 1 1 = true ∧
    dateBefore 1500 1 1 1600 1 1 = true ∧ dateBefore 1600 1 1 2027 1 15 = true ∧
    dateTimePoint 2027 1 15 ≤ 1800000000 * ticksPerSecond ∧
    ((mainState 0).borrowItem 201 101 "1500-01-01 to 1600-01-01"
      (1800000000 * ticksPerSecond)).1 = .ok () ∧
    (((mainState 0).borrowItem 201 101 "1500-01-01 to 1600-01-01"
      (1800000000 * ticksPerSecond)).2.items_.findById 101).map (fun it => it.status_) =
        some .BORROWED ∧
    ((mainState 0).borrowItem 201 101 "1500-01-01 to 1600-01-01"
      (1800000000 * ticksPerSecond)).2.records_.storage_.lookup 1 =
        some ⟨1, 101, 201, 1800000000 * ticksPerSecond, 6770648073709551616, .ACTIVE⟩ := by
  decide

/-- C22. A due date that is not in the future is rejected.  In every state in
which the user exists and the item exists with status AVAILABLE, at every
instant `now` of the clock: whenever `parse` returns a duration whose
`computeDueAt(now)` is not after `now`, `borrowItem` throws
`InvalidInputException`, "Computed due date must be in the future", and the
state after the call is the state before it, so the item is still AVAILABLE
and the record store is as it was.  This is the case for every duration
written as optional white space, one or more digits `0`, optional white space,
a unit (day, days, d, week, weeks, w, hour, hours, h in any mix of upper and
lower case) and optional white space, and for every range "d1 to d2" of valid
calendar dates between 1677-09-22 and 2262-04-11 (the days whose midnight the
64-bit nanosecond clock can hold), `d1` earlier than `d2`, with the time point
of `d2` not after `now`. -/
theorem borrowItem_non_future (s : LibraryService) (userId itemId : Int) (usr : User)
    (item : Item) (now : Int)
    (hu : s.users_.findById userId = some usr) (hi : s.items_.findById itemId = some item)
    (ha : item.status_ = .AVAILABLE) (hclock : fitsInt64 now = true) :
    (∀ (durationStr : String) (bd : BorrowDuration),
      BorrowDuration.parse durationStr = .ok bd → bd.computeDueAt now ≤ now →
      s.borrowItem userId itemId durationStr now =
          (.error ⟨.InvalidInputException, "Computed due date must be in the future"⟩, s) ∧
        (s.borrowItem userId itemId durationStr now).2.items_.findById itemId = some item ∧
        (s.borrowItem userId itemId durationStr now).2.records_ = s.records_) ∧
    (∀ (w1 zs w2 unit w3 : List Char), (∀ c ∈ w1, isSpace c = true) → zs ≠ [] →
      (∀ c ∈ zs, c = '0') → (∀ c ∈ w2, isSpace c = true) →
      isUnit (unit.map toLower) = true → (∀ c ∈ w3, isSpace c = true) →
      s.borrowItem userId itemId (String.mk (w1 ++ zs ++ w2 ++ unit ++ w3)) now =
        (.error ⟨.InvalidInputException, "Computed due date must be in the future"⟩, s)) ∧
    (∀ (y1 m1 d1 y2 m2 d2 : Nat), validDate y1 m1 d1 = true → validDate y2 m2 d2 = true →
      dateBefore y1 m1 d1 y2 m2 d2 = true → inClockRange y1 m1 d1 = true →
      inClockRange y2 m2 d2 = true → dateTimePoint y2 m2 d2 ≤ now →
      s.borrowItem userId itemId
          (String.mk (fmtDate y1 m1 d1 ++ " to ".data ++ fmtDate y2 m2 d2)) now =
        (.error ⟨.InvalidInputException, "Computed due date must be in the future"⟩, s)) := by
  refine ⟨?_, ?_, ?_⟩
  · intro durationStr bd hp hd
    have h := borrowItem_due_not_after s userId itemId durationStr now usr item bd hu hi ha hp hd
    rw [h]
    exact ⟨rfl, hi, rfl⟩
  · intro w1 zs w2 unit w3 h1 hne hz h2 hunit h3
    have hz0 : fitsInt64 ((0 : Int) * ticksPerHour) = true := by decide
    have hz1 : fitsInt64 (now + (0 : Int) * ticksPerHour) = true := by
      rw [zero_mul, add_zero]
      exact hclock
    have hdue := computeDueAt_exact 0 now hz0 hz1
    refine borrowItem_due_not_after s userId itemId _ now usr item { dur_ := 0 } hu hi ha
      (parseChars_zero w1 zs w2 unit w3 h1 hne hz h2 hunit h3) ?_
    omega
  · intro y1 m1 d1 y2 m2 d2 hv1 hv2 hb hr1 hr2 hnow
    have hlt := dayNumber_lt y1 m1 d1 y2 m2 d2 hv1 hv2 hb
    refine borrowItem_due_not_after s userId itemId _ now usr item
      { explicitRange_ := true, end_ := dateTimePoint y2 m2 d2 } hu hi ha ?_ ?_
    · show parseChars _ = _
      rw [parseChars_range_clock y1 m1 d1 y2 m2 d2 hv1 hv2 hr1 hr2, if_neg (by omega)]
    · simpa [BorrowDuration.computeDueAt] using hnow

/-- Witness of C22: in the state of `main`, at an instant 1800000000 seconds
after the epoch (in 2027), user 201 asks for the book 101 for "0 days", for
"0 weeks", for "0 h" and for "2024-01-01 to 2024-01-10"; each call throws and
the state stays that of `main`. -/
theorem borrowItem_non_future_witness :
    (mainState 0).borrowItem 201 101 "0 days" (1800000000 * ticksPerSecond) =
      (.error ⟨.InvalidInputException, "Computed due date must be in the future"⟩,
        mainState 0) ∧
    (mainState 0).borrowItem 201 101 "0 weeks" (1800000000 * ticksPerSecond) =
      (.error ⟨.InvalidInputException, "Computed due date must be in the future"⟩,
        mainState 0) ∧
    (mainState 0).borrowItem 201 101 "0 h" (1800000000 * ticksPerSecond) =
      (.error ⟨.InvalidInputException, "Computed due date must be in the future"⟩,
        mainState 0) ∧
    (mainState 0).borrowItem 201 101 "2024-01-01 to 2024-01-10"
        (1800000000 * ticksPerSecond) =
      (.error ⟨.InvalidInputException, "Computed due date must be in the future"⟩,
        mainState 0) :=
  ⟨(borrowItem_non_future (mainState 0) 201 101 ⟨201, "Somen Mishra", 5⟩
      ⟨101, "Design Patterns", ["Gamma", "Helm", "Johnson", "Vlissides"], .AVAILABLE, [],
        .Book 395⟩ (1800000000 * ticksPerSecond) rfl rfl rfl (by decide)).2.1
      [] "0".data " ".data "days".data [] (by decide) (by decide) (by decide) (by decide)
      (by decide) (by decide),
    (borrowItem_non_future (mainState 0) 201 101 ⟨201, "Somen Mishra", 5⟩
      ⟨101, "Design Patterns", ["Gamma", "Helm", "Johnson", "Vlissides"], .AVAILABLE, [],
        .Book 395⟩ (1800000000 * ticksPerSecond) rfl rfl rfl (by decide)).2.1
      [] "0".data " ".data "weeks".data [] (by decide) (by decide) (by decide) (by decide)
      (by decide) (by decide),
    (borrowItem_non_future (mainState 0) 201 101 ⟨201, "Somen Mishra", 5⟩
      ⟨101, "Design Patterns", ["Gamma", "Helm", "Johnson", "Vlissides"], .AVAILABLE, [],
        .Book 395⟩ (1800000000 * ticksPerSecond) rfl rfl rfl (by decide)).2.1
      [] "0".data " ".data "h".data [] (by decide) (by decide) (by decide) (by decide)
      (by decide) (by decide),
    (borrowItem_non_future (mainState 0) 201 101 ⟨201, "Somen Mishra", 5⟩
      ⟨101, "Design Patterns", ["Gamma", "Helm", "Johnson", "Vlissides"], .AVAILABLE, [],
        .Book 395⟩ (1800000000 * ticksPerSecond) rfl rfl rfl (by decide)).2.2
      2024 1 1 2024 1 10 (by decide) (by decide) (by decide) (by decide) (by decide)
      (by decide)⟩

end LibraNet
